import Mathlib

/-! # Volume manager (`volumes.c`): shallow embedding and verified properties

The development embeds the multi-device volume manager of the repository:
the logical-to-physical translation `btrfs_map_block`, the device-extent
allocator `find_free_dev_extent` / `btrfs_alloc_dev_extent`, the chunk
allocator `btrfs_alloc_chunk`, the device registry (`device_list_add`,
`btrfs_open_devices`, `btrfs_close_devices`), the array of system chunks
(`btrfs_add_system_chunk`, `btrfs_read_sys_array`) and the reading of the
chunk tree (`read_one_dev`, `read_one_chunk`, `btrfs_read_chunk_tree`).

Conventions of the embedding

* `u64` values are natural numbers below `2^64`; every C operation on them
  is written with its wrap-around (`u64`, `u64_sub`).
* C `int` values are integers; the conversions the C compiler inserts are
  explicit (`u64_of_int`, `int_of_u64`).
* A failed `BUG_ON`, a division by zero and an out-of-range array access
  are the three ways a call can abort (`fault`); error returns of the C
  functions are values of `errno`.
* Constants declared in `ctree.h` (not part of the verified source file)
  are taken as a parameter `K : ctree_consts`; every theorem holds for all
  values of them.
-/

namespace Volumes

/-! ## Machine arithmetic -/

/-- Truncation of a natural number to 64 bits. -/
def u64 (x : Nat) : Nat := x % 18446744073709551616

/-- The C subtraction `a - b` on `u64` operands. -/
def u64_sub (a b : Nat) : Nat := (a + 18446744073709551616 - b % 18446744073709551616) % 18446744073709551616

/-- The conversion of a C `int` to `u64` (usual arithmetic conversions). -/
def u64_of_int (i : Int) : Nat := (i % 18446744073709551616).toNat

/-- The conversion of a `u64` to a 32-bit C `int` (two's complement truncation). -/
def int_of_u64 (x : Nat) : Int := ((x : Int) + 2147483648) % 4294967296 - 2147483648

/-- The ways a call can abort instead of returning. -/
inductive fault where
  | BUG
  | div_by_zero
  | out_of_bounds
  deriving DecidableEq, Repr

/-- The error codes the functions return (as `-E...` in C). -/
inductive errno where
  | ENOSPC
  | ENOMEM
  | ENOENT
  | EEXIST
  | EIO
  | EFBIG
  deriving DecidableEq, Repr

/-- Constants of `ctree.h` used by `volumes.c`; the header is not part of the
verified source, so their values are a parameter of the embedding. -/
structure ctree_consts where
  BTRFS_BLOCK_GROUP_DATA : Nat
  BTRFS_BLOCK_GROUP_SYSTEM : Nat
  BTRFS_BLOCK_GROUP_METADATA : Nat
  BTRFS_BLOCK_GROUP_RAID0 : Nat
  BTRFS_DEV_ITEMS_OBJECTID : Nat
  BTRFS_DEV_ITEM_KEY : Nat
  BTRFS_DEV_EXTENT_KEY : Nat
  BTRFS_CHUNK_ITEM_KEY : Nat
  BTRFS_SYSTEM_CHUNK_ARRAY_SIZE : Nat
  deriving DecidableEq, Repr

/-! ## Mapping index -/

/-- `struct stripe`: a device pointer and a physical offset. The pointer is
the identity (`ptr`) of the device object. -/
structure stripe where
  dev : Nat
  physical : Nat
  deriving DecidableEq, Repr

/-- `struct cache_extent`: the key of the interval cache. -/
structure cache_extent where
  start : Nat
  size : Nat
  deriving DecidableEq, Repr

/-- `struct map_lookup`. -/
structure map_lookup where
  ce : cache_extent
  type : Nat
  io_align : Int
  io_width : Int
  stripe_len : Int
  sector_size : Int
  num_stripes : Int
  stripes : List stripe
  deriving DecidableEq, Repr

/-- The interval cache of the mapping tree, in ascending order of `start`. -/
abbrev cache_tree := List map_lookup

/-- Modelled from the spec: `find_first_cache_extent` belongs to the interval
cache (`extent-cache.c`), which is not part of the verified source. Spec
section 4.4: "find the first entry with `start ≤ logical`", section 9:
"lookup is entry with greatest start ≤ query". On the ascending list this is
the last entry whose start is at most `logical`. -/
def find_first_cache_extent : cache_tree → Nat → Option map_lookup
  | [], _ => none
  | m :: rest, logical =>
    if m.ce.start ≤ logical then
      match find_first_cache_extent rest logical with
      | some m2 => some m2
      | none => some m
    else none

/-- Modelled from the spec: `insert_existing_cache_extent` belongs to the
interval cache (`extent-cache.c`), which is not part of the verified source.
Spec section 3: the index is "ordered by logical start; intervals are
non-overlapping". The entry is put at its place in the order; the insert
fails with `EEXIST` when the new interval overlaps an existing one. -/
def insert_existing_cache_extent : cache_tree → map_lookup → Except errno cache_tree
  | [], pe => .ok [pe]
  | e :: rest, pe =>
    if pe.ce.start + pe.ce.size ≤ e.ce.start then .ok (pe :: e :: rest)
    else if e.ce.start + e.ce.size ≤ pe.ce.start then
      match insert_existing_cache_extent rest pe with
      | .ok t => .ok (e :: t)
      | .error x => .error x
    else .error errno.EEXIST

/-- The triple written by `btrfs_map_block` through `phys`, `length`, `dev`. -/
structure block_mapping where
  dev : Nat
  phys : Nat
  length : Nat
  deriving DecidableEq, Repr

/-- The body of `btrfs_map_block` after the lookup, for the entry `map` the
lookup returned (`volumes.c` lines 708-746). -/
def map_block_entry (K : ctree_consts) (map : map_lookup) (logical : Nat) :
    Except fault block_mapping :=
  -- BUG_ON(ce->start > logical || ce->start + ce->size < logical);
  if map.ce.start > logical ∨ u64 (map.ce.start + map.ce.size) < logical then .error fault.BUG
  else
    let offset := u64_sub logical map.ce.start
    -- stripe_nr = stripe_nr / map->stripe_len;
    if u64_of_int map.stripe_len = 0 then .error fault.div_by_zero
    else
      let stripe_nr := offset / u64_of_int map.stripe_len
      let stripe_offset := u64 (stripe_nr * u64_of_int map.stripe_len)
      -- BUG_ON(offset < stripe_offset);
      if offset < stripe_offset then .error fault.BUG
      else
        let stripe_offset := u64_sub offset stripe_offset
        -- stripe_index = stripe_nr % map->num_stripes;
        if u64_of_int map.num_stripes = 0 then .error fault.div_by_zero
        else
          let stripe_index : Int := int_of_u64 (stripe_nr % u64_of_int map.num_stripes)
          let stripe_nr := stripe_nr / u64_of_int map.num_stripes
          -- BUG_ON(stripe_index >= map->num_stripes);
          if stripe_index ≥ map.num_stripes then .error fault.BUG
          else if stripe_index < 0 then .error fault.out_of_bounds
          else
            match map.stripes[stripe_index.toNat]? with
            | none => .error fault.out_of_bounds
            | some s =>
              let phys := u64 (s.physical + stripe_offset + u64 (stripe_nr * u64_of_int map.stripe_len))
              let length :=
                if Nat.land map.type K.BTRFS_BLOCK_GROUP_RAID0 ≠ 0 then
                  min (u64_sub map.ce.size offset) (u64_sub (u64_of_int map.stripe_len) stripe_offset)
                else u64_sub map.ce.size offset
              .ok { dev := s.dev, phys := phys, length := length }

/-- `btrfs_map_block` (`volumes.c` lines 695-747). -/
def btrfs_map_block (K : ctree_consts) (map_tree : cache_tree) (logical : Nat) :
    Except fault block_mapping :=
  match find_first_cache_extent map_tree logical with
  | none => .error fault.BUG          -- BUG_ON(!ce);
  | some map => map_block_entry K map logical

/-- The values of a mapping entry inhabit their C types: `u64` fields are
below `2^64`, `int` fields are in the range of a 32-bit `int`, and the
flexible array `stripes` has the `num_stripes` elements it was allocated
with (`map_lookup_size(num_stripes)`). -/
def map_lookup.typed (m : map_lookup) : Prop :=
  m.ce.start < 18446744073709551616 ∧ m.ce.size < 18446744073709551616 ∧
  m.type < 18446744073709551616 ∧
  -2147483648 ≤ m.stripe_len ∧ m.stripe_len < 2147483648 ∧
  -2147483648 ≤ m.num_stripes ∧ m.num_stripes < 2147483648 ∧
  (m.stripes.length : Int) = max m.num_stripes 0 ∧
  ∀ s ∈ m.stripes, s.physical < 18446744073709551616

/-- The translation of spec section 4.4, written from the spec's words over
unbounded natural numbers: `offset`, `stripe_nr`, `stripe_offset`,
`stripe_index`, `stripe_round`, then device, physical offset and length. -/
def spec_map_block (K : ctree_consts) (ce : map_lookup) (logical : Nat) : Option block_mapping :=
  let offset := logical - ce.ce.start
  let stripe_len := ce.stripe_len.toNat
  let num_stripes := ce.num_stripes.toNat
  let stripe_nr := offset / stripe_len
  let stripe_offset := offset - stripe_nr * stripe_len
  let stripe_index := stripe_nr % num_stripes
  let stripe_round := stripe_nr / num_stripes
  match ce.stripes[stripe_index]? with
  | none => none
  | some s =>
    some { dev := s.dev
           phys := s.physical + stripe_round * stripe_len + stripe_offset
           length :=
             if Nat.land ce.type K.BTRFS_BLOCK_GROUP_RAID0 ≠ 0 then
               min (ce.ce.size - offset) (stripe_len - stripe_offset)
             else ce.ce.size - offset }

/-- The invariant of the interval cache: ascending and non-overlapping, every
entry ends (as a natural number) at or before the start of each later one. -/
def cache_tree_wf (t : cache_tree) : Prop :=
  t.Pairwise (fun a b => a.ce.start + a.ce.size ≤ b.ce.start)

instance (m : map_lookup) : Decidable m.typed := by
  unfold map_lookup.typed; infer_instance

instance (t : cache_tree) : Decidable (cache_tree_wf t) := by
  unfold cache_tree_wf; infer_instance

/-- One admissible value of the header constants, used to evaluate the
definitions on concrete inputs (flag bits 1, 2, 4, 8; key types 75, 76, 77;
an array of 2048 bytes). -/
def K0 : ctree_consts :=
  { BTRFS_BLOCK_GROUP_DATA := 1
    BTRFS_BLOCK_GROUP_SYSTEM := 2
    BTRFS_BLOCK_GROUP_METADATA := 4
    BTRFS_BLOCK_GROUP_RAID0 := 8
    BTRFS_DEV_ITEMS_OBJECTID := 1
    BTRFS_DEV_ITEM_KEY := 76
    BTRFS_DEV_EXTENT_KEY := 75
    BTRFS_CHUNK_ITEM_KEY := 77
    BTRFS_SYSTEM_CHUNK_ARRAY_SIZE := 2048 }

/-- A two-stripe RAID0 chunk `[0, 16)` with stripe length 4 on devices 1 and 2. -/
def ex_raid0 : map_lookup :=
  { ce := { start := 0, size := 16 }, type := 9, io_align := 4, io_width := 4,
    stripe_len := 4, sector_size := 4, num_stripes := 2,
    stripes := [{ dev := 1, physical := 100 }, { dev := 2, physical := 200 }] }

/-- A single-stripe chunk `[16, 24)` without RAID0 on device 1. -/
def ex_single : map_lookup :=
  { ce := { start := 16, size := 8 }, type := 1, io_align := 4, io_width := 4,
    stripe_len := 4, sector_size := 4, num_stripes := 1,
    stripes := [{ dev := 1, physical := 300 }] }

/-! ## B-tree items and helpers -/

/-- `struct btrfs_key` in cpu order. -/
structure btrfs_key where
  objectid : Nat
  type : Nat
  offset : Nat
  deriving DecidableEq, Repr

/-- Modelled from the spec: the order of the keys of a B-tree
(`btrfs_comp_keys` belongs to `ctree.c`, which is not part of the verified
source). Spec section 4.5: the walk of a catalog is "alphabetical" in
`(objectid, type, offset)`. -/
def btrfs_key_lt (a b : btrfs_key) : Prop :=
  a.objectid < b.objectid ∨
    (a.objectid = b.objectid ∧ (a.type < b.type ∨ (a.type = b.type ∧ a.offset < b.offset)))

instance (a b : btrfs_key) : Decidable (btrfs_key_lt a b) := by
  unfold btrfs_key_lt; infer_instance

/-- Modelled from the spec: `search_slot(root, key) → path` of the B-tree store
(`ctree.c`, not part of the verified source). A tree is the list of its items
in key order, its leaves laid end to end; the path is the slot of the first
item whose key is not below `key`. The return value is 0 when that item
carries exactly `key` and 1 otherwise. The argument is the list of the keys of
the items. -/
def btrfs_search_slot : List btrfs_key → btrfs_key → Int × Nat
  | [], _ => (1, 0)
  | k :: rest, key =>
    if btrfs_key_lt k key then ((btrfs_search_slot rest key).1, (btrfs_search_slot rest key).2 + 1)
    else if k = key then (0, 0)
    else (1, 0)

/-- Modelled from the spec: `previous_item(root, path, objectid, type)` of the
B-tree store (`ctree.c`, not part of the verified source). Spec section 4.2:
"step one slot back"; the walk goes back from `slot` to the nearest earlier
item of key type `type` and returns 0 there, or returns 1 at the first slot of
the tree when there is none. -/
def btrfs_previous_item (keys : List btrfs_key) (type : Nat) : Nat → Int × Nat
  | 0 => (1, 0)
  | slot + 1 =>
    match keys[slot]? with
    | some k => if k.type = type then (0, slot) else btrfs_previous_item keys type slot
    | none => btrfs_previous_item keys type slot

/-- Modelled from the spec: `insert_empty_item(root, path, key, size)` and
`insert_item(root, path, key, bytes)` of the B-tree store (`ctree.c`, not part
of the verified source). The item is put at its place in key order; the insert
fails with `EEXIST` when the tree already holds an item with the same key. -/
def btrfs_insert_item {ι : Type} (key_of : ι → btrfs_key) : List ι → ι → Except errno (List ι)
  | [], x => .ok [x]
  | y :: rest, x =>
    if btrfs_key_lt (key_of x) (key_of y) then .ok (x :: y :: rest)
    else if key_of y = key_of x then .error errno.EEXIST
    else
      match btrfs_insert_item key_of rest x with
      | .ok t => .ok (y :: t)
      | .error e => .error e

/-! ## Devices and the device tree -/

/-- An item of the device tree: its key and the payload as read by the
accessors of `struct btrfs_dev_extent` (`owner`, `length`). -/
structure dev_extent_item where
  key : btrfs_key
  owner : Nat
  length : Nat
  deriving DecidableEq, Repr

/-- `struct btrfs_device`. `ptr` is the address of the object, its identity in
the linked lists and in `struct stripe`. The uuid is left out: no function of
the embedding depends on it. Every device of a filesystem shares the device
tree of that filesystem (`device->dev_root = root->fs_info->dev_root`). -/
structure btrfs_device where
  ptr : Nat
  devid : Nat
  total_bytes : Nat
  bytes_used : Nat
  type : Nat
  io_align : Nat
  io_width : Nat
  sector_size : Nat
  fd : Int
  name : String
  deriving DecidableEq, Repr

/-- The label `check_pending` of `find_free_dev_extent` (`volumes.c` lines
302-314) with `*start = start`. -/
def check_pending (num_bytes search_start search_end start : Nat) :
    Except fault (Except errno Nat) :=
  -- BUG_ON(*start < search_start);
  if start < search_start then .error fault.BUG
  -- if (*start + num_bytes > search_end)
  else if u64 (start + num_bytes) > search_end then .ok (.error errno.ENOSPC)
  else .ok (.ok start)

/-- The label `no_more_items` of `find_free_dev_extent` (`volumes.c` lines
254-270). -/
def no_more_items (num_bytes search_start search_end last_byte : Nat) (start_found : Bool) :
    Except fault (Except errno Nat) :=
  if !start_found then
    if search_start ≥ search_end then .ok (.error errno.ENOSPC)
    else check_pending num_bytes search_start search_end search_start
  else
    let start := if last_byte > search_start then last_byte else search_start
    if search_end ≤ start then .ok (.error errno.ENOSPC)
    else check_pending num_bytes search_start search_end start

/-- The `while (1)` loop of `find_free_dev_extent` (`volumes.c` lines 245-301)
over the items from the current slot on, with the loop variables `last_byte`
and `start_found`. The end of the list is the end of the last leaf
(`btrfs_next_leaf` returns 1). -/
def find_free_dev_extent_loop (K : ctree_consts) (devid num_bytes search_start search_end : Nat) :
    List dev_extent_item → Nat → Bool → Except fault (Except errno Nat)
  | [], last_byte, start_found =>
    no_more_items num_bytes search_start search_end last_byte start_found
  | it :: rest, last_byte, start_found =>
    -- if (key.objectid < device->devid) goto next;
    if it.key.objectid < devid then
      find_free_dev_extent_loop K devid num_bytes search_start search_end rest last_byte start_found
    -- if (key.objectid > device->devid) goto no_more_items;
    else if it.key.objectid > devid then
      no_more_items num_bytes search_start search_end last_byte start_found
    else
      let gap : Bool :=
        decide (it.key.offset ≥ search_start) && decide (it.key.offset > last_byte) && start_found
      let last_byte1 := if gap && decide (last_byte < search_start) then search_start else last_byte
      let hole_size := u64_sub it.key.offset last_byte1
      if gap && decide (it.key.offset > last_byte1) && decide (hole_size ≥ num_bytes) then
        check_pending num_bytes search_start search_end last_byte1
      -- if (btrfs_key_type(&key) != BTRFS_DEV_EXTENT_KEY) goto next;
      else if it.key.type ≠ K.BTRFS_DEV_EXTENT_KEY then
        find_free_dev_extent_loop K devid num_bytes search_start search_end rest last_byte1 start_found
      else
        -- start_found = 1; last_byte = key.offset + btrfs_dev_extent_length(l, dev_extent);
        find_free_dev_extent_loop K devid num_bytes search_start search_end rest
          (u64 (it.key.offset + it.length)) true

/-- `find_free_dev_extent` (`volumes.c` lines 212-319) on the device tree
`dev_root` of the device. The result is the value stored through `start` on
success, the error code on an error return. -/
def find_free_dev_extent (K : ctree_consts) (dev_root : List dev_extent_item)
    (device : btrfs_device) (num_bytes : Nat) : Except fault (Except errno Nat) :=
  let search_start := 0
  let search_end := device.total_bytes
  let key : btrfs_key :=
    { objectid := device.devid, offset := search_start, type := K.BTRFS_DEV_EXTENT_KEY }
  let keys := dev_root.map (fun it => it.key)
  let slot := (btrfs_search_slot keys key).2
  let slot := (btrfs_previous_item keys key.type slot).2
  find_free_dev_extent_loop K device.devid num_bytes search_start search_end
    (dev_root.drop slot) 0 false

/-- The item `btrfs_alloc_dev_extent` inserts for a device (`volumes.c` lines
341-352): key `(devid, DEV_EXTENT_KEY, start)`, owner and length. -/
def new_dev_extent (K : ctree_consts) (devid owner num_bytes start : Nat) : dev_extent_item :=
  { key := { objectid := devid, offset := start, type := K.BTRFS_DEV_EXTENT_KEY }
    owner := owner
    length := num_bytes }

/-- `btrfs_alloc_dev_extent` (`volumes.c` lines 321-357): the start found and
the device tree after the insertion of the new item. The path allocation is
taken to succeed. -/
def btrfs_alloc_dev_extent (K : ctree_consts) (dev_root : List dev_extent_item)
    (device : btrfs_device) (owner num_bytes : Nat) :
    Except fault (Except errno (Nat × List dev_extent_item)) :=
  match find_free_dev_extent K dev_root device num_bytes with
  | .error f => .error f
  | .ok (.error e) => .ok (.error e)
  | .ok (.ok start) =>
    match btrfs_insert_item (fun it => it.key) dev_root
        (new_dev_extent K device.devid owner num_bytes start) with
    | .error _ => .error fault.BUG      -- BUG_ON(ret);
    | .ok dev_root1 => .ok (.ok (start, dev_root1))

/-- The extents of a device recorded in a device tree, as pairs
`(offset, length)` in tree order. -/
def dev_extents (K : ctree_consts) (dev_root : List dev_extent_item) (devid : Nat) :
    List (Nat × Nat) :=
  (dev_root.filter
    (fun it => decide (it.key.objectid = devid) && decide (it.key.type = K.BTRFS_DEV_EXTENT_KEY))).map
    (fun it => (it.key.offset, it.length))

/-- The device tree is in key order. -/
def dev_tree_sorted (dev_root : List dev_extent_item) : Prop :=
  dev_root.Pairwise (fun a b => btrfs_key_lt a.key b.key)

instance (t : List dev_extent_item) : Decidable (dev_tree_sorted t) := by
  unfold dev_tree_sorted; infer_instance

/-- The extents `e_1 .. e_n` are sorted, disjoint and inside
`[0, total_bytes)`: each ends at or before the start of every later one, and
every end is at most `total_bytes`. -/
def extents_within (total_bytes : Nat) (es : List (Nat × Nat)) : Prop :=
  es.Pairwise (fun a b => a.1 + a.2 ≤ b.1) ∧ ∀ e ∈ es, e.1 + e.2 ≤ total_bytes

instance (total_bytes : Nat) (es : List (Nat × Nat)) : Decidable (extents_within total_bytes es) := by
  unfold extents_within; infer_instance

/-- The first-fit rule between extents, written from the words of the spec
(section 4.2 and scenario 4): the end of `e_i` for the smallest `i < n` with
`start(e_{i+1}) - end(e_i) ≥ num_bytes`; with no such gap, the end of `e_n`
if `end(e_n) + num_bytes ≤ total_bytes` and `NoSpace` if not. The rule speaks
of `n ≥ 1` extents (`none` on the empty list). -/
def first_fit_between (num_bytes total_bytes : Nat) : List (Nat × Nat) → Option (Except errno Nat)
  | [] => none
  | [e] => if e.1 + e.2 + num_bytes ≤ total_bytes then some (.ok (e.1 + e.2)) else some (.error errno.ENOSPC)
  | e :: e2 :: rest =>
    if e2.1 - (e.1 + e.2) ≥ num_bytes then some (.ok (e.1 + e.2))
    else first_fit_between num_bytes total_bytes (e2 :: rest)

/-- A device of 100 bytes with devid 1. -/
def ex_dev100 : btrfs_device :=
  { ptr := 1, devid := 1, total_bytes := 100, bytes_used := 10, type := 0, io_align := 0,
    io_width := 0, sector_size := 0, fd := 3, name := "a" }

/-- A device tree with the one extent `[0, 10)` of devid 1. -/
def ex_tree_one : List dev_extent_item :=
  [{ key := { objectid := 1, type := 75, offset := 0 }, owner := 0, length := 10 }]

/-- A device tree with the adjacent extents `[0, 10)` and `[10, 20)` of devid 1. -/
def ex_tree_adjacent : List dev_extent_item :=
  [{ key := { objectid := 1, type := 75, offset := 0 }, owner := 0, length := 10 },
   { key := { objectid := 1, type := 75, offset := 10 }, owner := 0, length := 10 }]

/-- A device of 64 MiB with devid 1. -/
def ex_dev64M : btrfs_device :=
  { ptr := 1, devid := 1, total_bytes := 67108864, bytes_used := 25165824, type := 0,
    io_align := 0, io_width := 0, sector_size := 0, fd := 3, name := "a" }

/-- The device tree of scenario 4: extents `[0, 8 MiB)` and `[24 MiB, 40 MiB)`
of devid 1, after an extent of devid 0 and before one of devid 2. -/
def ex_tree_gap : List dev_extent_item :=
  [{ key := { objectid := 0, type := 75, offset := 0 }, owner := 0, length := 4096 },
   { key := { objectid := 1, type := 75, offset := 0 }, owner := 0, length := 8388608 },
   { key := { objectid := 1, type := 75, offset := 25165824 }, owner := 0, length := 16777216 },
   { key := { objectid := 2, type := 75, offset := 0 }, owner := 0, length := 4096 }]

/-- A device tree whose only extent of devid 1 is `[24 MiB, 40 MiB)`. -/
def ex_tree_late : List dev_extent_item :=
  [{ key := { objectid := 1, type := 75, offset := 25165824 }, owner := 0, length := 16777216 }]

/-! ## Chunk tree and chunk allocator -/

/-- The conversion of a C `int` to a 32-bit unsigned field. -/
def u32_of_int (i : Int) : Nat := (i % 4294967296).toNat

/-- The conversion of a C `int` to a 16-bit unsigned field. -/
def u16_of_int (i : Int) : Nat := (i % 65536).toNat

/-- Modelled from the spec: the fields of an on-disk dev item that the
accessors `btrfs_device_*` / `btrfs_set_device_*` of `ctree.h` (not part of
the verified source) read and write. Spec section 6, "Dev item"; the uuid is
left out. -/
structure btrfs_dev_item where
  devid : Nat
  total_bytes : Nat
  bytes_used : Nat
  io_align : Nat
  io_width : Nat
  sector_size : Nat
  type : Nat
  deriving DecidableEq, Repr

/-- Modelled from the spec: an on-disk stripe (`struct btrfs_stripe` of
`ctree.h`, not part of the verified source). Spec section 6, "Stripe". -/
structure btrfs_stripe where
  devid : Nat
  offset : Nat
  deriving DecidableEq, Repr

/-- Modelled from the spec: the fields of an on-disk chunk item that
`volumes.c` reads and writes through the accessors of `ctree.h` (not part of
the verified source). Spec section 6, "Chunk item": `stripe_len` and `type`
are 64-bit, `io_align`, `io_width`, `sector_size` 32-bit and `num_stripes`
16-bit fields. -/
structure btrfs_chunk where
  owner : Nat
  stripe_len : Nat
  type : Nat
  io_align : Nat
  io_width : Nat
  sector_size : Nat
  num_stripes : Nat
  stripes : List btrfs_stripe
  deriving DecidableEq, Repr

/-- The payload of an item of the chunk tree. -/
inductive item_data where
  | dev_item (d : btrfs_dev_item)
  | chunk (c : btrfs_chunk)
  deriving DecidableEq, Repr

/-- An item of the chunk tree. -/
structure btrfs_item where
  key : btrfs_key
  data : item_data
  deriving DecidableEq, Repr

/-- The part of `struct btrfs_fs_info` used by `volumes.c`: the device list
`fs_devices->devices` in list order, `num_devices` of the super block copy,
the device tree, the chunk tree and the mapping tree. -/
structure btrfs_fs_info where
  devices : List btrfs_device
  num_devices : Nat
  dev_root : List dev_extent_item
  chunk_root : List btrfs_item
  mapping_tree : cache_tree
  deriving DecidableEq, Repr

/-- The fields of the root passed to `btrfs_alloc_chunk` that the function
reads: `root_key.objectid` and `sectorsize`. -/
structure btrfs_root where
  objectid : Nat
  sectorsize : Nat
  deriving DecidableEq, Repr

/-- Modelled from the spec: `list_splice(list, head)` of `list.h` (not part of
the verified source). Spec section 4.3 step 3: "splice the private list back";
the entries of `list` are put at the front of `head`. -/
def list_splice {α : Type} (list head : List α) : List α := list ++ head

/-- Modelled from the spec: `list_move_tail(entry, head)` of `list.h` (not part
of the verified source). Spec section 4.3: the device is moved "onto a private
list" and back "via move-tail per stripe"; the entry leaves the list it is on
and becomes the last entry of `head`. -/
def list_move_tail {α : Type} (entry : α) (head : List α) : List α := head ++ [entry]

/-- `find_next_chunk` (`volumes.c` lines 359-391): the value stored through
`objectid`. The searches of the model do not fail, so the function returns 0
or aborts. -/
def find_next_chunk (K : ctree_consts) (chunk_root : List btrfs_item) : Except fault Nat :=
  let key : btrfs_key :=
    { objectid := 18446744073709551615, offset := 18446744073709551615,
      type := K.BTRFS_CHUNK_ITEM_KEY }
  let keys := chunk_root.map (fun it => it.key)
  let r := btrfs_search_slot keys key
  -- BUG_ON(ret == 0);
  if r.1 = 0 then .error fault.BUG
  else
    let p := btrfs_previous_item keys K.BTRFS_CHUNK_ITEM_KEY r.2
    if p.1 ≠ 0 then .ok 0
    else
      match keys[p.2]? with
      | none => .error fault.out_of_bounds
      | some found_key => .ok (u64 (found_key.objectid + found_key.offset))

/-- `btrfs_update_device` (`volumes.c` lines 482-526): the chunk tree after the
dev item of the device has been overwritten. The path allocation is taken to
succeed. -/
def btrfs_update_device (K : ctree_consts) (chunk_root : List btrfs_item)
    (device : btrfs_device) : Except errno (List btrfs_item) :=
  let key : btrfs_key :=
    { objectid := K.BTRFS_DEV_ITEMS_OBJECTID, type := K.BTRFS_DEV_ITEM_KEY,
      offset := device.devid }
  let r := btrfs_search_slot (chunk_root.map (fun it => it.key)) key
  -- if (ret > 0) { ret = -ENOENT; goto out; }
  if r.1 > 0 then .error errno.ENOENT
  else
    .ok (chunk_root.set r.2
      { key := key
        data := item_data.dev_item
          { devid := device.devid, type := device.type, io_align := device.io_align,
            io_width := device.io_width, sector_size := device.sector_size,
            total_bytes := device.total_bytes, bytes_used := device.bytes_used } })

/-- The state of the selection loop of `btrfs_alloc_chunk` when it is left:
`index`, `max_avail`, the device list and the private list. -/
structure selection where
  index : Int
  max_avail : Nat
  dev_list : List btrfs_device
  private_devs : List btrfs_device
  deriving DecidableEq, Repr

/-- The loop "build a private list of devices we will allocate from" of
`btrfs_alloc_chunk` (`volumes.c` lines 591-603) from the entry `cur` on; the
argument list holds the entries of the device list from `cur` to the end, and
the empty list is `cur == dev_list`. The devices that stay on the device list
keep their order. -/
def build_private_devs (calc_size : Nat) (num_stripes : Int) :
    List btrfs_device → Int → Nat → selection
  | [], index, max_avail =>
    { index := index, max_avail := max_avail, dev_list := [], private_devs := [] }
  | device :: rest, index, max_avail =>
    -- while(index < num_stripes)
    if index < num_stripes then
      let avail := u64_sub device.total_bytes device.bytes_used
      let max_avail := if avail > max_avail then avail else max_avail
      if avail ≥ calc_size then
        -- list_move_tail(&device->dev_list, &private_devs); index++;
        let r := build_private_devs calc_size num_stripes rest (index + 1) max_avail
        { r with private_devs := device :: r.private_devs }
      else
        let r := build_private_devs calc_size num_stripes rest index max_avail
        { r with dev_list := device :: r.dev_list }
    else
      { index := index, max_avail := max_avail, dev_list := device :: rest, private_devs := [] }

/-- The device selection of `btrfs_alloc_chunk` (`volumes.c` lines 567-612,
from the label `again` to the `ENOSPC` return, the retry unrolled by the
flag `looped`): on success `calc_size`, the device list without the selected
devices and the private list; on failure the device list after the private
list has been spliced back. -/
def select_devices (num_stripes : Int) (dev_list : List btrfs_device) :
    Except (List btrfs_device) (Nat × List btrfs_device × List btrfs_device) :=
  let calc_size := 8 * 1024 * 1024
  let p1 := build_private_devs calc_size num_stripes dev_list 0 0
  if p1.index < num_stripes then
    let dev_list := list_splice p1.private_devs p1.dev_list
    -- if (!looped && max_avail > 0) { looped = 1; calc_size = max_avail; goto again; }
    if p1.max_avail > 0 then
      let calc_size := p1.max_avail
      let p2 := build_private_devs calc_size num_stripes dev_list 0 p1.max_avail
      if p2.index < num_stripes then
        .error (list_splice p2.private_devs p2.dev_list)
      else .ok (calc_size, p2.dev_list, p2.private_devs)
    else .error dev_list
  else .ok (calc_size, p1.dev_list, p1.private_devs)

/-- The device after `device->bytes_used += calc_size` (`volumes.c` line 643). -/
def bytes_used_add (calc_size : Nat) (device : btrfs_device) : btrfs_device :=
  { device with bytes_used := u64 (device.bytes_used + calc_size) }

/-- The stripe loop of `btrfs_alloc_chunk` (`volumes.c` lines 632-653) for the
`n` turns still to go: the state after the loop, what is left of the private
list and, per stripe, the device (after its update) with the device offset
reserved on it. `owner` is `key.objectid`. -/
def alloc_stripes (K : ctree_consts) (owner calc_size : Nat) :
    Nat → List btrfs_device → btrfs_fs_info →
      Except fault (btrfs_fs_info × List btrfs_device × List (btrfs_device × Nat))
  | 0, private_list, info => .ok (info, private_list, [])
  -- BUG_ON(list_empty(&private_devs));
  | _ + 1, [], _ => .error fault.BUG
  | n + 1, device :: private_list, info =>
    match btrfs_alloc_dev_extent K info.dev_root device owner calc_size with
    | .error f => .error f
    | .ok (.error _) => .error fault.BUG          -- BUG_ON(ret);
    | .ok (.ok (dev_offset, dev_root1)) =>
      -- device->bytes_used += calc_size;
      let device1 := bytes_used_add calc_size device
      match btrfs_update_device K info.chunk_root device1 with
      | .error _ => .error fault.BUG              -- BUG_ON(ret);
      | .ok chunk_root1 =>
        match alloc_stripes K owner calc_size n private_list
            { info with devices := list_move_tail device1 info.devices,
                        dev_root := dev_root1, chunk_root := chunk_root1 } with
        | .error f => .error f
        | .ok (info1, left, stripes) => .ok (info1, left, (device1, dev_offset) :: stripes)

/-- The chunk item `btrfs_alloc_chunk` builds (`volumes.c` lines 649-650 and
659-665) from the stripes of the stripe loop; the setters truncate to the
width of the on-disk fields. -/
def new_chunk_item (extent_root : btrfs_root) (type : Nat) (num_stripes stripe_len : Int)
    (stripes : List (btrfs_device × Nat)) : btrfs_chunk :=
  { owner := extent_root.objectid
    stripe_len := u64_of_int stripe_len
    type := type
    num_stripes := u16_of_int num_stripes
    io_align := u32_of_int stripe_len
    io_width := u32_of_int stripe_len
    sector_size := extent_root.sectorsize
    stripes := stripes.map (fun s => { devid := s.1.devid, offset := s.2 }) }

/-- The mapping entry `btrfs_alloc_chunk` builds (`volumes.c` lines 647-648,
666-671 and 678-679) from the stripes of the stripe loop. -/
def new_map_lookup (key : btrfs_key) (extent_root : btrfs_root) (type : Nat)
    (num_stripes stripe_len : Int) (stripes : List (btrfs_device × Nat)) : map_lookup :=
  { ce := { start := key.objectid, size := key.offset }
    sector_size := int_of_u64 extent_root.sectorsize
    stripe_len := stripe_len
    io_align := stripe_len
    io_width := stripe_len
    type := type
    num_stripes := num_stripes
    stripes := stripes.map (fun s => { dev := s.1.ptr, physical := s.2 }) }

/-- The part of `btrfs_alloc_chunk` behind the device selection (`volumes.c`
lines 614-688), for the `num_stripes`, `stripe_len` and `calc_size` fixed
before, with `info.devices` the device list without the selected devices and
`private_list` the private list. The two `kmalloc` calls are taken to
succeed. -/
def alloc_chunk_assemble (K : ctree_consts) (info : btrfs_fs_info) (extent_root : btrfs_root)
    (type : Nat) (num_stripes stripe_len : Int) (calc_size : Nat)
    (private_list : List btrfs_device) :
    Except fault (Except errno (Nat × Nat) × btrfs_fs_info) :=
  match find_next_chunk K info.chunk_root with
  | .error f => .error f
  | .ok objectid =>
    -- *num_bytes = calc_size * num_stripes;
    let num_bytes := u64 (calc_size * u64_of_int num_stripes)
    match alloc_stripes K objectid calc_size num_stripes.toNat private_list info with
    | .error f => .error f
    | .ok (info1, left, stripes) =>
      -- BUG_ON(!list_empty(&private_devs));
      if !left.isEmpty then .error fault.BUG
      else
        let key : btrfs_key :=
          { objectid := objectid, offset := num_bytes, type := K.BTRFS_CHUNK_ITEM_KEY }
        let chunk := new_chunk_item extent_root type num_stripes stripe_len stripes
        let map := new_map_lookup key extent_root type num_stripes stripe_len stripes
        match btrfs_insert_item (fun it => it.key) info1.chunk_root
            { key := key, data := item_data.chunk chunk } with
        | .error _ => .error fault.BUG        -- BUG_ON(ret);
        | .ok chunk_root1 =>
          match insert_existing_cache_extent info1.mapping_tree map with
          | .error _ => .error fault.BUG      -- BUG_ON(ret);
          | .ok mapping_tree1 =>
            .ok (.ok (key.objectid, num_bytes),
              { info1 with chunk_root := chunk_root1, mapping_tree := mapping_tree1 })

/-- The number of stripes `btrfs_alloc_chunk` fixes for a chunk type
(`volumes.c` lines 570, 580-581). -/
def chunk_num_stripes (K : ctree_consts) (info : btrfs_fs_info) (type : Nat) : Int :=
  if Nat.land type K.BTRFS_BLOCK_GROUP_RAID0 ≠ 0 then int_of_u64 info.num_devices else 1

/-- The stripe length `btrfs_alloc_chunk` fixes for a chunk type (`volumes.c`
lines 574, 582-585). -/
def chunk_stripe_len (K : ctree_consts) (type : Nat) : Int :=
  let stripe_len : Int := 64 * 1024
  let stripe_len : Int :=
    if Nat.land type K.BTRFS_BLOCK_GROUP_DATA ≠ 0 then 64 * 1024 else stripe_len
  if Nat.land type (Nat.lor K.BTRFS_BLOCK_GROUP_METADATA K.BTRFS_BLOCK_GROUP_SYSTEM) ≠ 0
  then 32 * 1024 else stripe_len

/-- `btrfs_alloc_chunk` (`volumes.c` lines 552-688): the return value with the
values stored through `start` and `num_bytes`, and the state after the call. -/
def btrfs_alloc_chunk (K : ctree_consts) (info : btrfs_fs_info) (extent_root : btrfs_root)
    (type : Nat) : Except fault (Except errno (Nat × Nat) × btrfs_fs_info) :=
  -- if (list_empty(dev_list)) return -ENOSPC;
  if info.devices.isEmpty then .ok (.error errno.ENOSPC, info)
  else
    let num_stripes := chunk_num_stripes K info type
    let stripe_len := chunk_stripe_len K type
    match select_devices num_stripes info.devices with
    | .error dev_list => .ok (.error errno.ENOSPC, { info with devices := dev_list })
    | .ok (calc_size, dev_list, private_list) =>
      alloc_chunk_assemble K { info with devices := dev_list } extent_root type num_stripes
        stripe_len calc_size private_list

/-- The space left on a device as the selection loop computes it:
`device->total_bytes - device->bytes_used` in `u64`. -/
def avail (device : btrfs_device) : Nat := u64_sub device.total_bytes device.bytes_used

/-- The largest `avail` over a list of devices (0 on the empty list). -/
def max_avail_of (devices : List btrfs_device) : Nat :=
  devices.foldr (fun d m => max (avail d) m) 0

/-- A device with address and devid `id`, of `total` bytes of which `used` are
in use. -/
def ex_device (id total used : Nat) : btrfs_device :=
  { ptr := id, devid := id, total_bytes := total, bytes_used := used, type := 0, io_align := 4096,
    io_width := 4096, sector_size := 4096, fd := 3, name := "dev" }

/-- The dev item of a device in the chunk tree. -/
def ex_dev_item (K : ctree_consts) (d : btrfs_device) : btrfs_item :=
  { key := { objectid := K.BTRFS_DEV_ITEMS_OBJECTID, type := K.BTRFS_DEV_ITEM_KEY, offset := d.devid }
    data := item_data.dev_item
      { devid := d.devid, type := d.type, io_align := d.io_align, io_width := d.io_width,
        sector_size := d.sector_size, total_bytes := d.total_bytes, bytes_used := d.bytes_used } }

/-- Scenario 3 of the spec: three devices of 16 MiB with 5, 7 and 9 MiB free. -/
def ex_info_shrink : btrfs_fs_info :=
  { devices := [ex_device 1 16777216 11534336, ex_device 2 16777216 9437184,
                ex_device 3 16777216 7340032]
    num_devices := 3
    dev_root := []
    chunk_root := [ex_dev_item K0 (ex_device 1 16777216 11534336),
                   ex_dev_item K0 (ex_device 2 16777216 9437184),
                   ex_dev_item K0 (ex_device 3 16777216 7340032)]
    mapping_tree := [] }

/-- Scenario 1 of the spec: one device of 1 GiB without extents. -/
def ex_info_single : btrfs_fs_info :=
  { devices := [ex_device 1 1073741824 0]
    num_devices := 1
    dev_root := []
    chunk_root := [ex_dev_item K0 (ex_device 1 1073741824 0)]
    mapping_tree := [] }

/-- Scenario 2 of the spec: two devices of 1 GiB without extents. -/
def ex_info_two : btrfs_fs_info :=
  { devices := [ex_device 1 1073741824 0, ex_device 2 1073741824 0]
    num_devices := 2
    dev_root := []
    chunk_root := [ex_dev_item K0 (ex_device 1 1073741824 0),
                   ex_dev_item K0 (ex_device 2 1073741824 0)]
    mapping_tree := [] }

/-- The root passed to `btrfs_alloc_chunk` in the examples. -/
def ex_root : btrfs_root := { objectid := 2, sectorsize := 4096 }

/-- The state after `btrfs_alloc_chunk` for `DATA | RAID0` on `ex_info_two`. -/
def ex_info_two_after : btrfs_fs_info :=
  { devices := [ex_device 1 1073741824 8388608, ex_device 2 1073741824 8388608]
    num_devices := 2
    dev_root := [new_dev_extent K0 1 0 8388608 0, new_dev_extent K0 2 0 8388608 0]
    chunk_root :=
      [{ key := { objectid := 0, type := 77, offset := 16777216 }
         data := item_data.chunk
           { owner := 2, stripe_len := 65536, type := 9, io_align := 65536, io_width := 65536,
             sector_size := 4096, num_stripes := 2,
             stripes := [{ devid := 1, offset := 0 }, { devid := 2, offset := 0 }] } },
       ex_dev_item K0 (ex_device 1 1073741824 8388608),
       ex_dev_item K0 (ex_device 2 1073741824 8388608)]
    mapping_tree :=
      [{ ce := { start := 0, size := 16777216 }, type := 9, io_align := 65536,
         io_width := 65536, stripe_len := 65536, sector_size := 4096, num_stripes := 2,
         stripes := [{ dev := 1, physical := 0 }, { dev := 2, physical := 0 }] }] }

/-- The state after `btrfs_alloc_chunk` for `DATA` on `ex_info_single`. -/
def ex_info_single_after : btrfs_fs_info :=
  { devices := [ex_device 1 1073741824 8388608]
    num_devices := 1
    dev_root := [new_dev_extent K0 1 0 8388608 0]
    chunk_root :=
      [{ key := { objectid := 0, type := 77, offset := 8388608 }
         data := item_data.chunk
           { owner := 2, stripe_len := 65536, type := 1, io_align := 65536, io_width := 65536,
             sector_size := 4096, num_stripes := 1,
             stripes := [{ devid := 1, offset := 0 }] } },
       ex_dev_item K0 (ex_device 1 1073741824 8388608)]
    mapping_tree :=
      [{ ce := { start := 0, size := 8388608 }, type := 1, io_align := 65536,
         io_width := 65536, stripe_len := 65536, sector_size := 4096, num_stripes := 1,
         stripes := [{ dev := 1, physical := 0 }] }] }

/-- The keys of the chunk items of a chunk tree, in tree order. -/
def chunk_keys (K : ctree_consts) (chunk_root : List btrfs_item) : List btrfs_key :=
  (chunk_root.map (fun it => it.key)).filter (fun k => decide (k.type = K.BTRFS_CHUNK_ITEM_KEY))

/-- The start of the next chunk, written from the words of the spec (section
4.3 step 4): `prev.objectid + prev.offset` for the highest-keyed chunk item
`prev` of the chunk tree, 0 when the tree has no chunk item. -/
def next_logical_start (K : ctree_consts) (chunk_root : List btrfs_item) : Nat :=
  match (chunk_keys K chunk_root).getLast? with
  | none => 0
  | some prev => prev.objectid + prev.offset

/-- The chunk tree is in key order. -/
def chunk_tree_sorted (chunk_root : List btrfs_item) : Prop :=
  chunk_root.Pairwise (fun a b => btrfs_key_lt a.key b.key)

instance (t : List btrfs_item) : Decidable (chunk_tree_sorted t) := by
  unfold chunk_tree_sorted; infer_instance

/-- The state after a second `btrfs_alloc_chunk` for `DATA | RAID0`, on
`ex_info_two_after`. -/
def ex_info_two_after2 : btrfs_fs_info :=
  match btrfs_alloc_chunk K0 ex_info_two_after ex_root 9 with
  | .ok (_, info) => info
  | .error _ => ex_info_two_after

/-! ## Device registry -/

/-- `struct btrfs_fs_devices`: the fsid, the `latest_*` and `lowest_*` fields
and the device list in list order. -/
structure btrfs_fs_devices where
  fsid : List Nat
  latest_devid : Nat
  latest_trans : Nat
  lowest_devid : Nat
  latest_bdev : Int
  lowest_bdev : Int
  devices : List btrfs_device
  deriving DecidableEq, Repr

/-- The fields of `struct btrfs_super_block` that `volumes.c` reads and
writes: the fsid, the generation, and the array of system chunks with its
stored size. -/
structure btrfs_super_block where
  fsid : List Nat
  generation : Nat
  sys_array_size : Nat
  sys_chunk_array : List Nat
  deriving DecidableEq, Repr

/-- Modelled from the spec: `list_add(new, head)` of `list.h` (not part of the
verified source). Spec section 4.1 step 2: a new device is put on the device
list; the entry is linked right behind the head, at the front of the list. -/
def list_add {α : Type} (new : α) (head : List α) : List α := new :: head

/-- The first entry of a list that satisfies `p` is replaced by `x`: the effect
of a write through the pointer that a list search has returned. -/
def replace_first {α : Type} (p : α → Bool) (x : α) : List α → List α
  | [] => []
  | a :: rest => if p a then x :: rest else a :: replace_first p x rest

/-- `__find_device` (`volumes.c` lines 54-65). -/
def find_device (head : List btrfs_device) (devid : Nat) : Option btrfs_device :=
  head.find? (fun dev => decide (dev.devid = devid))

/-- `find_fsid` (`volumes.c` lines 67-78); `memcmp` over the bytes of the two
fsids is equality of the byte lists. -/
def find_fsid (fs_uuids : List btrfs_fs_devices) (fsid : List Nat) : Option btrfs_fs_devices :=
  fs_uuids.find? (fun fs_devices => decide (fsid = fs_devices.fsid))

/-- The device `kzalloc` and the two assignments of `device_list_add` produce
(`volumes.c` lines 104-114): all fields zero but `devid` and `name`; `ptr` is
the address of the new object. -/
def new_device (ptr : Nat) (path : String) (devid : Nat) : btrfs_device :=
  { ptr := ptr, devid := devid, total_bytes := 0, bytes_used := 0, type := 0, io_align := 0,
    io_width := 0, sector_size := 0, fd := 0, name := path }

/-- The part of `device_list_add` behind the lookup of the filesystem
(`volumes.c` lines 103-125) on the `fs_devices` found or created; `device` is
the result of `__find_device`, or `NULL` for a new `fs_devices`. -/
def device_list_update (fs_devices : btrfs_fs_devices) (device : Option btrfs_device)
    (new_ptr : Nat) (path : String) (found_transid devid : Nat) : btrfs_fs_devices :=
  let fs_devices :=
    match device with
    | some _ => fs_devices
    | none => { fs_devices with devices := list_add (new_device new_ptr path devid) fs_devices.devices }
  let fs_devices :=
    if found_transid > fs_devices.latest_trans then
      { fs_devices with latest_devid := devid, latest_trans := found_transid }
    else fs_devices
  if fs_devices.lowest_devid > devid then { fs_devices with lowest_devid := devid }
  else fs_devices

/-- `device_list_add` (`volumes.c` lines 80-128) on the global list `fs_uuids`:
the list after the call and the value stored through `fs_devices_ret`. The
allocations are taken to succeed (the function returns 0); `new_ptr` is the
address of the device object if one is allocated. -/
def device_list_add (fs_uuids : List btrfs_fs_devices) (new_ptr : Nat) (path : String)
    (disk_super : btrfs_super_block) (devid : Nat) :
    List btrfs_fs_devices × btrfs_fs_devices :=
  let found_transid := disk_super.generation
  match find_fsid fs_uuids disk_super.fsid with
  | none =>
    let fs_devices : btrfs_fs_devices :=
      { fsid := disk_super.fsid, latest_devid := devid, latest_trans := found_transid,
        lowest_devid := 18446744073709551615, latest_bdev := 0, lowest_bdev := 0, devices := [] }
    let fs_devices := device_list_update fs_devices none new_ptr path found_transid devid
    (list_add fs_devices fs_uuids, fs_devices)
  | some fs_devices =>
    let fs_devices1 := device_list_update fs_devices (find_device fs_devices.devices devid)
      new_ptr path found_transid devid
    (replace_first (fun f => decide (disk_super.fsid = f.fsid)) fs_devices1 fs_uuids, fs_devices1)

/-- One scan of a device, as `btrfs_scan_one_device` passes it to
`device_list_add`: the address of a new device object, the path, the generation
of the super block and the devid. -/
structure scan_call where
  new_ptr : Nat
  path : String
  generation : Nat
  devid : Nat
  deriving DecidableEq, Repr

/-- A sequence of `device_list_add` calls for the filesystem `fsid`. -/
def device_list_add_all (fsid : List Nat) :
    List btrfs_fs_devices → List scan_call → List btrfs_fs_devices
  | fs_uuids, [] => fs_uuids
  | fs_uuids, c :: rest =>
    device_list_add_all fsid
      (device_list_add fs_uuids c.new_ptr c.path
        { fsid := fsid, generation := c.generation, sys_array_size := 0, sys_chunk_array := [] }
        c.devid).1 rest

/-- `btrfs_close_devices` (`volumes.c` lines 130-141); the function returns 0. -/
def btrfs_close_devices (fs_devices : btrfs_fs_devices) : btrfs_fs_devices :=
  { fs_devices with devices := fs_devices.devices.map (fun device => { device with fd := 0 }) }

/-- The loop of `btrfs_open_devices` (`volumes.c` lines 151-164) over the
devices from `cur` on; `sys_open` gives the result of `open(device->name,
flags)` on the host, with the `errno` it sets when the result is negative. The
devices already visited are `done`. -/
def open_devices_loop (sys_open : String → Int × errno) :
    List btrfs_device → List btrfs_device → btrfs_fs_devices →
      Except errno Unit × btrfs_fs_devices
  | [], done, fs_devices => (.ok (), { fs_devices with devices := done })
  | device :: rest, done, fs_devices =>
    let fd := (sys_open device.name).1
    -- if (fd < 0) { ret = -errno; goto fail; }
    if fd < 0 then
      (.error (sys_open device.name).2, { fs_devices with devices := done ++ device :: rest })
    else
      let fs_devices :=
        if device.devid = fs_devices.latest_devid then { fs_devices with latest_bdev := fd }
        else fs_devices
      let fs_devices :=
        if device.devid = fs_devices.lowest_devid then { fs_devices with lowest_bdev := fd }
        else fs_devices
      open_devices_loop sys_open rest (done ++ [{ device with fd := fd }]) fs_devices

/-- `btrfs_open_devices` (`volumes.c` lines 143-169): the return value and the
`fs_devices` after the call. -/
def btrfs_open_devices (sys_open : String → Int × errno) (fs_devices : btrfs_fs_devices) :
    Except errno Unit × btrfs_fs_devices :=
  match open_devices_loop sys_open fs_devices.devices [] fs_devices with
  | (.ok _, fs_devices1) => (.ok (), fs_devices1)
  -- fail: btrfs_close_devices(fs_devices); return ret;
  | (.error e, fs_devices1) => (.error e, btrfs_close_devices fs_devices1)

/-- A filesystem with two open devices. -/
def ex_fs_devices : btrfs_fs_devices :=
  { fsid := [1], latest_devid := 1, latest_trans := 7, lowest_devid := 1, latest_bdev := 3,
    lowest_bdev := 3,
    devices := [{ ex_device 1 1073741824 0 with fd := 3 }, { ex_device 2 1073741824 0 with fd := 4 }] }

/-- A host on which only the file named `dev` can be opened, as descriptor 5. -/
def ex_sys_open (name : String) : Int × errno :=
  if name = "dev" then (5, errno.EIO) else (-1, errno.ENOENT)

/-- A filesystem whose second device has a name that cannot be opened. -/
def ex_fs_devices_bad : btrfs_fs_devices :=
  { fsid := [1], latest_devid := 1, latest_trans := 7, lowest_devid := 1, latest_bdev := 0,
    lowest_bdev := 0,
    devices := [{ ex_device 1 1073741824 0 with fd := 0 },
                { ex_device 2 1073741824 0 with fd := 0, name := "gone" }] }

/-- Three scans of devices of the filesystem `[1]` with generations 5, 9, 9. -/
def ex_scans : List scan_call :=
  [{ new_ptr := 10, path := "a", generation := 5, devid := 1 },
   { new_ptr := 11, path := "b", generation := 9, devid := 2 },
   { new_ptr := 12, path := "c", generation := 9, devid := 3 }]

/-! ## The array of system chunks in the super block -/

/-- Truncation of a natural number to 32 bits. -/
def u32 (x : Nat) : Nat := x % 4294967296

/-- The `n` bytes of `x` in little-endian order. -/
def le_bytes : Nat → Nat → List Nat
  | 0, _ => []
  | n + 1, x => x % 256 :: le_bytes n (x / 256)

/-- The value of a list of bytes in little-endian order. -/
def le_value : List Nat → Nat
  | [] => 0
  | b :: rest => b + 256 * le_value rest

/-- Modelled from the spec: `sizeof(struct btrfs_disk_key)`; the struct is
declared in `ctree.h`, not part of the verified source. Spec section 6, "Disk
key: `{objectid u64, type u8, offset u64}`", bit-exact: 17 bytes. -/
def sizeof_disk_key : Nat := 17

/-- Modelled from the spec: `btrfs_chunk_item_size(num_stripes)` of `ctree.h`
(not part of the verified source). Spec section 6, "Chunk item": 48 bytes of
fixed fields followed by one stripe of 16 bytes per stripe. -/
def btrfs_chunk_item_size (num_stripes : Nat) : Nat := 48 + 16 * num_stripes

/-- Modelled from the spec: `btrfs_cpu_key_to_disk` of `ctree.h` (not part of
the verified source). Spec section 6: the fields of a disk key "serialized
little-endian", `objectid`, `type`, `offset`. -/
def btrfs_cpu_key_to_disk (key : btrfs_key) : List Nat :=
  le_bytes 8 key.objectid ++ le_bytes 1 key.type ++ le_bytes 8 key.offset

/-- The bytes of the object `dest` after `memcpy(dest + off, src, n)` with
`src` the `n` bytes copied; `none` when the bytes written do not lie inside
the object. -/
def memcpy (dest : List Nat) (off : Nat) (src : List Nat) : Option (List Nat) :=
  if off + src.length ≤ dest.length then
    some (dest.take off ++ src ++ dest.drop (off + src.length))
  else none

/-- `btrfs_add_system_chunk` (`volumes.c` lines 528-550) on the super block
copy; `chunk` is the memory of the chunk item passed, of which `item_size`
bytes are copied. `array_size` is a `u32`, the sum with the `int` `item_size`
is formed in 32-bit unsigned arithmetic. -/
def btrfs_add_system_chunk (K : ctree_consts) (super_copy : btrfs_super_block) (key : btrfs_key)
    (chunk : List Nat) (item_size : Int) : Except fault (Except errno btrfs_super_block) :=
  let array_size := super_copy.sys_array_size
  -- if (array_size + item_size > BTRFS_SYSTEM_CHUNK_ARRAY_SIZE) return -EFBIG;
  if u32 (array_size + u32_of_int item_size) > K.BTRFS_SYSTEM_CHUNK_ARRAY_SIZE then
    .ok (.error errno.EFBIG)
  else
    -- ptr = super_copy->sys_chunk_array + array_size; memcpy(ptr, &disk_key, sizeof(disk_key));
    match memcpy super_copy.sys_chunk_array array_size (btrfs_cpu_key_to_disk key) with
    | none => .error fault.out_of_bounds
    | some array1 =>
      -- ptr += sizeof(disk_key); memcpy(ptr, chunk, item_size);
      if item_size < 0 ∨ item_size.toNat > chunk.length then .error fault.out_of_bounds
      else
        match memcpy array1 (array_size + sizeof_disk_key) (chunk.take item_size.toNat) with
        | none => .error fault.out_of_bounds
        | some array2 =>
          -- item_size += sizeof(disk_key);
          -- btrfs_set_super_sys_array_size(super_copy, array_size + item_size);
          .ok (.ok { super_copy with
            sys_chunk_array := array2,
            sys_array_size := u32 (array_size + u32_of_int (item_size + sizeof_disk_key)) })

/-- A super block copy whose array of 2048 bytes is filled up to byte 1984. -/
def ex_super_full : btrfs_super_block :=
  { fsid := [1], generation := 7, sys_array_size := 1984,
    sys_chunk_array := List.replicate 2048 0 }

/-! ## Reading the chunks -/

/-- The bytes `buf[off .. off + n)`, `none` when they do not lie inside `buf`. -/
def read_bytes (buf : List Nat) (off n : Nat) : Option (List Nat) :=
  if off + n ≤ buf.length then some ((buf.drop off).take n) else none

/-- Modelled from the spec: `btrfs_disk_key_to_cpu` of `ctree.h` (not part of
the verified source) on the disk key at offset `off` of `buf`. Spec section 6,
"Disk key". -/
def btrfs_disk_key_to_cpu (buf : List Nat) (off : Nat) : Option btrfs_key :=
  match read_bytes buf off sizeof_disk_key with
  | none => none
  | some b =>
    some { objectid := le_value (b.take 8), type := le_value ((b.drop 8).take 1),
           offset := le_value (b.drop 9) }

/-- Modelled from the spec: the stripes of the chunk item whose stripe array
starts at offset `p` of `buf`, as the accessors `btrfs_stripe_devid_nr` and
`btrfs_stripe_offset_nr` of `ctree.h` (not part of the verified source) read
them: up to `n` stripes, as many as lie inside `buf`. Spec section 6,
"Stripe: `{devid u64, offset u64}`". -/
def stripes_at (buf : List Nat) : Nat → Nat → List btrfs_stripe
  | _, 0 => []
  | p, n + 1 =>
    match read_bytes buf p 16 with
    | none => []
    | some b =>
      { devid := le_value (b.take 8), offset := le_value (b.drop 8) } :: stripes_at buf (p + 16) n

/-- Modelled from the spec: the chunk item at offset `p` of `buf` as the
accessors `btrfs_chunk_*` of `ctree.h` (not part of the verified source) read
it; `none` when the fixed fields do not lie inside `buf`. Spec section 6,
"Chunk item: `{length u64, owner u64, stripe_len u64, type u64, io_align u32,
io_width u32, sector_size u32, num_stripes u16, sub_stripes u16, stripe[]}`". -/
def btrfs_chunk_at (buf : List Nat) (p : Nat) : Option btrfs_chunk :=
  match read_bytes buf p 48 with
  | none => none
  | some b =>
    some { owner := le_value ((b.drop 8).take 8)
           stripe_len := le_value ((b.drop 16).take 8)
           type := le_value ((b.drop 24).take 8)
           io_align := le_value ((b.drop 32).take 4)
           io_width := le_value ((b.drop 36).take 4)
           sector_size := le_value ((b.drop 40).take 4)
           num_stripes := le_value ((b.drop 44).take 2)
           stripes := stripes_at buf (p + 48) (le_value ((b.drop 44).take 2)) }

/-- The loop over the stripes in `read_one_chunk` (`volumes.c` lines 793-803)
for the `n` stripes still to read: the stripes of the mapping entry, or `EIO`
at the first stripe whose devid is not in the device list. Reading a stripe
that the chunk item does not hold is an access out of bounds. -/
def read_stripes (devices : List btrfs_device) :
    Nat → List btrfs_stripe → Except fault (Except errno (List stripe))
  | 0, _ => .ok (.ok [])
  | _ + 1, [] => .error fault.out_of_bounds
  | n + 1, s :: rest =>
    -- map->stripes[i].dev = btrfs_find_device(root, devid);
    match find_device devices s.devid with
    | none => .ok (.error errno.EIO)
    | some dev =>
      match read_stripes devices n rest with
      | .error f => .error f
      | .ok (.error e) => .ok (.error e)
      | .ok (.ok l) => .ok (.ok ({ dev := dev.ptr, physical := s.offset } :: l))

/-- The mapping entry `read_one_chunk` builds (`volumes.c` lines 784-792) for
the stripes read; the accessors return unsigned values, which the assignments
convert to `int`. -/
def chunk_map_lookup (key : btrfs_key) (chunk : btrfs_chunk) (stripes : List stripe) : map_lookup :=
  { ce := { start := key.objectid, size := key.offset }
    num_stripes := int_of_u64 chunk.num_stripes
    io_width := int_of_u64 chunk.io_width
    io_align := int_of_u64 chunk.io_align
    sector_size := int_of_u64 chunk.sector_size
    stripe_len := int_of_u64 chunk.stripe_len
    type := chunk.type
    stripes := stripes }

/-- `read_one_chunk` (`volumes.c` lines 756-808) for a chunk item seen through
its accessors: the state after a return of 0, or the error code returned. The
`kmalloc` is taken to succeed. -/
def read_one_chunk (info : btrfs_fs_info) (key : btrfs_key) (chunk : btrfs_chunk) :
    Except fault (Except errno btrfs_fs_info) :=
  let logical := key.objectid
  -- if (ce && ce->start <= logical && ce->start + ce->size > logical) return 0;
  let mapped : Bool :=
    match find_first_cache_extent info.mapping_tree logical with
    | none => false
    | some ce => decide (ce.ce.start ≤ logical) && decide (u64 (ce.ce.start + ce.ce.size) > logical)
  if mapped then .ok (.ok info)
  else
    match read_stripes info.devices (int_of_u64 chunk.num_stripes).toNat chunk.stripes with
    | .error f => .error f
    | .ok (.error e) => .ok (.error e)
    | .ok (.ok stripes) =>
      match insert_existing_cache_extent info.mapping_tree (chunk_map_lookup key chunk stripes) with
      | .error _ => .error fault.BUG        -- BUG_ON(ret);
      | .ok mapping_tree1 => .ok (.ok { info with mapping_tree := mapping_tree1 })

/-- `fill_device_from_item` (`volumes.c` lines 810-828), the uuid left out. -/
def fill_device_from_item (dev_item : btrfs_dev_item) (device : btrfs_device) : btrfs_device :=
  { device with
    devid := dev_item.devid, total_bytes := dev_item.total_bytes,
    bytes_used := dev_item.bytes_used, type := dev_item.type, io_align := dev_item.io_align,
    io_width := dev_item.io_width, sector_size := dev_item.sector_size }

/-- `read_one_dev` (`volumes.c` lines 830-852). `heap` lists the objects the
next calls of `kmalloc` return, with the contents they have; on the empty list
`kmalloc` returns `NULL`. The result is the heap left and the state. -/
def read_one_dev (heap : List btrfs_device) (info : btrfs_fs_info) (dev_item : btrfs_dev_item) :
    Except errno (List btrfs_device × btrfs_fs_info) :=
  let devid := dev_item.devid
  match find_device info.devices devid with
  | some device =>
    .ok (heap, { info with
      devices := replace_first (fun dev => decide (dev.devid = devid))
        (fill_device_from_item dev_item device) info.devices })
  | none =>
    match heap with
    | [] => .error errno.ENOMEM
    | device :: heap1 =>
      .ok (heap1, { info with
        devices := list_add (fill_device_from_item dev_item device) info.devices })

/-- The loop of `btrfs_read_sys_array` (`volumes.c` lines 889-910) with `fuel`
turns left, at position `pos` of the array (`ptr`, `sb_ptr`) and the 32-bit
counter `cur`; `none` when the turns are used up. The super block buffer holds
the bytes of the super block copy. -/
def read_sys_array_loop (K : ctree_consts) (super_copy : btrfs_super_block) :
    Nat → Nat → Nat → btrfs_fs_info → Option (Except fault btrfs_fs_info)
  | 0, _, cur, info => if cur < super_copy.sys_array_size then none else some (.ok info)
  | fuel + 1, pos, cur, info =>
    if cur < super_copy.sys_array_size then
      match btrfs_disk_key_to_cpu super_copy.sys_chunk_array pos with
      | none => some (.error fault.out_of_bounds)
      | some key =>
        let pos := pos + sizeof_disk_key
        let cur := u32 (cur + sizeof_disk_key)
        if key.type = K.BTRFS_CHUNK_ITEM_KEY then
          match btrfs_chunk_at super_copy.sys_chunk_array pos with
          | none => some (.error fault.out_of_bounds)
          | some chunk =>
            match read_one_chunk info key chunk with
            | .error f => some (.error f)
            | .ok (.error _) => some (.error fault.BUG)       -- BUG_ON(ret);
            | .ok (.ok info1) =>
              let len := u32 (btrfs_chunk_item_size chunk.num_stripes)
              read_sys_array_loop K super_copy fuel (pos + len) (u32 (cur + len)) info1
        else some (.error fault.BUG)                           -- BUG();
    else some (.ok info)

/-- `btrfs_read_sys_array` (`volumes.c` lines 863-912); the function returns 0
when it returns. Every turn of the loop consumes at least 17 bytes, so
`sys_array_size` turns are enough unless the 32-bit counter wraps. -/
def btrfs_read_sys_array (K : ctree_consts) (super_copy : btrfs_super_block)
    (info : btrfs_fs_info) : Option (Except fault btrfs_fs_info) :=
  read_sys_array_loop K super_copy super_copy.sys_array_size 0 0 info

/-- The `while (1)` loop of `btrfs_read_chunk_tree` (`volumes.c` lines 938-966)
over the items from the slot of the path on, for the value `key_objectid` of
`key.objectid`. The return value of `read_one_chunk` is stored in `ret` and
not looked at. -/
def read_chunk_tree_loop (K : ctree_consts) (key_objectid : Nat) :
    List btrfs_item → List btrfs_device → btrfs_fs_info →
      Except fault (List btrfs_device × btrfs_fs_info)
  | [], heap, info => .ok (heap, info)
  | it :: rest, heap, info =>
    if key_objectid = K.BTRFS_DEV_ITEMS_OBJECTID then
      -- if (found_key.objectid != BTRFS_DEV_ITEMS_OBJECTID) break;
      if it.key.objectid ≠ K.BTRFS_DEV_ITEMS_OBJECTID then .ok (heap, info)
      else if it.key.type = K.BTRFS_DEV_ITEM_KEY then
        match it.data with
        | item_data.dev_item dev_item =>
          match read_one_dev heap info dev_item with
          | .error _ => .error fault.BUG                       -- BUG_ON(ret);
          | .ok (heap1, info1) => read_chunk_tree_loop K key_objectid rest heap1 info1
        | _ => .error fault.out_of_bounds
      else read_chunk_tree_loop K key_objectid rest heap info
    else if it.key.type = K.BTRFS_CHUNK_ITEM_KEY then
      match it.data with
      | item_data.chunk chunk =>
        -- ret = read_one_chunk(root, &found_key, leaf, chunk);
        match read_one_chunk info it.key chunk with
        | .error f => .error f
        | .ok (.error _) => read_chunk_tree_loop K key_objectid rest heap info
        | .ok (.ok info1) => read_chunk_tree_loop K key_objectid rest heap info1
      | _ => .error fault.out_of_bounds
    else read_chunk_tree_loop K key_objectid rest heap info

/-- The passes of `btrfs_read_chunk_tree` from the label `again` on
(`volumes.c` lines 936-971) with `fuel` passes left, `none` when they are used
up: a pass with `key.objectid == BTRFS_DEV_ITEMS_OBJECTID` is followed by a
pass with `key.objectid = 0`. -/
def read_chunk_tree_again (K : ctree_consts) :
    Nat → Nat → List btrfs_device → btrfs_fs_info →
      Option (Except fault (List btrfs_device × btrfs_fs_info))
  | 0, _, _, _ => none
  | fuel + 1, key_objectid, heap, info =>
    let key : btrfs_key := { objectid := key_objectid, offset := 0, type := 0 }
    let slot := (btrfs_search_slot (info.chunk_root.map (fun it => it.key)) key).2
    match read_chunk_tree_loop K key_objectid (info.chunk_root.drop slot) heap info with
    | .error f => some (.error f)
    | .ok (heap1, info1) =>
      if key_objectid = K.BTRFS_DEV_ITEMS_OBJECTID then read_chunk_tree_again K fuel 0 heap1 info1
      else some (.ok (heap1, info1))

/-- `btrfs_read_chunk_tree` (`volumes.c` lines 914-977): when the function
returns, it returns 0 (`ret = 0` behind the loop; the searches of the model do
not fail). Two passes are enough unless `BTRFS_DEV_ITEMS_OBJECTID` is 0. The
path allocation is taken to succeed. -/
def btrfs_read_chunk_tree (K : ctree_consts) (heap : List btrfs_device) (info : btrfs_fs_info) :
    Option (Except fault (List btrfs_device × btrfs_fs_info)) :=
  read_chunk_tree_again K 2 K.BTRFS_DEV_ITEMS_OBJECTID heap info

/-- Scenario 5 of the spec with the dev item of devid 2 removed: the chunk
tree holds the dev item of devid 1 and a chunk item `[0, 16 MiB)` whose
stripes name the devids 1 and 2. -/
def ex_info_missing : btrfs_fs_info :=
  { devices := [ex_device 1 1073741824 8388608]
    num_devices := 2
    dev_root := []
    chunk_root :=
      [{ key := { objectid := 0, type := 77, offset := 16777216 }
         data := item_data.chunk
           { owner := 2, stripe_len := 65536, type := 9, io_align := 65536, io_width := 65536,
             sector_size := 4096, num_stripes := 2,
             stripes := [{ devid := 1, offset := 0 }, { devid := 2, offset := 0 }] } },
       ex_dev_item K0 (ex_device 1 1073741824 8388608)]
    mapping_tree := [] }

/-! ## Vocabulary for the mount -/

/-- The entries of the array of system chunks as the loop of
`btrfs_read_sys_array` reads them, key and chunk item of every turn; `none`
when the loop meets a key that is not a chunk item key, reads outside the
array or does not end within `fuel` turns. -/
def sys_array_entries_loop (K : ctree_consts) (super_copy : btrfs_super_block) :
    Nat → Nat → Nat → Option (List (btrfs_key × btrfs_chunk))
  | 0, _, cur => if cur < super_copy.sys_array_size then none else some []
  | fuel + 1, pos, cur =>
    if cur < super_copy.sys_array_size then
      match btrfs_disk_key_to_cpu super_copy.sys_chunk_array pos with
      | none => none
      | some key =>
        if key.type = K.BTRFS_CHUNK_ITEM_KEY then
          match btrfs_chunk_at super_copy.sys_chunk_array (pos + sizeof_disk_key) with
          | none => none
          | some chunk =>
            match sys_array_entries_loop K super_copy fuel
                (pos + sizeof_disk_key + u32 (btrfs_chunk_item_size chunk.num_stripes))
                (u32 (u32 (cur + sizeof_disk_key) +
                  u32 (btrfs_chunk_item_size chunk.num_stripes))) with
            | none => none
            | some l => some ((key, chunk) :: l)
        else none
    else some []

/-- The chunks in the array of system chunks of a super block. -/
def sys_array_entries (K : ctree_consts) (super_copy : btrfs_super_block) :
    Option (List (btrfs_key × btrfs_chunk)) :=
  sys_array_entries_loop K super_copy super_copy.sys_array_size 0 0

/-- The payload is a chunk item. -/
def item_data.is_chunk : item_data → Bool
  | item_data.chunk _ => true
  | _ => false

/-- The payload is a dev item. -/
def item_data.is_dev_item : item_data → Bool
  | item_data.dev_item _ => true
  | _ => false

/-- The chunk items of a list of items of the chunk tree, with their keys. -/
def catalog_chunks (K : ctree_consts) : List btrfs_item → List (btrfs_key × btrfs_chunk)
  | [] => []
  | it :: rest =>
    match it.data with
    | item_data.chunk c =>
      if it.key.type = K.BTRFS_CHUNK_ITEM_KEY then (it.key, c) :: catalog_chunks K rest
      else catalog_chunks K rest
    | _ => catalog_chunks K rest

/-- The payload of every item of the chunk tree has the shape its key type
announces. -/
def chunk_tree_typed (K : ctree_consts) (chunk_root : List btrfs_item) : Prop :=
  ∀ it ∈ chunk_root,
    (it.key.type = K.BTRFS_CHUNK_ITEM_KEY → it.data.is_chunk = true) ∧
    (it.key.type = K.BTRFS_DEV_ITEM_KEY → it.data.is_dev_item = true)

instance (K : ctree_consts) (t : List btrfs_item) : Decidable (chunk_tree_typed K t) := by
  unfold chunk_tree_typed; infer_instance

/-- Every stripe of the chunk item resolves: the item holds the `num_stripes`
stripes it announces, and the devid of each is in the device list. -/
def stripes_resolve (devices : List btrfs_device) (c : btrfs_chunk) : Prop :=
  (int_of_u64 c.num_stripes).toNat ≤ c.stripes.length ∧
    ∀ s ∈ c.stripes.take (int_of_u64 c.num_stripes).toNat,
      (find_device devices s.devid).isSome = true

instance (devices : List btrfs_device) (c : btrfs_chunk) : Decidable (stripes_resolve devices c) := by
  unfold stripes_resolve; infer_instance

/-- The dev items of a list of items of the chunk tree: the payloads of the
items with key `(BTRFS_DEV_ITEMS_OBJECTID, BTRFS_DEV_ITEM_KEY, devid)`. -/
def catalog_dev_items (K : ctree_consts) : List btrfs_item → List btrfs_dev_item
  | [] => []
  | it :: rest =>
    match it.data with
    | item_data.dev_item d =>
      if it.key.objectid = K.BTRFS_DEV_ITEMS_OBJECTID ∧ it.key.type = K.BTRFS_DEV_ITEM_KEY then
        d :: catalog_dev_items K rest
      else catalog_dev_items K rest
    | _ => catalog_dev_items K rest

/-- Every stripe of the chunk item names a devid of the list: the item holds
the `num_stripes` stripes it announces, and the devid of each is in `devids`. -/
def stripes_known (devids : List Nat) (c : btrfs_chunk) : Prop :=
  (int_of_u64 c.num_stripes).toNat ≤ c.stripes.length ∧
    ∀ s ∈ c.stripes.take (int_of_u64 c.num_stripes).toNat, s.devid ∈ devids

instance (devids : List Nat) (c : btrfs_chunk) : Decidable (stripes_known devids c) := by
  unfold stripes_known; infer_instance

/-- The intervals `(start, size)` of the entries of a mapping index. -/
def index_pairs (t : cache_tree) : List (Nat × Nat) :=
  t.map (fun m => (m.ce.start, m.ce.size))

/-- The intervals `(objectid, offset)` of a list of chunks. -/
def chunk_pairs (l : List (btrfs_key × btrfs_chunk)) : List (Nat × Nat) :=
  l.map (fun e => (e.1.objectid, e.1.offset))

/-- The chunks are non-empty, end below `2^64`, and two of them are the same
interval or do not overlap. -/
def chunks_disjoint (ps : List (Nat × Nat)) : Prop :=
  (∀ p ∈ ps, 1 ≤ p.2 ∧ p.1 + p.2 < 18446744073709551616) ∧
    ∀ p ∈ ps, ∀ q ∈ ps, p = q ∨ p.1 + p.2 ≤ q.1 ∨ q.1 + q.2 ≤ p.1

instance (ps : List (Nat × Nat)) : Decidable (chunks_disjoint ps) := by
  unfold chunks_disjoint; infer_instance

/-- Modelled from the spec: the chunk item as bytes, the inverse of the
accessors `btrfs_chunk_at` and `stripes_at`. Spec section 6, "Chunk item";
the fields `length` and `sub_stripes`, which `volumes.c` does not access, are
written as 0. -/
def chunk_item_bytes (c : btrfs_chunk) : List Nat :=
  le_bytes 8 0 ++ le_bytes 8 c.owner ++ le_bytes 8 c.stripe_len ++ le_bytes 8 c.type ++
    le_bytes 4 c.io_align ++ le_bytes 4 c.io_width ++ le_bytes 4 c.sector_size ++
    le_bytes 2 c.num_stripes ++ le_bytes 2 0 ++
    (c.stripes.map (fun s => le_bytes 8 s.devid ++ le_bytes 8 s.offset)).flatten

/-- The system chunk `[0, 8 MiB)` of the mount example, on devid 1. -/
def ex_sys_chunk : btrfs_chunk :=
  { owner := 2, stripe_len := 32768, type := 2, io_align := 32768, io_width := 32768,
    sector_size := 4096, num_stripes := 1, stripes := [{ devid := 1, offset := 0 }] }

/-- A super block whose array holds the system chunk `[0, 8 MiB)`. -/
def ex_super_mount : btrfs_super_block :=
  { fsid := [1], generation := 7, sys_array_size := 81,
    sys_chunk_array :=
      btrfs_cpu_key_to_disk { objectid := 0, type := 77, offset := 8388608 } ++
        chunk_item_bytes ex_sys_chunk }

/-- The state before the mount example: the device 1 of the scan, a chunk tree
with the dev items of the devices 1 and 2, the system chunk `[0, 8 MiB)` and
the chunk `[8 MiB, 24 MiB)` striped over both devices; the device 2 is known
from its dev item only, and the mapping index is empty. -/
def ex_info_mount : btrfs_fs_info :=
  { devices := [new_device 10 "a" 1]
    num_devices := 2
    dev_root := []
    chunk_root :=
      [{ key := { objectid := 0, type := 77, offset := 8388608 }, data := item_data.chunk ex_sys_chunk },
       ex_dev_item K0 (ex_device 1 1073741824 16777216),
       ex_dev_item K0 (ex_device 2 1073741824 8388608),
       { key := { objectid := 8388608, type := 77, offset := 16777216 }
         data := item_data.chunk
           { owner := 2, stripe_len := 65536, type := 9, io_align := 65536, io_width := 65536,
             sector_size := 4096, num_stripes := 2,
             stripes := [{ devid := 1, offset := 8388608 }, { devid := 2, offset := 0 }] } }]
    mapping_tree := [] }

/-- The objects the allocator has to hand out in the mount example, one for
every item of the chunk tree. -/
def ex_heap_mount : List btrfs_device :=
  [new_device 20 "" 0, new_device 21 "" 0, new_device 22 "" 0, new_device 23 "" 0]

/-- The value of the variable `stripe_index` of `btrfs_map_block` behind the
assignment `stripe_index = stripe_nr % map->num_stripes` (`volumes.c` lines
710-730), for the entry `map` on a call that reaches the assignment. -/
def map_block_stripe_index (map : map_lookup) (logical : Nat) : Int :=
  int_of_u64 (u64_sub logical map.ce.start / u64_of_int map.stripe_len % u64_of_int map.num_stripes)

/-! ## Vocabulary for the array of system chunks -/

/-- The values of a key inhabit their C types: `objectid` and `offset` are
`u64`, `type` is a `u8`. -/
def btrfs_key.typed (k : btrfs_key) : Prop :=
  k.objectid < 18446744073709551616 ∧ k.type < 256 ∧ k.offset < 18446744073709551616

instance (k : btrfs_key) : Decidable k.typed := by
  unfold btrfs_key.typed; infer_instance

/-- The values of a chunk item inhabit the on-disk fields (64-bit `owner`,
`stripe_len` and `type`, 32-bit `io_align`, `io_width` and `sector_size`,
16-bit `num_stripes`, 64-bit `devid` and `offset` of a stripe), and the item
holds the `num_stripes` stripes it announces. -/
def btrfs_chunk.typed (c : btrfs_chunk) : Prop :=
  c.owner < 18446744073709551616 ∧ c.stripe_len < 18446744073709551616 ∧
  c.type < 18446744073709551616 ∧ c.io_align < 4294967296 ∧ c.io_width < 4294967296 ∧
  c.sector_size < 4294967296 ∧ c.num_stripes < 65536 ∧ c.stripes.length = c.num_stripes ∧
  ∀ s ∈ c.stripes, s.devid < 18446744073709551616 ∧ s.offset < 18446744073709551616

instance (c : btrfs_chunk) : Decidable c.typed := by
  unfold btrfs_chunk.typed; infer_instance

/-- A sequence of calls of `btrfs_add_system_chunk` on the super block copy,
one per entry `(key, chunk)`: `memory e` is the memory passed as `chunk` in the
call for the entry `e`, and `item_size = btrfs_chunk_item_size(num_stripes)`.
The sequence ends at the first call that does not return 0. -/
def add_system_chunks (K : ctree_consts) (memory : btrfs_key × btrfs_chunk → List Nat) :
    btrfs_super_block → List (btrfs_key × btrfs_chunk) →
      Except fault (Except errno btrfs_super_block)
  | super_copy, [] => .ok (.ok super_copy)
  | super_copy, e :: rest =>
    match btrfs_add_system_chunk K super_copy e.1 (memory e)
        (btrfs_chunk_item_size e.2.num_stripes) with
    | .ok (.ok super_copy1) => add_system_chunks K memory super_copy1 rest
    | r => r

/-- The calls of `read_one_chunk` that the loop of `btrfs_read_sys_array`
makes for a list of entries, in order, each followed by `BUG_ON(ret)`
(`volumes.c` lines 900-901). -/
def read_entries : btrfs_fs_info → List (btrfs_key × btrfs_chunk) → Except fault btrfs_fs_info
  | info, [] => .ok info
  | info, e :: rest =>
    match read_one_chunk info e.1 e.2 with
    | .error f => .error f
    | .ok (.error _) => .error fault.BUG
    | .ok (.ok info1) => read_entries info1 rest

/-- The position in the array (`ptr`) and the counter `cur` with which the loop
of `btrfs_read_sys_array` (`volumes.c` lines 889-910) is left, without the
calls of `read_one_chunk`; `none` when the loop meets a key that is not a chunk
item key, reads outside the array or does not end within `fuel` turns. -/
def sys_array_end_loop (K : ctree_consts) (super_copy : btrfs_super_block) :
    Nat → Nat → Nat → Option (Nat × Nat)
  | 0, pos, cur => if cur < super_copy.sys_array_size then none else some (pos, cur)
  | fuel + 1, pos, cur =>
    if cur < super_copy.sys_array_size then
      match btrfs_disk_key_to_cpu super_copy.sys_chunk_array pos with
      | none => none
      | some key =>
        if key.type = K.BTRFS_CHUNK_ITEM_KEY then
          match btrfs_chunk_at super_copy.sys_chunk_array (pos + sizeof_disk_key) with
          | none => none
          | some chunk =>
            sys_array_end_loop K super_copy fuel
              (pos + sizeof_disk_key + u32 (btrfs_chunk_item_size chunk.num_stripes))
              (u32 (u32 (cur + sizeof_disk_key) + u32 (btrfs_chunk_item_size chunk.num_stripes)))
        else none
    else some (pos, cur)

/-- The number of bytes the loop of `btrfs_read_sys_array` has consumed when
it is left: the final values of `ptr` (as an offset into the array) and of
`cur`. -/
def sys_array_end (K : ctree_consts) (super_copy : btrfs_super_block) : Option (Nat × Nat) :=
  sys_array_end_loop K super_copy super_copy.sys_array_size 0 0

/-- The packed stream of `(disk_key, chunk_item)` pairs of a list of entries,
written from the words of the spec (section 6, "Sys chunk array"): for every
entry the disk key and the `btrfs_chunk_item_size(num_stripes)` bytes of the
chunk item in `memory e`. -/
def sys_array_bytes (memory : btrfs_key × btrfs_chunk → List Nat)
    (entries : List (btrfs_key × btrfs_chunk)) : List Nat :=
  (entries.map (fun e => btrfs_cpu_key_to_disk e.1 ++
    (memory e).take (btrfs_chunk_item_size e.2.num_stripes))).flatten

/-- A super block copy with an empty array of system chunks of 2048 bytes. -/
def ex_super_empty : btrfs_super_block :=
  { fsid := [1], generation := 7, sys_array_size := 0, sys_chunk_array := List.replicate 2048 0 }

/-- Two system chunks to append: `[0, 8 MiB)` on devid 1 and `[8 MiB, 24 MiB)`
striped over the devids 1 and 2. -/
def ex_sys_entries : List (btrfs_key × btrfs_chunk) :=
  [({ objectid := 0, type := 77, offset := 8388608 }, ex_sys_chunk),
   ({ objectid := 8388608, type := 77, offset := 16777216 },
    { owner := 2, stripe_len := 32768, type := 10, io_align := 32768, io_width := 32768,
      sector_size := 4096, num_stripes := 2,
      stripes := [{ devid := 1, offset := 8388608 }, { devid := 2, offset := 0 }] })]

/-- The super block copy after the two system chunks of `ex_sys_entries` have
been appended to `ex_super_empty`: 178 bytes of the array are in use. -/
def ex_super_two : btrfs_super_block :=
  { fsid := [1], generation := 7, sys_array_size := 178,
    sys_chunk_array :=
      sys_array_bytes (fun e => chunk_item_bytes e.2) ex_sys_entries ++ List.replicate 1870 0 }

/-- The result `r` of a sequence of calls of `btrfs_add_system_chunk` is a
return of 0 with the super block copy `s`. -/
def add_system_chunks_gives (r : Except fault (Except errno btrfs_super_block))
    (s : btrfs_super_block) : Bool :=
  match r with
  | .ok (.ok s1) => decide (s1 = s)
  | _ => false

/-! ## Vocabulary for the devices the allocator has filled -/

/-- The end of the region that the extents `es`, taken in order, tile from
`start` on: every extent is non-empty and starts where the one before it ends
(the first at `start`); `none` when the extents do not tile a region. -/
def tiles_from : Nat → List (Nat × Nat) → Option Nat
  | start, [] => some start
  | start, e :: rest => if e.1 = start ∧ 1 ≤ e.2 then tiles_from (start + e.2) rest else none

/-- The devices are those the allocator has filled: the device tree is in key
order and holds device extents only, the devids are distinct, and for every
device `bytes_used ≤ total_bytes < 2^64` and the extents of the device tile
`[0, bytes_used)`. -/
def dev_tiled (K : ctree_consts) (devices : List btrfs_device)
    (dev_root : List dev_extent_item) : Prop :=
  dev_tree_sorted dev_root ∧
  (∀ it ∈ dev_root, it.key.type = K.BTRFS_DEV_EXTENT_KEY) ∧
  (devices.map (fun d => d.devid)).Nodup ∧
  ∀ d ∈ devices, d.total_bytes < 18446744073709551616 ∧ d.bytes_used ≤ d.total_bytes ∧
    tiles_from 0 (dev_extents K dev_root d.devid) = some d.bytes_used

instance (K : ctree_consts) (devices : List btrfs_device) (dev_root : List dev_extent_item) :
    Decidable (dev_tiled K devices dev_root) := by
  unfold dev_tiled; infer_instance

/-- A sequence of calls of `btrfs_alloc_chunk`, one per pair of the root passed
and the chunk type, each on the state the call before has left; the sequence
goes on behind a call that returns `-ENOSPC` and ends at a call that aborts. -/
def alloc_chunks (K : ctree_consts) :
    btrfs_fs_info → List (btrfs_root × Nat) → Except fault btrfs_fs_info
  | info, [] => .ok info
  | info, c :: rest =>
    match btrfs_alloc_chunk K info c.1 c.2 with
    | .error f => .error f
    | .ok (_, info1) => alloc_chunks K info1 rest

/-- The key of the dev item of a device in the chunk tree (`volumes.c` lines
496-498). -/
def dev_item_key (K : ctree_consts) (device : btrfs_device) : btrfs_key :=
  { objectid := K.BTRFS_DEV_ITEMS_OBJECTID, type := K.BTRFS_DEV_ITEM_KEY, offset := device.devid }

/-! # Theorems -/

/-! ## Machine arithmetic lemmas -/

theorem u64_of_lt {x : Nat} (h : x < 18446744073709551616) : u64 x = x := by
  unfold u64; omega

theorem u64_lt (x : Nat) : u64 x < 18446744073709551616 := by
  unfold u64; omega

theorem u64_sub_of_le {a b : Nat} (hb : b ≤ a) (ha : a < 18446744073709551616) :
    u64_sub a b = a - b := by
  unfold u64_sub; omega

theorem u64_of_int_of_nonneg {i : Int} (h0 : 0 ≤ i) (h1 : i < 18446744073709551616) :
    u64_of_int i = i.toNat := by
  unfold u64_of_int; omega

theorem int_of_u64_of_lt {x : Nat} (h : x < 2147483648) : int_of_u64 x = (x : Int) := by
  unfold int_of_u64; omega

theorem nat_sub_div_mul (a b : Nat) : a - a / b * b = a % b := by
  have h := Nat.div_add_mod a b
  rw [Nat.mul_comm] at h
  omega

/-! ## `btrfs_map_block` -/

/-- The lookup returns a member of the tree. -/
theorem find_first_cache_extent_mem :
    ∀ (t : cache_tree) (logical : Nat) (m : map_lookup),
      find_first_cache_extent t logical = some m → m ∈ t := by
  intro t
  induction t with
  | nil => intro logical m h; simp [find_first_cache_extent] at h
  | cons a rest ih =>
    intro logical m h
    unfold find_first_cache_extent at h
    split at h
    · cases hrest : find_first_cache_extent rest logical with
      | none =>
        rw [hrest] at h
        simp only [Option.some.injEq] at h
        rw [← h]; exact List.mem_cons_self _ _
      | some m2 =>
        rw [hrest] at h
        simp only [Option.some.injEq] at h
        rw [← h]; exact List.mem_cons_of_mem _ (ih logical m2 hrest)
    · simp at h

/-- In a well-formed tree the lookup returns the entry that contains the address. -/
theorem find_first_cache_extent_of_mem :
    ∀ (t : cache_tree) (logical : Nat) (m : map_lookup), cache_tree_wf t → m ∈ t →
      m.ce.start ≤ logical → logical < m.ce.start + m.ce.size →
      find_first_cache_extent t logical = some m := by
  intro t
  induction t with
  | nil => intro logical m _ hm; simp at hm
  | cons a rest ih =>
    intro logical m hwf hm h1 h2
    unfold cache_tree_wf at hwf
    rw [List.pairwise_cons] at hwf
    obtain ⟨hhead, htail⟩ := hwf
    rcases List.mem_cons.mp hm with hma | hmr
    · subst hma
      have hnone : find_first_cache_extent rest logical = none := by
        cases rest with
        | nil => rfl
        | cons b rest2 =>
          have hb := hhead b (List.mem_cons_self _ _)
          unfold find_first_cache_extent
          rw [if_neg (by omega)]
      unfold find_first_cache_extent
      rw [if_pos h1, hnone]
    · have ha := hhead m hmr
      have hrest := ih logical m htail hmr h1 h2
      unfold find_first_cache_extent
      rw [if_pos (by omega), hrest]

/-- When the lookup returns `m`, `btrfs_map_block` is the translation on `m`. -/
theorem btrfs_map_block_eq_entry (K : ctree_consts) (t : cache_tree) (logical : Nat)
    (m : map_lookup) (h : find_first_cache_extent t logical = some m) :
    btrfs_map_block K t logical = map_block_entry K m logical := by
  unfold btrfs_map_block
  rw [h]

/-- Normal form of `map_block_entry` on an entry that passes the containment
assertion: `u` is the stripe length as the `u64` the code divides by. -/
theorem map_block_entry_eq (K : ctree_consts) (m : map_lookup) (logical : Nat)
    (hty : m.typed) (hl : logical < 18446744073709551616)
    (h1 : m.ce.start ≤ logical) (h2 : ¬ u64 (m.ce.start + m.ce.size) < logical)
    (hu : u64_of_int m.stripe_len ≠ 0) (hns : 0 < m.num_stripes) :
    logical - m.ce.start ≤ m.ce.size ∧
    ∃ s, m.stripes[(logical - m.ce.start) / u64_of_int m.stripe_len % m.num_stripes.toNat]? = some s ∧
      map_block_entry K m logical = .ok
        { dev := s.dev
          phys := u64 (s.physical + (logical - m.ce.start) % u64_of_int m.stripe_len +
            (logical - m.ce.start) / u64_of_int m.stripe_len / m.num_stripes.toNat * u64_of_int m.stripe_len)
          length :=
            if Nat.land m.type K.BTRFS_BLOCK_GROUP_RAID0 ≠ 0 then
              min (m.ce.size - (logical - m.ce.start))
                (u64_of_int m.stripe_len - (logical - m.ce.start) % u64_of_int m.stripe_len)
            else m.ce.size - (logical - m.ce.start) } := by
  obtain ⟨hs, hz, _, hsl0, hsl1, hn0, hn1, hlen, _⟩ := hty
  have hoff : u64_sub logical m.ce.start = logical - m.ce.start := u64_sub_of_le h1 hl
  have hle : logical - m.ce.start ≤ m.ce.size := by
    unfold u64 at h2; omega
  have hofflt : logical - m.ce.start < 18446744073709551616 := by omega
  have hnn : u64_of_int m.num_stripes = m.num_stripes.toNat := by
    unfold u64_of_int; omega
  have hult : u64_of_int m.stripe_len < 18446744073709551616 := by
    unfold u64_of_int; omega
  have hnpos : 0 < m.num_stripes.toNat := by omega
  have hnlt : m.num_stripes.toNat < 2147483648 := by omega
  have hnlen : m.stripes.length = m.num_stripes.toNat := by omega
  have c1 : ¬ (m.ce.start > logical ∨ u64 (m.ce.start + m.ce.size) < logical) := by
    intro h; rcases h with h | h
    · exact absurd h1 (Nat.not_le.mpr h)
    · exact h2 h
  have e5 : u64_sub m.ce.size (logical - m.ce.start) = m.ce.size - (logical - m.ce.start) :=
    u64_sub_of_le hle hz
  unfold map_block_entry
  simp only [c1, hoff, hnn, e5, if_false]
  generalize u64_of_int m.stripe_len = u at *
  generalize logical - m.ce.start = off at *
  generalize hN : m.num_stripes.toNat = n at *
  have hupos : 0 < u := Nat.pos_of_ne_zero hu
  have hdm : off / u * u ≤ off := Nat.div_mul_le_self off u
  have hmodlt : off % u < u := Nat.mod_lt _ hupos
  have hidx : off / u % n < n := Nat.mod_lt _ hnpos
  have hround : off / u / n * u ≤ off :=
    Nat.le_trans (Nat.mul_le_mul_right _ (Nat.div_le_self _ _)) hdm
  have e1 : u64 (off / u * u) = off / u * u := u64_of_lt (Nat.lt_of_le_of_lt hdm hofflt)
  have e2 : u64_sub off (off / u * u) = off % u := by
    rw [u64_sub_of_le hdm hofflt]
    exact nat_sub_div_mul off u
  have e3 : int_of_u64 (off / u % n) = ((off / u % n : Nat) : Int) :=
    int_of_u64_of_lt (Nat.lt_trans hidx hnlt)
  have e4 : u64 (off / u / n * u) = off / u / n * u :=
    u64_of_lt (Nat.lt_of_le_of_lt hround hofflt)
  have e6 : u64_sub u (off % u) = u - off % u := u64_sub_of_le (Nat.le_of_lt hmodlt) hult
  have c2 : ¬ off < off / u * u := Nat.not_lt.mpr hdm
  have hnI : m.num_stripes = (n : Int) := by
    rw [← hN]; exact (Int.toNat_of_nonneg (Int.le_of_lt hns)).symm
  have c3 : ¬ (((off / u % n : Nat) : Int) ≥ m.num_stripes) := by
    rw [hnI]; exact_mod_cast Nat.not_le.mpr hidx
  have c4 : ¬ (((off / u % n : Nat) : Int) < 0) := by
    exact not_lt.mpr (Int.ofNat_nonneg _)
  have hn0' : ¬ (n = 0) := Nat.pos_iff_ne_zero.mp hnpos
  have hidxlen : off / u % n < m.stripes.length := by rw [hnlen]; exact hidx
  refine ⟨hle, m.stripes.get ⟨_, hidxlen⟩, List.getElem?_eq_getElem hidxlen, ?_⟩
  simp only [e1, e2, e3, e4, e6, c2, c3, c4, hu, hn0', if_false,
    Int.toNat_ofNat, List.getElem?_eq_getElem hidxlen]
  rfl

theorem raid0_shift (off u k : Nat) (hk : k < u - off % u) :
    (off + k) / u = off / u ∧ (off + k) % u = off % u + k := by
  have hu : 0 < u := by omega
  have hlt : off % u + k < u := by omega
  have hsplit : off + k = u * (off / u) + (off % u + k) := by
    have := Nat.div_add_mod off u
    omega
  constructor
  · rw [hsplit, Nat.mul_add_div hu, Nat.div_eq_of_lt hlt, Nat.add_zero]
  · rw [hsplit, Nat.mul_add_mod, Nat.mod_eq_of_lt hlt]

theorem single_stripe_sum (x u : Nat) : x % u + x / u / 1 * u = x := by
  rw [Nat.div_one, Nat.add_comm, Nat.mul_comm]
  exact Nat.div_add_mod x u

theorem u64_add_u64 (a k : Nat) : u64 (u64 a + k) = u64 (a + k) := by
  unfold u64; omega

/-- What a successful translation on `m` implies about `m` and the address. -/
theorem map_block_entry_ok_inv (K : ctree_consts) (m : map_lookup) (logical : Nat)
    (r : block_mapping) (h : map_block_entry K m logical = .ok r) :
    m.ce.start ≤ logical ∧ ¬ u64 (m.ce.start + m.ce.size) < logical ∧
      u64_of_int m.stripe_len ≠ 0 ∧ 0 < m.num_stripes := by
  unfold map_block_entry at h
  split at h
  · exact absurd h (by simp)
  · rename_i hc
    split at h
    · exact absurd h (by simp)
    · rename_i hu
      dsimp only at h
      split at h
      · exact absurd h (by simp)
      · split at h
        · exact absurd h (by simp)
        · split at h
          · exact absurd h (by simp)
          · rename_i hge
            split at h
            · exact absurd h (by simp)
            · rename_i hneg
              refine ⟨?_, ?_, hu, ?_⟩
              · exact Nat.le_of_not_lt (fun hlt => hc (Or.inl hlt))
              · exact fun hlt => hc (Or.inr hlt)
              · omega

/-- C1: for a mapping entry `ce` returned by the lookup, with `stripe_len > 0`
and `num_stripes > 0`, and a logical address with
`ce.start ≤ logical < ce.start + ce.size` (the end being the 64-bit sum the
code forms), `btrfs_map_block` returns exactly the reference translation of
the spec: the device and length of `spec_map_block`, and its physical offset
as a 64-bit value. -/
theorem btrfs_map_block_reference (K : ctree_consts) (map_tree : cache_tree) (ce : map_lookup)
    (logical : Nat) (hfind : find_first_cache_extent map_tree logical = some ce)
    (hty : ce.typed) (hl : logical < 18446744073709551616)
    (hsl : 0 < ce.stripe_len) (hns : 0 < ce.num_stripes)
    (h1 : ce.ce.start ≤ logical) (h2 : logical < u64 (ce.ce.start + ce.ce.size)) :
    ∃ r, spec_map_block K ce logical = some r ∧
      btrfs_map_block K map_tree logical =
        .ok { dev := r.dev, phys := u64 r.phys, length := r.length } := by
  have hU : u64_of_int ce.stripe_len = ce.stripe_len.toNat :=
    u64_of_int_of_nonneg (Int.le_of_lt hsl) (by
      have := hty.2.2.2.2.1
      omega)
  have hu : u64_of_int ce.stripe_len ≠ 0 := by
    rw [hU]; omega
  obtain ⟨_, s, hs, hm⟩ :=
    map_block_entry_eq K ce logical hty hl h1 (Nat.not_lt.mpr (Nat.le_of_lt h2)) hu hns
  rw [hU] at hs hm
  have hspec : spec_map_block K ce logical = some
      { dev := s.dev
        phys := s.physical +
          (logical - ce.ce.start) / ce.stripe_len.toNat / ce.num_stripes.toNat * ce.stripe_len.toNat +
          (logical - ce.ce.start) % ce.stripe_len.toNat
        length :=
          if Nat.land ce.type K.BTRFS_BLOCK_GROUP_RAID0 ≠ 0 then
            min (ce.ce.size - (logical - ce.ce.start))
              (ce.stripe_len.toNat - (logical - ce.ce.start) % ce.stripe_len.toNat)
          else ce.ce.size - (logical - ce.ce.start) } := by
    unfold spec_map_block
    simp only [hs, nat_sub_div_mul]
  refine ⟨_, hspec, ?_⟩
  rw [btrfs_map_block_eq_entry K map_tree logical ce hfind, hm]
  dsimp only
  rw [Nat.add_right_comm]

/-- C2: for every chunk of a well-formed mapping index with `stripe_len ≥ 1`,
`num_stripes ≥ 1`, `size ≥ 1` and every `L` inside the chunk,
`btrfs_map_block` returns (no assertion fires, no division by zero, the
stripe index is in range) and the length is between `1` and
`size - (L - start)`, with or without RAID0. -/
theorem btrfs_map_block_defined (K : ctree_consts) (map_tree : cache_tree) (chunk : map_lookup)
    (L : Nat) (hwf : cache_tree_wf map_tree) (hmem : chunk ∈ map_tree)
    (hty : chunk.typed) (hL : L < 18446744073709551616)
    (hsl : 1 ≤ chunk.stripe_len) (hns : 1 ≤ chunk.num_stripes) (_hsz : 1 ≤ chunk.ce.size)
    (h1 : chunk.ce.start ≤ L) (h2 : L < u64 (chunk.ce.start + chunk.ce.size)) :
    ∃ r, btrfs_map_block K map_tree L = .ok r ∧
      1 ≤ r.length ∧ r.length ≤ chunk.ce.size - (L - chunk.ce.start) := by
  have hend : L < chunk.ce.start + chunk.ce.size := by
    unfold u64 at h2; omega
  have hpos : 1 ≤ chunk.ce.size - (L - chunk.ce.start) := by omega
  have hfind := find_first_cache_extent_of_mem map_tree L chunk hwf hmem h1 hend
  have hU : u64_of_int chunk.stripe_len = chunk.stripe_len.toNat :=
    u64_of_int_of_nonneg (by omega) (by
      have := hty.2.2.2.2.1
      omega)
  have hu : u64_of_int chunk.stripe_len ≠ 0 := by
    rw [hU]; omega
  obtain ⟨_, s, _, hm⟩ :=
    map_block_entry_eq K chunk L hty hL h1 (Nat.not_lt.mpr (Nat.le_of_lt h2)) hu (by omega)
  have hmod : (L - chunk.ce.start) % u64_of_int chunk.stripe_len < u64_of_int chunk.stripe_len :=
    Nat.mod_lt _ (Nat.pos_of_ne_zero hu)
  rw [← btrfs_map_block_eq_entry K map_tree L chunk hfind] at hm
  refine ⟨_, hm, ?_, ?_⟩
  · show 1 ≤ (if _ then _ else _)
    split
    · exact Nat.le_min.mpr ⟨hpos, Nat.sub_pos_of_lt hmod⟩
    · exact hpos
  · show (if _ then _ else _) ≤ _
    split
    · exact Nat.min_le_left _ _
    · exact Nat.le_refl _

/-- The translation at `logical + k`, for `k` below the returned length, on a
RAID0 chunk or a chunk with one stripe. -/
theorem map_block_entry_shift (K : ctree_consts) (m : map_lookup) (logical k : Nat)
    (r : block_mapping) (hty : m.typed) (hl : logical < 18446744073709551616)
    (hkind : Nat.land m.type K.BTRFS_BLOCK_GROUP_RAID0 ≠ 0 ∨ m.num_stripes = 1)
    (hr : map_block_entry K m logical = .ok r) (hk : k < r.length) :
    logical + k < m.ce.start + m.ce.size ∧
    map_block_entry K m (logical + k) =
      .ok { dev := r.dev, phys := u64 (r.phys + k), length := r.length - k } := by
  obtain ⟨h1, h2, hu, hns⟩ := map_block_entry_ok_inv K m logical r hr
  obtain ⟨hle, s, hs, hm⟩ := map_block_entry_eq K m logical hty hl h1 h2 hu hns
  have hend : m.ce.start + m.ce.size < 18446744073709551616 := by
    have hz := hty.2.1
    unfold u64 at h2; omega
  rw [hm] at hr
  have hreq := Except.ok.inj hr
  subst hreq
  have hlen : k < m.ce.size - (logical - m.ce.start) := by
    dsimp only at hk
    split at hk
    · exact Nat.lt_of_lt_of_le hk (Nat.min_le_left _ _)
    · exact hk
  have hin : logical + k < m.ce.start + m.ce.size := by omega
  have h1k : m.ce.start ≤ logical + k := by omega
  have hlk : logical + k < 18446744073709551616 := by omega
  have h2k : ¬ u64 (m.ce.start + m.ce.size) < logical + k := by
    rw [u64_of_lt hend]; omega
  have hoffk : logical + k - m.ce.start = (logical - m.ce.start) + k := by omega
  obtain ⟨_, s2, hs2, hm2⟩ := map_block_entry_eq K m (logical + k) hty hlk h1k h2k hu hns
  refine ⟨hin, ?_⟩
  rw [hm2, hoffk]
  rw [hoffk] at hs2
  clear hm2 hm hr h2k hlk h1k hin hend h2 h1 hl hoffk
  generalize logical - m.ce.start = off at *
  generalize u64_of_int m.stripe_len = u at *
  by_cases hraid : Nat.land m.type K.BTRFS_BLOCK_GROUP_RAID0 ≠ 0
  · rw [if_pos hraid] at hk
    rw [if_pos hraid, if_pos hraid]
    dsimp only at hk ⊢
    have hku : k < u - off % u := Nat.lt_of_lt_of_le hk (Nat.min_le_right _ _)
    obtain ⟨hd, hmd⟩ := raid0_shift off u k hku
    rw [hd] at hs2
    rw [hs] at hs2
    have hss := Option.some.inj hs2
    subst hss
    rw [hd, hmd, u64_add_u64]
    congr 2
    · congr 1
      omega
    · omega
  · have hn1 : m.num_stripes = 1 := by
      rcases hkind with h | h
      · exact absurd h hraid
      · exact h
    rw [if_neg hraid] at hk
    rw [if_neg hraid, if_neg hraid]
    dsimp only at hk ⊢
    rw [hn1] at hs hs2 ⊢
    simp only [Int.toNat_one, Nat.mod_one] at hs hs2 ⊢
    rw [hs] at hs2
    have hss := Option.some.inj hs2
    subst hss
    have e1 := single_stripe_sum off u
    have e2 := single_stripe_sum (off + k) u
    rw [u64_add_u64]
    congr 2
    · congr 1
      omega
    · omega

/-- C4: the run returned by `btrfs_map_block` stays in one stripe and is
physically contiguous. On a RAID0 chunk, or a chunk with one stripe, of a
well-formed index: if `map_block(L) = (dev, phys, len)` then
`map_block(L + k) = (dev, phys + k, len - k)` for every `k < len` (`phys + k`
as a 64-bit sum); with RAID0 `stripe_offset + len ≤ stripe_len`; with one
stripe `phys = stripes[0].physical + (L - start)`. -/
theorem btrfs_map_block_contiguous (K : ctree_consts) (map_tree : cache_tree) (chunk : map_lookup)
    (L : Nat) (r : block_mapping) (hwf : cache_tree_wf map_tree)
    (hfind : find_first_cache_extent map_tree L = some chunk)
    (hty : chunk.typed) (hL : L < 18446744073709551616)
    (hkind : Nat.land chunk.type K.BTRFS_BLOCK_GROUP_RAID0 ≠ 0 ∨ chunk.num_stripes = 1)
    (hr : btrfs_map_block K map_tree L = .ok r) :
    (∀ k, k < r.length → btrfs_map_block K map_tree (L + k) =
        .ok { dev := r.dev, phys := u64 (r.phys + k), length := r.length - k }) ∧
    (Nat.land chunk.type K.BTRFS_BLOCK_GROUP_RAID0 ≠ 0 →
      (L - chunk.ce.start) % u64_of_int chunk.stripe_len + r.length ≤ u64_of_int chunk.stripe_len) ∧
    (chunk.num_stripes = 1 → ∀ s0, chunk.stripes[0]? = some s0 →
      r.phys = u64 (s0.physical + (L - chunk.ce.start))) := by
  rw [btrfs_map_block_eq_entry K map_tree L chunk hfind] at hr
  obtain ⟨h1, h2, hu, hns⟩ := map_block_entry_ok_inv K chunk L r hr
  refine ⟨?_, ?_, ?_⟩
  · intro k hk
    obtain ⟨hin, hshift⟩ := map_block_entry_shift K chunk L k r hty hL hkind hr hk
    have hmem := find_first_cache_extent_mem map_tree L chunk hfind
    have hfind2 := find_first_cache_extent_of_mem map_tree (L + k) chunk hwf hmem
      (Nat.le_trans h1 (Nat.le_add_right L k)) hin
    rw [btrfs_map_block_eq_entry K map_tree (L + k) chunk hfind2]
    exact hshift
  · intro hraid
    obtain ⟨_, s, _, hm⟩ := map_block_entry_eq K chunk L hty hL h1 h2 hu hns
    rw [hm] at hr
    have hreq := Except.ok.inj hr
    subst hreq
    have hmod := Nat.mod_lt (L - chunk.ce.start) (Nat.pos_of_ne_zero hu)
    rw [if_pos hraid]
    dsimp only
    have := Nat.min_le_right (chunk.ce.size - (L - chunk.ce.start))
      (u64_of_int chunk.stripe_len - (L - chunk.ce.start) % u64_of_int chunk.stripe_len)
    omega
  · intro hn1 s0 hs0
    obtain ⟨_, s, hs, hm⟩ := map_block_entry_eq K chunk L hty hL h1 h2 hu hns
    rw [hm] at hr
    have hreq := Except.ok.inj hr
    subst hreq
    rw [hn1] at hs ⊢
    simp only [Int.toNat_one, Nat.mod_one] at hs ⊢
    rw [hs0] at hs
    have hss := Option.some.inj hs
    subst hss
    rw [Nat.add_assoc, single_stripe_sum]

/-- C3 (failing input): on the index holding only the chunk `[0, 16)`, the
call for `logical = 16`, the first byte past the chunk, returns a
zero-length mapping instead of stopping at the assertion. -/
theorem btrfs_map_block_past_end :
    find_first_cache_extent [ex_raid0] 16 = some ex_raid0 ∧
    ex_raid0.ce.start + ex_raid0.ce.size = 16 ∧
    btrfs_map_block K0 [ex_raid0] 16 = .ok { dev := 1, phys := 108, length := 0 } := by
  refine ⟨rfl, rfl, rfl⟩

/-- Witness of C1 on the two-stripe RAID0 chunk `[0, 16)`, at logical address 5. -/
theorem btrfs_map_block_reference_witness :
    find_first_cache_extent [ex_raid0, ex_single] 5 = some ex_raid0 ∧
    ex_raid0.ce.start ≤ 5 ∧ 5 < u64 (ex_raid0.ce.start + ex_raid0.ce.size) ∧
    ∃ r, spec_map_block K0 ex_raid0 5 = some r ∧
      btrfs_map_block K0 [ex_raid0, ex_single] 5 =
        .ok { dev := r.dev, phys := u64 r.phys, length := r.length } :=
  ⟨rfl, by decide, by decide,
    btrfs_map_block_reference K0 [ex_raid0, ex_single] ex_raid0 5 rfl (by decide) (by decide)
      (by decide) (by decide) (by decide) (by decide)⟩

/-- Witness of C2 on the single-stripe chunk `[16, 24)`, at logical address 20. -/
theorem btrfs_map_block_defined_witness :
    cache_tree_wf [ex_raid0, ex_single] ∧ ex_single ∈ [ex_raid0, ex_single] ∧
    ∃ r, btrfs_map_block K0 [ex_raid0, ex_single] 20 = .ok r ∧
      1 ≤ r.length ∧ r.length ≤ ex_single.ce.size - (20 - ex_single.ce.start) :=
  ⟨by decide, by decide,
    btrfs_map_block_defined K0 [ex_raid0, ex_single] ex_single 20 (by decide) (by decide)
      (by decide) (by decide) (by decide) (by decide) (by decide) (by decide) (by decide)⟩

/-- Witness of C4 on the RAID0 chunk: the run of length 3 returned at address 5. -/
theorem btrfs_map_block_contiguous_witness :
    btrfs_map_block K0 [ex_raid0, ex_single] 5 = .ok { dev := 2, phys := 201, length := 3 } ∧
    (∀ k, k < 3 → btrfs_map_block K0 [ex_raid0, ex_single] (5 + k) =
        .ok { dev := 2, phys := u64 (201 + k), length := 3 - k }) ∧
    (Nat.land ex_raid0.type K0.BTRFS_BLOCK_GROUP_RAID0 ≠ 0 →
      (5 - ex_raid0.ce.start) % u64_of_int ex_raid0.stripe_len + 3 ≤ u64_of_int ex_raid0.stripe_len) ∧
    (ex_raid0.num_stripes = 1 → ∀ s0, ex_raid0.stripes[0]? = some s0 →
      201 = u64 (s0.physical + (5 - ex_raid0.ce.start))) :=
  ⟨rfl, btrfs_map_block_contiguous K0 [ex_raid0, ex_single] ex_raid0 5
      { dev := 2, phys := 201, length := 3 } (by decide) rfl (by decide) (by decide)
      (Or.inl (by decide)) rfl⟩

/-! ## `find_free_dev_extent` -/

theorem check_pending_fit {nb total start : Nat} (h : start + nb ≤ total)
    (ht : total < 18446744073709551616) :
    check_pending nb 0 total start = .ok (.ok start) := by
  unfold check_pending
  have e : u64 (start + nb) = start + nb := u64_of_lt (Nat.lt_of_le_of_lt h ht)
  rw [e, if_neg (Nat.not_lt_zero _), if_neg (Nat.not_lt.mpr h)]

theorem check_pending_nofit {nb total start : Nat} (h : total < start + nb)
    (hw : start + nb < 18446744073709551616) :
    check_pending nb 0 total start = .ok (.error errno.ENOSPC) := by
  unfold check_pending
  have e : u64 (start + nb) = start + nb := u64_of_lt hw
  rw [e, if_neg (Nat.not_lt_zero _), if_pos h]

/-- The end of the items: with an extent seen, the answer is the last end if
the request fits behind it. -/
theorem no_more_items_found {nb total lb : Nat} (hnb : 1 ≤ nb)
    (hw : lb + nb < 18446744073709551616) :
    no_more_items nb 0 total lb true =
      if lb + nb ≤ total then .ok (.ok lb) else .ok (.error errno.ENOSPC) := by
  unfold no_more_items
  have e1 : (if lb > 0 then lb else 0) = lb := by
    by_cases h : lb > 0
    · rw [if_pos h]
    · rw [if_neg h]; omega
  simp only [Bool.not_true, Bool.false_eq_true, if_false, e1]
  by_cases h1 : total ≤ lb
  · rw [if_pos h1, if_neg (by omega)]
  · rw [if_neg h1]
    by_cases h2 : lb + nb ≤ total
    · rw [if_pos h2]
      unfold check_pending
      rw [u64_of_lt hw, if_neg (Nat.not_lt_zero _), if_neg (Nat.not_lt.mpr h2)]
    · rw [if_neg h2]
      exact check_pending_nofit (Nat.lt_of_not_le h2) hw

/-- Items of other devices in front of or behind the items of the device do not
change the scan: on a list whose objectids do not decrease the loop sees only
the items of the device. -/
theorem find_free_dev_extent_loop_filter (K : ctree_consts) (devid nb ss se : Nat) :
    ∀ (l : List dev_extent_item) (lb : Nat) (sf : Bool),
      l.Pairwise (fun a b => a.key.objectid ≤ b.key.objectid) →
      find_free_dev_extent_loop K devid nb ss se l lb sf =
        find_free_dev_extent_loop K devid nb ss se
          (l.filter (fun it => decide (it.key.objectid = devid))) lb sf := by
  intro l
  induction l with
  | nil => intro lb sf _; rfl
  | cons it rest ih =>
    intro lb sf hp
    have hp2 := List.pairwise_cons.mp hp
    by_cases h1 : it.key.objectid < devid
    · have hne : ¬ it.key.objectid = devid := Nat.ne_of_lt h1
      rw [List.filter_cons_of_neg (by simpa using hne)]
      rw [← ih lb sf hp2.2]
      simp only [find_free_dev_extent_loop, h1, if_true]
    · by_cases h2 : it.key.objectid > devid
      · have hne : ¬ it.key.objectid = devid := Nat.ne_of_gt h2
        have hnil : rest.filter (fun it => decide (it.key.objectid = devid)) = [] := by
          rw [List.filter_eq_nil_iff]
          intro a ha
          have := hp2.1 a ha
          simp only [decide_eq_true_eq]
          omega
        rw [List.filter_cons_of_neg (by simpa using hne), hnil]
        simp only [find_free_dev_extent_loop, h1, h2, if_true, if_false]
      · have heq : it.key.objectid = devid := by omega
        rw [List.filter_cons_of_pos (by simpa using heq)]
        simp only [find_free_dev_extent_loop, h1, h2, if_false]
        rw [ih _ _ hp2.2, ih _ _ hp2.2]

theorem btrfs_search_slot_le (keys : List btrfs_key) (key : btrfs_key) :
    ∀ k ∈ keys.take (btrfs_search_slot keys key).2, btrfs_key_lt k key := by
  induction keys with
  | nil => intro k hk; simp [btrfs_search_slot] at hk
  | cons a rest ih =>
    intro k hk
    unfold btrfs_search_slot at hk
    by_cases h : btrfs_key_lt a key
    · rw [if_pos h] at hk
      simp only [List.take_succ_cons, List.mem_cons] at hk
      rcases hk with hk | hk
      · rw [hk]; exact h
      · exact ih k hk
    · rw [if_neg h] at hk
      by_cases h2 : a = key
      · rw [if_pos h2] at hk; simp at hk
      · rw [if_neg h2] at hk; simp at hk

theorem btrfs_previous_item_le (keys : List btrfs_key) (type : Nat) :
    ∀ slot, (btrfs_previous_item keys type slot).2 ≤ slot := by
  intro slot
  induction slot with
  | zero => simp [btrfs_previous_item]
  | succ n ih =>
    unfold btrfs_previous_item
    cases hk : keys[n]? with
    | none => simp only; omega
    | some k =>
      simp only
      by_cases h : k.type = type
      · rw [if_pos h]; simp
      · rw [if_neg h]; omega

theorem filter_drop_of_take {α : Type} (p : α → Bool) (l : List α) (n : Nat)
    (h : ∀ a ∈ l.take n, p a = false) : (l.drop n).filter p = l.filter p := by
  have e : l.filter p = (l.take n).filter p ++ (l.drop n).filter p := by
    rw [← List.filter_append, List.take_append_drop]
  have e2 : (l.take n).filter p = [] := by
    rw [List.filter_eq_nil_iff]
    intro a ha
    rw [h a ha]; simp
  rw [e, e2, List.nil_append]
/-- One turn of the loop on an item of the device, once an extent has been
seen (`search_start = 0`). -/
theorem find_free_dev_extent_loop_cons_found (K : ctree_consts) (devid nb total : Nat)
    (it : dev_extent_item) (rest : List dev_extent_item) (lb : Nat)
    (h : it.key.objectid = devid) :
    find_free_dev_extent_loop K devid nb 0 total (it :: rest) lb true =
      if it.key.offset > lb ∧ u64_sub it.key.offset lb ≥ nb then check_pending nb 0 total lb
      else if it.key.type ≠ K.BTRFS_DEV_EXTENT_KEY then
        find_free_dev_extent_loop K devid nb 0 total rest lb true
      else find_free_dev_extent_loop K devid nb 0 total rest (u64 (it.key.offset + it.length)) true := by
  have h1 : ¬ it.key.objectid < devid := by rw [h]; exact Nat.lt_irrefl _
  have h2 : ¬ it.key.objectid > devid := by rw [h]; exact Nat.lt_irrefl _
  have e0 : decide (lb < 0) = false := by simp
  simp only [find_free_dev_extent_loop, h1, h2, if_false, e0, Bool.and_false, Bool.false_eq_true,
    ge_iff_le, Nat.zero_le, decide_True, Bool.true_and, Bool.and_true, Bool.and_eq_true,
    decide_eq_true_eq, and_self]

/-- One turn of the loop on an extent of the device before any extent has been
seen: the extent is recorded, the gap in front of it is not looked at. -/
theorem find_free_dev_extent_loop_cons_first (K : ctree_consts) (devid nb ss total : Nat)
    (it : dev_extent_item) (rest : List dev_extent_item) (lb : Nat)
    (h : it.key.objectid = devid) (ht : it.key.type = K.BTRFS_DEV_EXTENT_KEY) :
    find_free_dev_extent_loop K devid nb ss total (it :: rest) lb false =
      find_free_dev_extent_loop K devid nb ss total rest (u64 (it.key.offset + it.length)) true := by
  have h1 : ¬ it.key.objectid < devid := by rw [h]; exact Nat.lt_irrefl _
  have h2 : ¬ it.key.objectid > devid := by rw [h]; exact Nat.lt_irrefl _
  simp only [find_free_dev_extent_loop, h1, h2, if_false, Bool.and_false, Bool.false_and,
    Bool.false_eq_true, ht, ne_eq, not_true_eq_false]

/-- The scan behind an extent `(off0, len0)` already seen, over the remaining
extents of the device: it follows the first-fit rule between extents. -/
theorem find_free_dev_extent_loop_chain (K : ctree_consts) (devid nb total : Nat) (hnb : 1 ≤ nb)
    (hw : total + nb < 18446744073709551616) :
    ∀ (l : List dev_extent_item) (off0 len0 : Nat),
      (∀ it ∈ l, it.key.objectid = devid ∧ it.key.type = K.BTRFS_DEV_EXTENT_KEY) →
      extents_within total ((off0, len0) :: l.map (fun it => (it.key.offset, it.length))) →
      ∃ r, first_fit_between nb total
            ((off0, len0) :: l.map (fun it => (it.key.offset, it.length))) = some r ∧
        find_free_dev_extent_loop K devid nb 0 total l (off0 + len0) true = .ok r := by
  intro l
  induction l with
  | nil =>
    intro off0 len0 _ hwi
    have hend : off0 + len0 ≤ total := hwi.2 (off0, len0) (List.mem_cons_self _ _)
    have hw2 : off0 + len0 + nb < 18446744073709551616 := by omega
    refine ⟨if off0 + len0 + nb ≤ total then .ok (off0 + len0) else .error errno.ENOSPC, ?_, ?_⟩
    · simp only [List.map_nil, first_fit_between]
      by_cases h : off0 + len0 + nb ≤ total
      · rw [if_pos h, if_pos h]
      · rw [if_neg h, if_neg h]
    · simp only [find_free_dev_extent_loop]
      rw [no_more_items_found hnb hw2]
      by_cases h : off0 + len0 + nb ≤ total
      · rw [if_pos h, if_pos h]
      · rw [if_neg h, if_neg h]
  | cons it rest ih =>
    intro off0 len0 hty hwi
    have hit := hty it (List.mem_cons_self _ _)
    have hty2 : ∀ x ∈ rest, x.key.objectid = devid ∧ x.key.type = K.BTRFS_DEV_EXTENT_KEY :=
      fun x hx => hty x (List.mem_cons_of_mem _ hx)
    have hchain := hwi.1
    rw [List.map_cons] at hchain
    have hc1 : off0 + len0 ≤ it.key.offset :=
      (List.pairwise_cons.mp hchain).1 (it.key.offset, it.length) (List.mem_cons_self _ _)
    have hc2 := (List.pairwise_cons.mp hchain).2
    have hwi2 : extents_within total
        ((it.key.offset, it.length) :: rest.map (fun it => (it.key.offset, it.length))) :=
      ⟨hc2, fun e he => hwi.2 e (by rw [List.map_cons]; exact List.mem_cons_of_mem _ he)⟩
    have hend : it.key.offset + it.length ≤ total :=
      hwi2.2 (it.key.offset, it.length) (List.mem_cons_self _ _)
    have hoff : it.key.offset < 18446744073709551616 := by omega
    have hu : u64 (it.key.offset + it.length) = it.key.offset + it.length :=
      u64_of_lt (by omega)
    have hsub : u64_sub it.key.offset (off0 + len0) = it.key.offset - (off0 + len0) :=
      u64_sub_of_le hc1 hoff
    obtain ⟨r, hr1, hr2⟩ := ih it.key.offset it.length hty2 hwi2
    by_cases hgap : it.key.offset - (off0 + len0) ≥ nb
    · refine ⟨.ok (off0 + len0), ?_, ?_⟩
      · simp only [List.map_cons, first_fit_between]
        rw [if_pos hgap]
      · have hgt : it.key.offset > off0 + len0 := by omega
        have hfit : off0 + len0 + nb ≤ total := by omega
        have hw3 : total < 18446744073709551616 := by omega
        rw [find_free_dev_extent_loop_cons_found K devid nb total it rest _ hit.1, hsub,
          if_pos ⟨hgt, hgap⟩]
        exact check_pending_fit hfit hw3
    · refine ⟨r, ?_, ?_⟩
      · simp only [List.map_cons, first_fit_between]
        rw [if_neg hgap]
        exact hr1
      · have hng : ¬ nb ≤ it.key.offset - (off0 + len0) := hgap
        rw [find_free_dev_extent_loop_cons_found K devid nb total it rest _ hit.1, hsub,
          if_neg (fun h => hng h.2), if_neg (fun h => h hit.2), hu]
        exact hr2

/-- The first-fit rule for `find_free_dev_extent`: on a device tree in key
order in which the items of the device are device extents `e_1 .. e_n`
(`n ≥ 1`) that are sorted, disjoint and inside `[0, total_bytes)`, a request
of `num_bytes ≥ 1` with `total_bytes + num_bytes < 2^64` returns what the rule
between extents gives. -/
theorem find_free_dev_extent_eq_first_fit (K : ctree_consts) (dev_root : List dev_extent_item)
    (device : btrfs_device) (num_bytes : Nat)
    (hsorted : dev_tree_sorted dev_root)
    (htype : ∀ it ∈ dev_root, it.key.objectid = device.devid →
      it.key.type = K.BTRFS_DEV_EXTENT_KEY)
    (hn : dev_extents K dev_root device.devid ≠ [])
    (hwithin : extents_within device.total_bytes (dev_extents K dev_root device.devid))
    (hnb : 1 ≤ num_bytes)
    (hwrap : device.total_bytes + num_bytes < 18446744073709551616) :
    ∃ r, first_fit_between num_bytes device.total_bytes
          (dev_extents K dev_root device.devid) = some r ∧
      find_free_dev_extent K dev_root device num_bytes = .ok r := by
  -- the items of the device
  have hfil : dev_root.filter (fun it => decide (it.key.objectid = device.devid) &&
        decide (it.key.type = K.BTRFS_DEV_EXTENT_KEY)) =
      dev_root.filter (fun it => decide (it.key.objectid = device.devid)) := by
    apply List.filter_congr
    intro x hx
    by_cases h : x.key.objectid = device.devid
    · simp [h, htype x hx h]
    · simp [h]
  have hde : dev_extents K dev_root device.devid =
      (dev_root.filter (fun it => decide (it.key.objectid = device.devid))).map
        (fun it => (it.key.offset, it.length)) := by
    unfold dev_extents; rw [hfil]
  -- the scan starts at or before the first item of the device
  have hmono : dev_root.Pairwise (fun a b => a.key.objectid ≤ b.key.objectid) := by
    refine List.Pairwise.imp ?_ hsorted
    intro a b hab
    rcases hab with h | h
    · exact Nat.le_of_lt h
    · exact Nat.le_of_eq h.1
  have hloop : find_free_dev_extent K dev_root device num_bytes =
      find_free_dev_extent_loop K device.devid num_bytes 0 device.total_bytes
        (dev_root.filter (fun it => decide (it.key.objectid = device.devid))) 0 false := by
    unfold find_free_dev_extent
    simp only
    rw [find_free_dev_extent_loop_filter K _ _ _ _ _ _ _
      (List.Pairwise.sublist (List.drop_sublist _ _) hmono)]
    congr 1
    apply filter_drop_of_take
    intro a ha
    have hle := btrfs_previous_item_le (dev_root.map (fun it => it.key)) K.BTRFS_DEV_EXTENT_KEY
      (btrfs_search_slot (dev_root.map (fun it => it.key))
        { objectid := device.devid, type := K.BTRFS_DEV_EXTENT_KEY, offset := 0 }).2
    have ha2 : a ∈ dev_root.take (btrfs_search_slot (dev_root.map (fun it => it.key))
        { objectid := device.devid, type := K.BTRFS_DEV_EXTENT_KEY, offset := 0 }).2 :=
      (List.take_sublist_take_left _ hle).subset ha
    have hk : a.key ∈ (dev_root.map (fun it => it.key)).take
        (btrfs_search_slot (dev_root.map (fun it => it.key))
        { objectid := device.devid, type := K.BTRFS_DEV_EXTENT_KEY, offset := 0 }).2 := by
      rw [← List.map_take]
      exact List.mem_map_of_mem _ ha2
    have hlt := btrfs_search_slot_le _ _ _ hk
    have hmem : a ∈ dev_root := List.mem_of_mem_take ha2
    by_cases h : a.key.objectid = device.devid
    · exfalso
      have ht := htype a hmem h
      rcases hlt with h3 | ⟨_, h3 | ⟨_, h3⟩⟩
      · simp only at h3; omega
      · simp only at h3; omega
      · simp only at h3; omega
    · simp [h]
  rw [hloop, hde]
  -- the first extent is only recorded
  have hty : ∀ it ∈ dev_root.filter (fun it => decide (it.key.objectid = device.devid)),
      it.key.objectid = device.devid ∧ it.key.type = K.BTRFS_DEV_EXTENT_KEY := by
    intro it hit
    have h := List.mem_filter.mp hit
    have h1 : it.key.objectid = device.devid := by simpa using h.2
    exact ⟨h1, htype it h.1 h1⟩
  rw [hde] at hn hwithin
  generalize dev_root.filter (fun it => decide (it.key.objectid = device.devid)) = l at *
  cases l with
  | nil => exact absurd rfl hn
  | cons it rest =>
    have hit := hty it (List.mem_cons_self _ _)
    have hend : it.key.offset + it.length ≤ device.total_bytes :=
      hwithin.2 (it.key.offset, it.length) (by rw [List.map_cons]; exact List.mem_cons_self _ _)
    have hu : u64 (it.key.offset + it.length) = it.key.offset + it.length :=
      u64_of_lt (by omega)
    obtain ⟨r, hr1, hr2⟩ := find_free_dev_extent_loop_chain K device.devid num_bytes
      device.total_bytes hnb hwrap rest it.key.offset it.length
      (fun x hx => hty x (List.mem_cons_of_mem _ hx)) (by rw [List.map_cons] at hwithin; exact hwithin)
    refine ⟨r, by rw [List.map_cons]; exact hr1, ?_⟩
    rw [find_free_dev_extent_loop_cons_first K _ _ _ _ it rest 0 hit.1 hit.2, hu]
    exact hr2
theorem first_fit_between_ge (nb total : Nat) :
    ∀ (es : List (Nat × Nat)) (e0 : Nat × Nat) (start : Nat),
      (e0 :: es).Pairwise (fun a b => a.1 + a.2 ≤ b.1) →
      first_fit_between nb total (e0 :: es) = some (.ok start) → e0.1 + e0.2 ≤ start := by
  intro es
  induction es with
  | nil =>
    intro e0 start _ h
    simp only [first_fit_between] at h
    by_cases hc : e0.1 + e0.2 + nb ≤ total
    · rw [if_pos hc] at h
      injection h with h; injection h with h
      exact Nat.le_of_eq h
    · rw [if_neg hc] at h
      injection h with h; injection h
  | cons e2 rest ih =>
    intro e0 start hch h
    have hc1 : e0.1 + e0.2 ≤ e2.1 := (List.pairwise_cons.mp hch).1 e2 (List.mem_cons_self _ _)
    have hc2 := (List.pairwise_cons.mp hch).2
    simp only [first_fit_between] at h
    by_cases hc : e2.1 - (e0.1 + e0.2) ≥ nb
    · rw [if_pos hc] at h
      injection h with h; injection h with h
      exact Nat.le_of_eq h
    · rw [if_neg hc] at h
      have := ih e2 start hc2 h
      omega

/-- C6 (failing input): on a device of 100 bytes whose tree holds the extent
`[0, 10)`, a request of `2^64 - 5` bytes succeeds with `start = 10`, although
`start + num_bytes` exceeds `total_bytes`: the 64-bit sum wraps around to 5. -/
theorem find_free_dev_extent_wraps :
    find_free_dev_extent K0 ex_tree_one ex_dev100 18446744073709551611 = .ok (.ok 10) ∧
      ex_dev100.total_bytes < 10 + 18446744073709551611 ∧
      u64 (10 + 18446744073709551611) = 5 := by
  refine ⟨rfl, by decide, rfl⟩

/-- C7 (failing input): the extents of devid 1 are sorted, disjoint and inside
the device of 100 bytes; `btrfs_alloc_dev_extent` for `2^64 - 5 > 0` bytes
succeeds with `start = 10` and inserts the extent `[10, 10 + 2^64 - 5)`, so the
extents of the device are no longer inside `[0, total_bytes)`. -/
theorem btrfs_alloc_dev_extent_overruns :
    extents_within ex_dev100.total_bytes (dev_extents K0 ex_tree_one 1) ∧
      btrfs_alloc_dev_extent K0 ex_tree_one ex_dev100 7 18446744073709551611 =
        .ok (.ok (10, ex_tree_one ++
          [{ key := { objectid := 1, type := 75, offset := 10 }, owner := 7,
             length := 18446744073709551611 }])) ∧
      ¬ extents_within ex_dev100.total_bytes (dev_extents K0 (ex_tree_one ++
          [{ key := { objectid := 1, type := 75, offset := 10 }, owner := 7,
             length := 18446744073709551611 }]) 1) := by
  refine ⟨by decide, rfl, by decide⟩

/-- C8 (counterexample): with the adjacent extents `[0, 10)` and `[10, 20)` on
a device of 100 bytes and `num_bytes = 0`, the rule of the claim gives
`end(e_1) = 10` (the gap of 0 bytes is at least `num_bytes`), the code
returns 20. -/
theorem find_free_dev_extent_zero_request :
    extents_within ex_dev100.total_bytes (dev_extents K0 ex_tree_adjacent 1) ∧
      first_fit_between 0 ex_dev100.total_bytes (dev_extents K0 ex_tree_adjacent 1) =
        some (.ok 10) ∧
      find_free_dev_extent K0 ex_tree_adjacent ex_dev100 0 = .ok (.ok 20) := by
  refine ⟨by decide, rfl, rfl⟩

/-- C8 (amended): first fit between extents. On a device tree in key order
whose items of the device are device extents `e_1 .. e_n` (`n ≥ 1`), sorted,
disjoint and inside `[0, total_bytes)`, a request of `num_bytes ≥ 1` with
`total_bytes + num_bytes < 2^64` returns the end of `e_i` for the smallest
`i < n` with `start(e_{i+1}) - end(e_i) ≥ num_bytes`; with no such gap it
returns the end of `e_n` if `end(e_n) + num_bytes ≤ total_bytes` and fails
with `ENOSPC` if not. -/
theorem find_free_dev_extent_first_fit (K : ctree_consts) (dev_root : List dev_extent_item)
    (device : btrfs_device) (num_bytes : Nat)
    (hsorted : dev_tree_sorted dev_root)
    (htype : ∀ it ∈ dev_root, it.key.objectid = device.devid →
      it.key.type = K.BTRFS_DEV_EXTENT_KEY)
    (hn : dev_extents K dev_root device.devid ≠ [])
    (hwithin : extents_within device.total_bytes (dev_extents K dev_root device.devid))
    (hnb : 1 ≤ num_bytes)
    (hwrap : device.total_bytes + num_bytes < 18446744073709551616) :
    ∃ r, first_fit_between num_bytes device.total_bytes
          (dev_extents K dev_root device.devid) = some r ∧
      find_free_dev_extent K dev_root device num_bytes = .ok r :=
  find_free_dev_extent_eq_first_fit K dev_root device num_bytes hsorted htype hn hwithin hnb hwrap

/-- C8 (witness): extents `[0, 8 MiB)` and `[24 MiB, 40 MiB)` on a device of
64 MiB, request of 8 MiB. -/
theorem find_free_dev_extent_first_fit_witness :
    first_fit_between 8388608 67108864 (dev_extents K0 ex_tree_gap 1) = some (.ok 8388608) ∧
      ∃ r, first_fit_between 8388608 ex_dev64M.total_bytes
            (dev_extents K0 ex_tree_gap ex_dev64M.devid) = some r ∧
        find_free_dev_extent K0 ex_tree_gap ex_dev64M 8388608 = .ok r :=
  ⟨rfl, find_free_dev_extent_first_fit K0 ex_tree_gap ex_dev64M 8388608
    (by decide) (by decide) (by decide) (by decide) (by decide) (by decide)⟩
/-- C19 (counterexample): on the device of 64 MiB whose only extent is
`[24 MiB, 40 MiB)` a request of 8 MiB returns `start = 40 MiB`, not 0: the
region in front of the first extent is not used. -/
theorem find_free_dev_extent_late_extent :
    dev_extents K0 ex_tree_late 1 = [(25165824, 16777216)] ∧
      find_free_dev_extent K0 ex_tree_late ex_dev64M 8388608 = .ok (.ok 41943040) := by
  refine ⟨rfl, rfl⟩

/-- C19 (amended): the gap rule applies only behind an extent already seen
(`start_found`). On a device tree in key order whose items of the device are
device extents `e_1 .. e_n` (`n ≥ 1`), sorted, disjoint and inside
`[0, total_bytes)`, a request of `num_bytes ≥ 1` with
`total_bytes + num_bytes < 2^64` returns, and a start it returns is never below
the end of the first extent `e_1`. -/
theorem find_free_dev_extent_skips_leading_gap (K : ctree_consts)
    (dev_root : List dev_extent_item) (device : btrfs_device) (num_bytes : Nat)
    (hsorted : dev_tree_sorted dev_root)
    (htype : ∀ it ∈ dev_root, it.key.objectid = device.devid →
      it.key.type = K.BTRFS_DEV_EXTENT_KEY)
    (hn : dev_extents K dev_root device.devid ≠ [])
    (hwithin : extents_within device.total_bytes (dev_extents K dev_root device.devid))
    (hnb : 1 ≤ num_bytes)
    (hwrap : device.total_bytes + num_bytes < 18446744073709551616) :
    ∃ r, find_free_dev_extent K dev_root device num_bytes = .ok r ∧
      ∀ start, r = .ok start →
        ∀ e, (dev_extents K dev_root device.devid).head? = some e → e.1 + e.2 ≤ start := by
  obtain ⟨r, hr1, hr2⟩ :=
    find_free_dev_extent_eq_first_fit K dev_root device num_bytes hsorted htype hn hwithin hnb hwrap
  refine ⟨r, hr2, ?_⟩
  intro start hs e he
  cases hes : dev_extents K dev_root device.devid with
  | nil => exact absurd hes hn
  | cons e0 es =>
    rw [hes] at hr1 he hwithin
    simp only [List.head?_cons, Option.some.injEq] at he
    rw [← he]
    rw [hs] at hr1
    exact first_fit_between_ge num_bytes device.total_bytes es e0 start hwithin.1 hr1

/-- C19 (witness): the device of 64 MiB whose only extent is
`[24 MiB, 40 MiB)`, request of 8 MiB. -/
theorem find_free_dev_extent_skips_leading_gap_witness :
    ∃ r, find_free_dev_extent K0 ex_tree_late ex_dev64M 8388608 = .ok r ∧
      ∀ start, r = .ok start →
        ∀ e, (dev_extents K0 ex_tree_late ex_dev64M.devid).head? = some e → e.1 + e.2 ≤ start :=
  find_free_dev_extent_skips_leading_gap K0 ex_tree_late ex_dev64M 8388608
    (by decide) (by decide) (by decide) (by decide) (by decide) (by decide)

/-! ## Device selection of `btrfs_alloc_chunk` -/

theorem build_private_devs_stop (cs : Nat) (ns : Int) (d : btrfs_device)
    (rest : List btrfs_device) (index : Int) (m : Nat) (h : ¬ index < ns) :
    build_private_devs cs ns (d :: rest) index m =
      { index := index, max_avail := m, dev_list := d :: rest, private_devs := [] } := by
  simp only [build_private_devs, h, if_false]

theorem build_private_devs_take (cs : Nat) (ns : Int) (d : btrfs_device)
    (rest : List btrfs_device) (index : Int) (m : Nat) (h : index < ns) (h2 : cs ≤ avail d) :
    build_private_devs cs ns (d :: rest) index m =
      { build_private_devs cs ns rest (index + 1) (if avail d > m then avail d else m) with
        private_devs := d ::
          (build_private_devs cs ns rest (index + 1)
            (if avail d > m then avail d else m)).private_devs } := by
  unfold avail at h2
  simp only [build_private_devs, h, if_true, ge_iff_le, h2, avail]

theorem build_private_devs_skip (cs : Nat) (ns : Int) (d : btrfs_device)
    (rest : List btrfs_device) (index : Int) (m : Nat) (h : index < ns) (h2 : ¬ cs ≤ avail d) :
    build_private_devs cs ns (d :: rest) index m =
      { build_private_devs cs ns rest index (if avail d > m then avail d else m) with
        dev_list := d ::
          (build_private_devs cs ns rest index
            (if avail d > m then avail d else m)).dev_list } := by
  unfold avail at h2
  simp only [build_private_devs, h, if_true, ge_iff_le, h2, if_false, avail]

/-- The selection loop only moves devices: the private list followed by the
device list holds the devices of the list scanned. -/
theorem build_private_devs_perm (cs : Nat) (ns : Int) :
    ∀ (l : List btrfs_device) (index : Int) (m : Nat),
      ((build_private_devs cs ns l index m).private_devs ++
        (build_private_devs cs ns l index m).dev_list).Perm l := by
  intro l
  induction l with
  | nil => intro index m; simp [build_private_devs]
  | cons d rest ih =>
    intro index m
    by_cases h1 : index < ns
    · by_cases h2 : cs ≤ avail d
      · rw [build_private_devs_take cs ns d rest index m h1 h2]
        exact List.Perm.cons _ (ih _ _)
      · rw [build_private_devs_skip cs ns d rest index m h1 h2]
        exact List.perm_middle.trans (List.Perm.cons _ (ih _ _))
    · rw [build_private_devs_stop cs ns d rest index m h1]
      exact List.Perm.refl _

/-- Every device on the private list had `avail ≥ calc_size` when it was
selected. -/
theorem build_private_devs_avail (cs : Nat) (ns : Int) :
    ∀ (l : List btrfs_device) (index : Int) (m : Nat),
      ∀ d ∈ (build_private_devs cs ns l index m).private_devs, cs ≤ avail d := by
  intro l
  induction l with
  | nil => intro index m d hd; simp [build_private_devs] at hd
  | cons a rest ih =>
    intro index m d hd
    by_cases h1 : index < ns
    · by_cases h2 : cs ≤ avail a
      · rw [build_private_devs_take cs ns a rest index m h1 h2] at hd
        rcases List.mem_cons.mp hd with h | h
        · rw [h]; exact h2
        · exact ih _ _ d h
      · rw [build_private_devs_skip cs ns a rest index m h1 h2] at hd
        exact ih _ _ d hd
    · rw [build_private_devs_stop cs ns a rest index m h1] at hd
      simp at hd

/-- The index the loop ends with counts the devices selected. -/
theorem build_private_devs_index (cs : Nat) (ns : Int) :
    ∀ (l : List btrfs_device) (index : Int) (m : Nat),
      (build_private_devs cs ns l index m).index =
        index + ((build_private_devs cs ns l index m).private_devs.length : Int) := by
  intro l
  induction l with
  | nil => intro index m; simp [build_private_devs]
  | cons a rest ih =>
    intro index m
    by_cases h1 : index < ns
    · by_cases h2 : cs ≤ avail a
      · rw [build_private_devs_take cs ns a rest index m h1 h2]
        have := ih (index + 1) (if avail a > m then avail a else m)
        simp only [List.length_cons, Nat.cast_add, Nat.cast_one]
        omega
      · rw [build_private_devs_skip cs ns a rest index m h1 h2]
        exact ih _ _
    · rw [build_private_devs_stop cs ns a rest index m h1]
      simp

/-- The loop ends short of `num_stripes` exactly when fewer than the missing
number of devices have `avail ≥ calc_size`. -/
theorem build_private_devs_short_iff (cs : Nat) (ns : Int) :
    ∀ (l : List btrfs_device) (index : Int) (m : Nat),
      (build_private_devs cs ns l index m).index < ns ↔
        index + ((l.countP (fun d => decide (cs ≤ avail d)) : Nat) : Int) < ns := by
  intro l
  induction l with
  | nil => intro index m; simp [build_private_devs]
  | cons a rest ih =>
    intro index m
    by_cases h1 : index < ns
    · by_cases h2 : cs ≤ avail a
      · rw [build_private_devs_take cs ns a rest index m h1 h2]
        rw [List.countP_cons_of_pos _ _ (by simpa using h2)]
        have := ih (index + 1) (if avail a > m then avail a else m)
        simp only [Nat.cast_add, Nat.cast_one]
        rw [this]
        constructor <;> intro h <;> omega
      · rw [build_private_devs_skip cs ns a rest index m h1 h2]
        rw [List.countP_cons_of_neg _ _ (by simpa using h2)]
        exact ih _ _
    · rw [build_private_devs_stop cs ns a rest index m h1]
      simp only
      constructor
      · intro h; exact absurd h h1
      · intro h; omega

/-- A loop that is not short ends with `index = num_stripes` (when it did not
start beyond). -/
theorem build_private_devs_full (cs : Nat) (ns : Int) :
    ∀ (l : List btrfs_device) (index : Int) (m : Nat), index ≤ ns →
      ¬ (build_private_devs cs ns l index m).index < ns →
      (build_private_devs cs ns l index m).index = ns := by
  intro l
  induction l with
  | nil =>
    intro index m hle h
    simp only [build_private_devs] at h ⊢
    omega
  | cons a rest ih =>
    intro index m hle h
    by_cases h1 : index < ns
    · by_cases h2 : cs ≤ avail a
      · rw [build_private_devs_take cs ns a rest index m h1 h2] at h ⊢
        exact ih (index + 1) _ (by omega) h
      · rw [build_private_devs_skip cs ns a rest index m h1 h2] at h ⊢
        exact ih index _ hle h
    · rw [build_private_devs_stop cs ns a rest index m h1]
      simp only
      omega

/-- A loop that ends short has scanned the whole list: `max_avail` is the
largest `avail` of the list (or its value before the loop). -/
theorem build_private_devs_max (cs : Nat) (ns : Int) :
    ∀ (l : List btrfs_device) (index : Int) (m : Nat),
      (build_private_devs cs ns l index m).index < ns →
      (build_private_devs cs ns l index m).max_avail = max m (max_avail_of l) := by
  intro l
  induction l with
  | nil => intro index m _; simp [build_private_devs, max_avail_of]
  | cons a rest ih =>
    intro index m h
    have e : (if avail a > m then avail a else m) = max m (avail a) := by
      by_cases hc : avail a > m
      · rw [if_pos hc]; omega
      · rw [if_neg hc]; omega
    have e2 : max_avail_of (a :: rest) = max (avail a) (max_avail_of rest) := rfl
    by_cases h1 : index < ns
    · by_cases h2 : cs ≤ avail a
      · rw [build_private_devs_take cs ns a rest index m h1 h2] at h ⊢
        have := ih (index + 1) _ h
        simp only
        rw [this, e, e2]
        omega
      · rw [build_private_devs_skip cs ns a rest index m h1 h2] at h ⊢
        have := ih index _ h
        simp only
        rw [this, e, e2]
        omega
    · rw [build_private_devs_stop cs ns a rest index m h1] at h
      exact absurd h h1

theorem avail_le_max_avail_of : ∀ (l : List btrfs_device), ∀ d ∈ l, avail d ≤ max_avail_of l := by
  intro l
  induction l with
  | nil => intro d hd; simp at hd
  | cons a rest ih =>
    intro d hd
    have e2 : max_avail_of (a :: rest) = max (avail a) (max_avail_of rest) := rfl
    rw [e2]
    rcases List.mem_cons.mp hd with h | h
    · rw [h]; exact Nat.le_max_left _ _
    · exact Nat.le_trans (ih d h) (Nat.le_max_right _ _)

theorem max_avail_of_attained : ∀ (l : List btrfs_device), 0 < max_avail_of l →
    ∃ d ∈ l, avail d = max_avail_of l := by
  intro l
  induction l with
  | nil => intro h; simp [max_avail_of] at h
  | cons a rest ih =>
    intro h
    have e2 : max_avail_of (a :: rest) = max (avail a) (max_avail_of rest) := rfl
    rw [e2] at h ⊢
    by_cases hc : max_avail_of rest ≤ avail a
    · exact ⟨a, List.mem_cons_self _ _, by omega⟩
    · have hpos : 0 < max_avail_of rest := by omega
      obtain ⟨d, hd, hde⟩ := ih hpos
      exact ⟨d, List.mem_cons_of_mem _ hd, by omega⟩

theorem max_avail_of_perm {l1 l2 : List btrfs_device} (h : l1.Perm l2) :
    max_avail_of l1 = max_avail_of l2 := by
  apply Nat.le_antisymm
  · by_cases h0 : 0 < max_avail_of l1
    · obtain ⟨d, hd, hde⟩ := max_avail_of_attained l1 h0
      rw [← hde]
      exact avail_le_max_avail_of l2 d (h.subset hd)
    · omega
  · by_cases h0 : 0 < max_avail_of l2
    · obtain ⟨d, hd, hde⟩ := max_avail_of_attained l2 h0
      rw [← hde]
      exact avail_le_max_avail_of l1 d (h.symm.subset hd)
    · omega
theorem build_private_devs_length (cs : Nat) (ns : Int) (l : List btrfs_device) (index : Int)
    (m : Nat) (h : ¬ (build_private_devs cs ns l index m).index < ns) :
    (build_private_devs cs ns l index m).private_devs.length = (ns - index).toNat := by
  by_cases hle : index ≤ ns
  · have h1 := build_private_devs_full cs ns l index m hle h
    have h2 := build_private_devs_index cs ns l index m
    omega
  · have h0 : ¬ index < ns := by omega
    have e : (build_private_devs cs ns l index m).private_devs = [] := by
      cases l with
      | nil => simp [build_private_devs]
      | cons a rest => rw [build_private_devs_stop cs ns a rest index m h0]
    rw [e]
    simp only [List.length_nil]
    omega

/-- The four ways through the device selection: the first pass succeeds; the
first pass is short and the retry with `calc_size = max_avail` succeeds; the
retry is short too; or there is no retry because `max_avail` is 0. -/
theorem select_devices_cases (ns : Int) (devices : List btrfs_device) :
    (¬ (build_private_devs 8388608 ns devices 0 0).index < ns ∧
      select_devices ns devices = .ok (8388608,
        (build_private_devs 8388608 ns devices 0 0).dev_list,
        (build_private_devs 8388608 ns devices 0 0).private_devs)) ∨
    ((build_private_devs 8388608 ns devices 0 0).index < ns ∧
      0 < (build_private_devs 8388608 ns devices 0 0).max_avail ∧
      ¬ (build_private_devs (build_private_devs 8388608 ns devices 0 0).max_avail ns
          ((build_private_devs 8388608 ns devices 0 0).private_devs ++
            (build_private_devs 8388608 ns devices 0 0).dev_list) 0
          (build_private_devs 8388608 ns devices 0 0).max_avail).index < ns ∧
      select_devices ns devices = .ok ((build_private_devs 8388608 ns devices 0 0).max_avail,
        (build_private_devs (build_private_devs 8388608 ns devices 0 0).max_avail ns
          ((build_private_devs 8388608 ns devices 0 0).private_devs ++
            (build_private_devs 8388608 ns devices 0 0).dev_list) 0
          (build_private_devs 8388608 ns devices 0 0).max_avail).dev_list,
        (build_private_devs (build_private_devs 8388608 ns devices 0 0).max_avail ns
          ((build_private_devs 8388608 ns devices 0 0).private_devs ++
            (build_private_devs 8388608 ns devices 0 0).dev_list) 0
          (build_private_devs 8388608 ns devices 0 0).max_avail).private_devs)) ∨
    ((build_private_devs 8388608 ns devices 0 0).index < ns ∧
      0 < (build_private_devs 8388608 ns devices 0 0).max_avail ∧
      (build_private_devs (build_private_devs 8388608 ns devices 0 0).max_avail ns
          ((build_private_devs 8388608 ns devices 0 0).private_devs ++
            (build_private_devs 8388608 ns devices 0 0).dev_list) 0
          (build_private_devs 8388608 ns devices 0 0).max_avail).index < ns ∧
      select_devices ns devices = .error (
        (build_private_devs (build_private_devs 8388608 ns devices 0 0).max_avail ns
          ((build_private_devs 8388608 ns devices 0 0).private_devs ++
            (build_private_devs 8388608 ns devices 0 0).dev_list) 0
          (build_private_devs 8388608 ns devices 0 0).max_avail).private_devs ++
        (build_private_devs (build_private_devs 8388608 ns devices 0 0).max_avail ns
          ((build_private_devs 8388608 ns devices 0 0).private_devs ++
            (build_private_devs 8388608 ns devices 0 0).dev_list) 0
          (build_private_devs 8388608 ns devices 0 0).max_avail).dev_list)) ∨
    ((build_private_devs 8388608 ns devices 0 0).index < ns ∧
      ¬ 0 < (build_private_devs 8388608 ns devices 0 0).max_avail ∧
      select_devices ns devices = .error (
        (build_private_devs 8388608 ns devices 0 0).private_devs ++
          (build_private_devs 8388608 ns devices 0 0).dev_list)) := by
  have e8 : 8 * 1024 * 1024 = 8388608 := rfl
  unfold select_devices list_splice
  simp only [e8]
  by_cases h1 : (build_private_devs 8388608 ns devices 0 0).index < ns
  · rw [if_pos h1]
    by_cases h2 : (build_private_devs 8388608 ns devices 0 0).max_avail > 0
    · rw [if_pos h2]
      by_cases h3 : (build_private_devs (build_private_devs 8388608 ns devices 0 0).max_avail ns
          ((build_private_devs 8388608 ns devices 0 0).private_devs ++
            (build_private_devs 8388608 ns devices 0 0).dev_list) 0
          (build_private_devs 8388608 ns devices 0 0).max_avail).index < ns
      · rw [if_pos h3]
        exact Or.inr (Or.inr (Or.inl ⟨h1, h2, h3, rfl⟩))
      · rw [if_neg h3]
        exact Or.inr (Or.inl ⟨h1, h2, h3, rfl⟩)
    · rw [if_neg h2]
      exact Or.inr (Or.inr (Or.inr ⟨h1, h2, rfl⟩))
  · rw [if_neg h1]
    exact Or.inl ⟨h1, rfl⟩

/-- A failed selection leaves the device list with the same devices. -/
theorem select_devices_error_perm (ns : Int) (devices dl : List btrfs_device)
    (h : select_devices ns devices = .error dl) : dl.Perm devices := by
  have hp1 := build_private_devs_perm 8388608 ns devices 0 0
  rcases select_devices_cases ns devices with ⟨_, hs⟩ | ⟨_, _, _, hs⟩ | ⟨_, _, _, hs⟩ | ⟨_, _, hs⟩
  · rw [hs] at h; injection h
  · rw [hs] at h; injection h
  · rw [hs] at h
    injection h with h
    rw [← h]
    exact (build_private_devs_perm _ ns _ 0 _).trans hp1
  · rw [hs] at h
    injection h with h
    rw [← h]
    exact hp1

/-- A successful selection: the private list and the device list together hold
the devices of the list, every selected device has `avail ≥ calc_size`, there
are `num_stripes` of them, and `calc_size` is 8 MiB or the largest `avail`,
which is then positive. -/
theorem select_devices_ok_inv (ns : Int) (devices dl pv : List btrfs_device) (cs : Nat)
    (h : select_devices ns devices = .ok (cs, dl, pv)) :
    (pv ++ dl).Perm devices ∧ (∀ d ∈ pv, cs ≤ avail d) ∧ pv.length = ns.toNat ∧ 0 < cs ∧
      (cs = 8388608 ∨ cs = max_avail_of devices) := by
  have hp1 := build_private_devs_perm 8388608 ns devices 0 0
  rcases select_devices_cases ns devices with ⟨h1, hs⟩ | ⟨h1, h2, h3, hs⟩ | ⟨_, _, _, hs⟩ | ⟨_, _, hs⟩
  · rw [hs] at h
    injection h with h
    injection h with hcs h
    injection h with hdl hpv
    rw [← hcs, ← hdl, ← hpv]
    refine ⟨hp1, build_private_devs_avail _ _ _ _ _, ?_, by decide, Or.inl rfl⟩
    rw [build_private_devs_length _ _ _ _ _ h1]
    simp
  · rw [hs] at h
    injection h with h
    injection h with hcs h
    injection h with hdl hpv
    have hm := build_private_devs_max 8388608 ns devices 0 0 h1
    rw [← hcs, ← hdl, ← hpv]
    refine ⟨(build_private_devs_perm _ ns _ 0 _).trans hp1, build_private_devs_avail _ _ _ _ _,
      ?_, h2, Or.inr ?_⟩
    · rw [build_private_devs_length _ _ _ _ _ h3]
      simp
    · rw [hm]; exact Nat.max_eq_right (Nat.zero_le _)
  · rw [hs] at h; injection h
  · rw [hs] at h; injection h
/-- C20: the per-stripe size of the device selection of `btrfs_alloc_chunk`.
With `avail = total_bytes - bytes_used` (in `u64`): if at least `num_stripes`
devices have `avail ≥ 8 MiB` the selection succeeds with `calc_size = 8 MiB`;
otherwise one retry is made with `calc_size` the largest `avail` of all
devices, which succeeds iff that maximum is positive and at least
`num_stripes` devices have `avail` at least the maximum, and fails with the
devices spliced back if not; there is no third pass. A selection for one
stripe succeeds whenever some device has `avail > 0`. -/
theorem select_devices_calc_size (num_stripes : Int) (devices : List btrfs_device) :
    (num_stripes ≤ ((devices.countP (fun d => decide (8388608 ≤ avail d)) : Nat) : Int) →
      ∃ dl pv, select_devices num_stripes devices = .ok (8388608, dl, pv)) ∧
    (((devices.countP (fun d => decide (8388608 ≤ avail d)) : Nat) : Int) < num_stripes →
      0 < max_avail_of devices →
      num_stripes ≤
        ((devices.countP (fun d => decide (max_avail_of devices ≤ avail d)) : Nat) : Int) →
      ∃ dl pv, select_devices num_stripes devices = .ok (max_avail_of devices, dl, pv)) ∧
    (((devices.countP (fun d => decide (8388608 ≤ avail d)) : Nat) : Int) < num_stripes →
      ¬ (0 < max_avail_of devices ∧ num_stripes ≤
        ((devices.countP (fun d => decide (max_avail_of devices ≤ avail d)) : Nat) : Int)) →
      ∃ dl, select_devices num_stripes devices = .error dl) ∧
    (num_stripes = 1 → (∃ d ∈ devices, 0 < avail d) →
      ∃ cs dl pv, select_devices num_stripes devices = .ok (cs, dl, pv)) := by
  have hs1 := build_private_devs_short_iff 8388608 num_stripes devices 0 0
  have hp1 := build_private_devs_perm 8388608 num_stripes devices 0 0
  have hmax : (build_private_devs 8388608 num_stripes devices 0 0).index < num_stripes →
      (build_private_devs 8388608 num_stripes devices 0 0).max_avail = max_avail_of devices := by
    intro h
    rw [build_private_devs_max 8388608 num_stripes devices 0 0 h]
    exact Nat.max_eq_right (Nat.zero_le _)
  have hs2 : ∀ m, (build_private_devs m num_stripes
        ((build_private_devs 8388608 num_stripes devices 0 0).private_devs ++
          (build_private_devs 8388608 num_stripes devices 0 0).dev_list) 0 m).index < num_stripes ↔
      0 + ((devices.countP (fun d => decide (m ≤ avail d)) : Nat) : Int) < num_stripes := by
    intro m
    rw [build_private_devs_short_iff, hp1.countP_eq]
  have part1 : num_stripes ≤ ((devices.countP (fun d => decide (8388608 ≤ avail d)) : Nat) : Int) →
      ∃ dl pv, select_devices num_stripes devices = .ok (8388608, dl, pv) := by
    intro h
    rcases select_devices_cases num_stripes devices with
      ⟨_, hs⟩ | ⟨h1, _, _, _⟩ | ⟨h1, _, _, _⟩ | ⟨h1, _, _⟩
    · exact ⟨_, _, hs⟩
    · have := hs1.mp h1; omega
    · have := hs1.mp h1; omega
    · have := hs1.mp h1; omega
  have part2 : ((devices.countP (fun d => decide (8388608 ≤ avail d)) : Nat) : Int) < num_stripes →
      0 < max_avail_of devices →
      num_stripes ≤
        ((devices.countP (fun d => decide (max_avail_of devices ≤ avail d)) : Nat) : Int) →
      ∃ dl pv, select_devices num_stripes devices = .ok (max_avail_of devices, dl, pv) := by
    intro h hm hc
    rcases select_devices_cases num_stripes devices with
      ⟨h1, _⟩ | ⟨h1, _, _, hs⟩ | ⟨h1, _, h3, _⟩ | ⟨h1, h2, _⟩
    · have := hs1.mpr (by omega); exact absurd this h1
    · rw [hmax h1] at hs; exact ⟨_, _, hs⟩
    · rw [hmax h1] at h3
      have := (hs2 _).mp h3
      omega
    · rw [hmax h1] at h2; exact absurd hm h2
  refine ⟨part1, part2, ?_, ?_⟩
  · intro h hn
    rcases select_devices_cases num_stripes devices with
      ⟨h1, _⟩ | ⟨h1, h2, h3, _⟩ | ⟨_, _, _, hs⟩ | ⟨_, _, hs⟩
    · have := hs1.mpr (by omega); exact absurd this h1
    · rw [hmax h1] at h2 h3
      exfalso
      apply hn
      refine ⟨h2, ?_⟩
      have := (hs2 (max_avail_of devices)).not.mp h3
      omega
    · exact ⟨_, hs⟩
    · exact ⟨_, hs⟩
  · intro hns hex
    obtain ⟨d, hd, hpos⟩ := hex
    by_cases h8 : num_stripes ≤ ((devices.countP (fun d => decide (8388608 ≤ avail d)) : Nat) : Int)
    · obtain ⟨dl, pv, h⟩ := part1 h8
      exact ⟨_, dl, pv, h⟩
    · have hm : 0 < max_avail_of devices :=
        Nat.lt_of_lt_of_le hpos (avail_le_max_avail_of devices d hd)
      obtain ⟨d2, hd2, he2⟩ := max_avail_of_attained devices hm
      have hc : 0 < devices.countP (fun d => decide (max_avail_of devices ≤ avail d)) := by
        rw [List.countP_pos_iff]
        exact ⟨d2, hd2, by simpa using Nat.le_of_eq he2.symm⟩
      obtain ⟨dl, pv, h⟩ := part2 (by omega) hm (by omega)
      exact ⟨_, dl, pv, h⟩

/-- C20 (witness): scenario 3, three devices with 5, 7 and 9 MiB free and three
stripes: one device has 8 MiB, the retry with 9 MiB finds one device, the
selection fails. -/
theorem select_devices_calc_size_witness :
    max_avail_of ex_info_shrink.devices = 9437184 ∧
      ∃ dl, select_devices 3 ex_info_shrink.devices = .error dl :=
  ⟨rfl, (select_devices_calc_size 3 ex_info_shrink.devices).2.2.1 (by decide) (by decide)⟩
/-! ## Inversion of the allocation functions -/

theorem btrfs_insert_item_perm {ι : Type} (key_of : ι → btrfs_key) :
    ∀ (t t1 : List ι) (x : ι), btrfs_insert_item key_of t x = .ok t1 → t1.Perm (x :: t) := by
  intro t
  induction t with
  | nil =>
    intro t1 x h
    simp only [btrfs_insert_item] at h
    injection h with h
    rw [← h]
  | cons y rest ih =>
    intro t1 x h
    unfold btrfs_insert_item at h
    by_cases h1 : btrfs_key_lt (key_of x) (key_of y)
    · rw [if_pos h1] at h
      injection h with h
      rw [← h]
    · rw [if_neg h1] at h
      by_cases h2 : key_of y = key_of x
      · rw [if_pos h2] at h; injection h
      · rw [if_neg h2] at h
        cases hr : btrfs_insert_item key_of rest x with
        | error e => rw [hr] at h; injection h
        | ok t2 =>
          rw [hr] at h
          injection h with h
          rw [← h]
          exact (List.Perm.cons y (ih t2 x hr)).trans (List.Perm.swap x y rest)

theorem check_pending_lt {nb ss se start r : Nat} (hs : start < 18446744073709551616)
    (h : check_pending nb ss se start = .ok (.ok r)) : r < 18446744073709551616 := by
  unfold check_pending at h
  by_cases h1 : start < ss
  · rw [if_pos h1] at h; injection h
  · rw [if_neg h1] at h
    by_cases h2 : u64 (start + nb) > se
    · rw [if_pos h2] at h; injection h with h; injection h
    · rw [if_neg h2] at h
      injection h with h; injection h with h
      rw [← h]; exact hs

theorem no_more_items_lt {nb se lb r : Nat} {sf : Bool} (hs : lb < 18446744073709551616)
    (h : no_more_items nb 0 se lb sf = .ok (.ok r)) : r < 18446744073709551616 := by
  unfold no_more_items at h
  cases sf with
  | false =>
    simp only [Bool.not_false, if_true] at h
    by_cases h1 : 0 ≥ se
    · rw [if_pos h1] at h; injection h with h; injection h
    · rw [if_neg h1] at h
      exact check_pending_lt (by decide) h
  | true =>
    simp only [Bool.not_true, Bool.false_eq_true, if_false] at h
    have e1 : (if lb > 0 then lb else 0) = lb := by
      by_cases hc : lb > 0
      · rw [if_pos hc]
      · rw [if_neg hc]; omega
    rw [e1] at h
    by_cases h1 : se ≤ lb
    · rw [if_pos h1] at h; injection h with h; injection h
    · rw [if_neg h1] at h
      exact check_pending_lt hs h

/-- A start returned by the scan is a `u64` value. -/
theorem find_free_dev_extent_loop_lt (K : ctree_consts) (devid nb se : Nat) :
    ∀ (l : List dev_extent_item) (lb : Nat) (sf : Bool) (r : Nat),
      lb < 18446744073709551616 →
      find_free_dev_extent_loop K devid nb 0 se l lb sf = .ok (.ok r) →
      r < 18446744073709551616 := by
  intro l
  induction l with
  | nil =>
    intro lb sf r hlb h
    simp only [find_free_dev_extent_loop] at h
    exact no_more_items_lt hlb h
  | cons it rest ih =>
    intro lb sf r hlb h
    unfold find_free_dev_extent_loop at h
    by_cases h1 : it.key.objectid < devid
    · rw [if_pos h1] at h
      exact ih lb sf r hlb h
    · rw [if_neg h1] at h
      by_cases h2 : it.key.objectid > devid
      · rw [if_pos h2] at h
        exact no_more_items_lt hlb h
      · rw [if_neg h2] at h
        have e0 : decide (lb < 0) = false := by simp
        simp only [e0, Bool.and_false, Bool.false_eq_true, if_false] at h
        split at h
        · exact check_pending_lt hlb h
        · split at h
          · exact ih lb sf r hlb h
          · exact ih _ true r (u64_lt _) h

theorem find_free_dev_extent_lt (K : ctree_consts) (dev_root : List dev_extent_item)
    (device : btrfs_device) (nb r : Nat)
    (h : find_free_dev_extent K dev_root device nb = .ok (.ok r)) :
    r < 18446744073709551616 := by
  unfold find_free_dev_extent at h
  exact find_free_dev_extent_loop_lt K _ _ _ _ 0 false r (by decide) h

/-- A successful `btrfs_alloc_dev_extent`: the start is the one found by
`find_free_dev_extent`, and the tree holds the new item and the old ones. -/
theorem btrfs_alloc_dev_extent_ok_inv (K : ctree_consts) (dev_root dev_root1 : List dev_extent_item)
    (device : btrfs_device) (owner nb start : Nat)
    (h : btrfs_alloc_dev_extent K dev_root device owner nb = .ok (.ok (start, dev_root1))) :
    find_free_dev_extent K dev_root device nb = .ok (.ok start) ∧
      dev_root1.Perm (new_dev_extent K device.devid owner nb start :: dev_root) ∧
      start < 18446744073709551616 := by
  unfold btrfs_alloc_dev_extent at h
  cases hf : find_free_dev_extent K dev_root device nb with
  | error f => rw [hf] at h; injection h
  | ok r =>
    cases r with
    | error e => rw [hf] at h; simp only at h; injection h with h; injection h
    | ok s =>
      rw [hf] at h
      simp only at h
      cases hi : btrfs_insert_item (fun it => it.key) dev_root
          (new_dev_extent K device.devid owner nb s) with
      | error e => rw [hi] at h; injection h
      | ok t =>
        rw [hi] at h
        simp only at h
        injection h with h
        injection h with h
        injection h with h1 h2
        subst h1
        subst h2
        exact ⟨rfl, btrfs_insert_item_perm _ _ _ _ hi, find_free_dev_extent_lt K _ _ _ _ hf⟩

theorem btrfs_search_slot_found (keys : List btrfs_key) (key : btrfs_key) :
    (btrfs_search_slot keys key).1 ≤ 0 → keys[(btrfs_search_slot keys key).2]? = some key := by
  induction keys with
  | nil => intro h; simp [btrfs_search_slot] at h
  | cons k rest ih =>
    intro h
    unfold btrfs_search_slot at h ⊢
    by_cases h1 : btrfs_key_lt k key
    · rw [if_pos h1] at h ⊢
      simp only [List.getElem?_cons_succ]
      exact ih h
    · rw [if_neg h1] at h ⊢
      by_cases h2 : k = key
      · rw [if_pos h2]
        simp [h2]
      · rw [if_neg h2] at h
        simp at h

theorem map_key_set_same {ι : Type} (key_of : ι → btrfs_key) :
    ∀ (t : List ι) (i : Nat) (x : ι), (t.map key_of)[i]? = some (key_of x) →
      (t.set i x).map key_of = t.map key_of := by
  intro t
  induction t with
  | nil => intro i x _; rfl
  | cons y rest ih =>
    intro i x h
    cases i with
    | zero =>
      simp only [List.map_cons, List.getElem?_cons_zero, Option.some.injEq] at h
      simp only [List.set_cons_zero, List.map_cons, h]
    | succ j =>
      simp only [List.map_cons, List.getElem?_cons_succ] at h
      simp only [List.set_cons_succ, List.map_cons, ih j x h]

/-- `btrfs_update_device` rewrites the payload of one item: the keys of the
chunk tree stay as they are. -/
theorem btrfs_update_device_keys (K : ctree_consts) (chunk_root chunk_root1 : List btrfs_item)
    (device : btrfs_device) (h : btrfs_update_device K chunk_root device = .ok chunk_root1) :
    chunk_root1.map (fun it => it.key) = chunk_root.map (fun it => it.key) := by
  unfold btrfs_update_device at h
  simp only at h
  split at h
  · injection h
  · rename_i hr
    injection h with h
    rw [← h]
    apply map_key_set_same
    exact btrfs_search_slot_found _ _ (by omega)
/-- A successful stripe loop of `n` turns: it took the first `n` devices `sel`
of the private list in order; the stripes carry these devices with
`bytes_used` raised by `calc_size`; the devices went to the tail of the device
list; the device tree gained one extent of `calc_size` bytes per stripe; the
keys of the chunk tree, the mapping tree and `num_devices` are unchanged. -/
theorem alloc_stripes_ok_inv (K : ctree_consts) (owner cs : Nat) :
    ∀ (n : Nat) (pv : List btrfs_device) (info info1 : btrfs_fs_info)
      (left : List btrfs_device) (stripes : List (btrfs_device × Nat)),
      alloc_stripes K owner cs n pv info = .ok (info1, left, stripes) →
      ∃ sel, pv = sel ++ left ∧ sel.length = n ∧
        stripes.map (fun s => s.1) = sel.map (bytes_used_add cs) ∧
        info1.devices = info.devices ++ sel.map (bytes_used_add cs) ∧
        info1.dev_root.Perm
          (stripes.map (fun s => new_dev_extent K s.1.devid owner cs s.2) ++ info.dev_root) ∧
        info1.chunk_root.map (fun it => it.key) = info.chunk_root.map (fun it => it.key) ∧
        info1.mapping_tree = info.mapping_tree ∧ info1.num_devices = info.num_devices ∧
        ∀ s ∈ stripes, s.2 < 18446744073709551616 := by
  intro n
  induction n with
  | zero =>
    intro pv info info1 left stripes h
    simp only [alloc_stripes] at h
    injection h with h
    injection h with h1 h
    injection h with h2 h3
    subst h1; subst h2; subst h3
    exact ⟨[], rfl, rfl, rfl, by simp, by simp, rfl, rfl, rfl, by simp⟩
  | succ n ih =>
    intro pv info info1 left stripes h
    cases pv with
    | nil => simp only [alloc_stripes] at h; injection h
    | cons d pv =>
      simp only [alloc_stripes] at h
      cases ha : btrfs_alloc_dev_extent K info.dev_root d owner cs with
      | error f => rw [ha] at h; injection h
      | ok r =>
        cases r with
        | error e => rw [ha] at h; simp only at h; injection h
        | ok r2 =>
          obtain ⟨off, t1⟩ := r2
          rw [ha] at h
          simp only at h
          cases hu : btrfs_update_device K info.chunk_root (bytes_used_add cs d) with
          | error e => rw [hu] at h; injection h
          | ok c1 =>
            rw [hu] at h
            simp only at h
            cases hr : alloc_stripes K owner cs n pv
                { info with devices := list_move_tail (bytes_used_add cs d) info.devices,
                            dev_root := t1, chunk_root := c1 } with
            | error f => rw [hr] at h; injection h
            | ok r3 =>
              obtain ⟨i1, l1, s1⟩ := r3
              rw [hr] at h
              simp only at h
              injection h with h
              injection h with h1 h
              injection h with h2 h3
              subst h1; subst h2; subst h3
              obtain ⟨sel, e1, e2, e3, e4, e5, e6, e7, e8, e9⟩ := ih pv _ _ _ _ hr
              obtain ⟨_, hperm, hlt⟩ := btrfs_alloc_dev_extent_ok_inv K _ _ _ _ _ _ ha
              have hk := btrfs_update_device_keys K _ _ _ hu
              refine ⟨d :: sel, by rw [e1]; rfl, by simp [e2], by simp [e3], ?_, ?_, ?_, e7, e8, ?_⟩
              · rw [e4]
                simp [list_move_tail]
              · refine e5.trans ?_
                simp only [List.map_cons, List.cons_append]
                have hd : (bytes_used_add cs d).devid = d.devid := rfl
                rw [hd]
                exact (List.Perm.append_left _ hperm).trans List.perm_middle
              · rw [e6]; exact hk
              · intro s hs
                rcases List.mem_cons.mp hs with h0 | h0
                · rw [h0]; exact hlt
                · exact e9 s h0

/-- A return of the part behind the device selection is a success: it gives
the start found by `find_next_chunk` and `calc_size * num_stripes`, the stripe
loop has used up the private list, and the chunk item and the mapping entry
have been inserted. -/
theorem alloc_chunk_assemble_ok_inv (K : ctree_consts) (info info2 : btrfs_fs_info)
    (extent_root : btrfs_root) (type : Nat) (ns sl : Int) (cs : Nat) (pv : List btrfs_device)
    (ret : Except errno (Nat × Nat))
    (h : alloc_chunk_assemble K info extent_root type ns sl cs pv = .ok (ret, info2)) :
    ∃ L info1 stripes,
      ret = .ok (L, u64 (cs * u64_of_int ns)) ∧
      find_next_chunk K info.chunk_root = .ok L ∧
      alloc_stripes K L cs ns.toNat pv info = .ok (info1, [], stripes) ∧
      btrfs_insert_item (fun it => it.key) info1.chunk_root
        { key := { objectid := L, offset := u64 (cs * u64_of_int ns),
                   type := K.BTRFS_CHUNK_ITEM_KEY },
          data := item_data.chunk (new_chunk_item extent_root type ns sl stripes) } =
        .ok info2.chunk_root ∧
      insert_existing_cache_extent info1.mapping_tree
        (new_map_lookup { objectid := L, offset := u64 (cs * u64_of_int ns),
                          type := K.BTRFS_CHUNK_ITEM_KEY } extent_root type ns sl stripes) =
        .ok info2.mapping_tree ∧
      info2.devices = info1.devices ∧ info2.dev_root = info1.dev_root ∧
      info2.num_devices = info1.num_devices := by
  unfold alloc_chunk_assemble at h
  cases hf : find_next_chunk K info.chunk_root with
  | error f => rw [hf] at h; injection h
  | ok L =>
    rw [hf] at h
    simp only at h
    cases hs : alloc_stripes K L cs ns.toNat pv info with
    | error f => rw [hs] at h; injection h
    | ok r =>
      obtain ⟨info1, left, stripes⟩ := r
      rw [hs] at h
      simp only at h
      cases left with
      | cons a l => simp at h
      | nil =>
        simp only [List.isEmpty_nil, Bool.not_true, Bool.false_eq_true, if_false] at h
        cases hi : btrfs_insert_item (fun it => it.key) info1.chunk_root
            { key := { objectid := L, offset := u64 (cs * u64_of_int ns),
                       type := K.BTRFS_CHUNK_ITEM_KEY },
              data := item_data.chunk (new_chunk_item extent_root type ns sl stripes) } with
        | error e => rw [hi] at h; injection h
        | ok c1 =>
          rw [hi] at h
          simp only at h
          cases hm : insert_existing_cache_extent info1.mapping_tree
              (new_map_lookup { objectid := L, offset := u64 (cs * u64_of_int ns),
                                type := K.BTRFS_CHUNK_ITEM_KEY } extent_root type ns sl stripes) with
          | error e => rw [hm] at h; injection h
          | ok m1 =>
            rw [hm] at h
            simp only at h
            injection h with h
            injection h with h1 h2
            subst h1; subst h2
            exact ⟨L, info1, stripes, rfl, rfl, hs, hi, hm, rfl, rfl, rfl⟩

/-- The returns of `btrfs_alloc_chunk`: an empty device list or a failed
device selection gives `ENOSPC` and leaves all but the order of the device
list; otherwise the return is the one of the part behind the selection. -/
theorem btrfs_alloc_chunk_cases (K : ctree_consts) (info info2 : btrfs_fs_info)
    (extent_root : btrfs_root) (type : Nat) (ret : Except errno (Nat × Nat))
    (h : btrfs_alloc_chunk K info extent_root type = .ok (ret, info2)) :
    (ret = .error errno.ENOSPC ∧ info.devices = [] ∧ info2 = info) ∨
    (ret = .error errno.ENOSPC ∧ info.devices ≠ [] ∧
      ∃ dl, select_devices (chunk_num_stripes K info type) info.devices = .error dl ∧
        info2 = { info with devices := dl }) ∨
    (info.devices ≠ [] ∧ ∃ cs dl pv,
      select_devices (chunk_num_stripes K info type) info.devices = .ok (cs, dl, pv) ∧
      alloc_chunk_assemble K { info with devices := dl } extent_root type
        (chunk_num_stripes K info type) (chunk_stripe_len K type) cs pv = .ok (ret, info2)) := by
  unfold btrfs_alloc_chunk at h
  cases hd : info.devices with
  | nil =>
    rw [hd] at h
    simp only [List.isEmpty_nil, if_true] at h
    injection h with h
    injection h with h1 h2
    exact Or.inl ⟨h1.symm, rfl, h2.symm⟩
  | cons a l =>
    have hne : (a :: l) ≠ [] := List.cons_ne_nil _ _
    rw [hd] at h
    simp only [List.isEmpty_cons, Bool.false_eq_true, if_false] at h
    cases hs : select_devices (chunk_num_stripes K info type) (a :: l) with
    | error dl =>
      rw [hs] at h
      simp only at h
      injection h with h
      injection h with h1 h2
      exact Or.inr (Or.inl ⟨h1.symm, hne, dl, rfl, h2.symm⟩)
    | ok r =>
      obtain ⟨cs, dl, pv⟩ := r
      rw [hs] at h
      simp only at h
      exact Or.inr (Or.inr ⟨hne, cs, dl, pv, rfl, h⟩)

/-- C9: `ENOSPC` from the device selection allocates nothing. A failed
selection makes `btrfs_alloc_chunk` return `ENOSPC` with the device list the
selection leaves; and every error return of `btrfs_alloc_chunk` is `ENOSPC`
from an empty device list or a failed selection, after which the device list
holds exactly the devices it held before, each with its fields (so
`bytes_used`) unchanged, and the device tree, the chunk tree, the mapping tree
and `num_devices` are what they were. -/
theorem btrfs_alloc_chunk_enospc (K : ctree_consts) (info : btrfs_fs_info)
    (extent_root : btrfs_root) (type : Nat) :
    (∀ dl, info.devices ≠ [] →
      select_devices (chunk_num_stripes K info type) info.devices = .error dl →
      btrfs_alloc_chunk K info extent_root type =
        .ok (.error errno.ENOSPC, { info with devices := dl })) ∧
    (∀ e info2, btrfs_alloc_chunk K info extent_root type = .ok (.error e, info2) →
      e = errno.ENOSPC ∧
      (info.devices = [] ∨
        ∃ dl, select_devices (chunk_num_stripes K info type) info.devices = .error dl) ∧
      info2.devices.Perm info.devices ∧ info2.dev_root = info.dev_root ∧
      info2.chunk_root = info.chunk_root ∧ info2.mapping_tree = info.mapping_tree ∧
      info2.num_devices = info.num_devices) := by
  constructor
  · intro dl hne hs
    unfold btrfs_alloc_chunk
    cases hd : info.devices with
    | nil => exact absurd hd hne
    | cons a l =>
      rw [hd] at hs
      simp only [List.isEmpty_cons, Bool.false_eq_true, if_false, hs]
  · intro e info2 h
    rcases btrfs_alloc_chunk_cases K info info2 extent_root type _ h with
      ⟨h1, h2, h3⟩ | ⟨h1, _, dl, h2, h3⟩ | ⟨_, cs, dl, pv, _, h2⟩
    · injection h1 with h1
      rw [h3]
      exact ⟨h1, Or.inl h2, List.Perm.refl _, rfl, rfl, rfl, rfl⟩
    · injection h1 with h1
      rw [h3]
      exact ⟨h1, Or.inr ⟨dl, h2⟩, select_devices_error_perm _ _ _ h2, rfl, rfl, rfl, rfl⟩
    · obtain ⟨L, _, _, hr, _⟩ := alloc_chunk_assemble_ok_inv K _ _ _ _ _ _ _ _ _ h2
      injection hr

/-- C9 (witness): scenario 3, three devices with 5, 7 and 9 MiB free and
`DATA | RAID0`: the call returns `ENOSPC`, the state differs from the one
before only in the order of the device list. -/
theorem btrfs_alloc_chunk_enospc_witness :
    btrfs_alloc_chunk K0 ex_info_shrink ex_root 9 =
        .ok (.error errno.ENOSPC,
          { ex_info_shrink with
            devices := [ex_device 3 16777216 7340032, ex_device 1 16777216 11534336,
                        ex_device 2 16777216 9437184] }) ∧
      [ex_device 3 16777216 7340032, ex_device 1 16777216 11534336,
        ex_device 2 16777216 9437184].Perm ex_info_shrink.devices :=
  ⟨rfl, ((btrfs_alloc_chunk_enospc K0 ex_info_shrink ex_root 9).2 errno.ENOSPC
    { ex_info_shrink with
      devices := [ex_device 3 16777216 7340032, ex_device 1 16777216 11534336,
                  ex_device 2 16777216 9437184] } rfl).2.2.1⟩

/-! ## Space accounting of `btrfs_alloc_chunk` -/

theorem le_sum_map_of_mem {α : Type} (f : α → Nat) :
    ∀ (l : List α), ∀ a ∈ l, f a ≤ (l.map f).sum := by
  intro l
  induction l with
  | nil => intro a ha; simp at ha
  | cons b rest ih =>
    intro a ha
    simp only [List.map_cons, List.sum_cons]
    rcases List.mem_cons.mp ha with h | h
    · rw [h]; exact Nat.le_add_right _ _
    · exact Nat.le_trans (ih a h) (Nat.le_add_left _ _)

theorem length_mul_le_sum_map {α : Type} (f : α → Nat) (c : Nat) :
    ∀ (l : List α), (∀ a ∈ l, c ≤ f a) → l.length * c ≤ (l.map f).sum := by
  intro l
  induction l with
  | nil => intro _; simp
  | cons b rest ih =>
    intro h
    have h1 := h b (List.mem_cons_self _ _)
    have h2 := ih (fun a ha => h a (List.mem_cons_of_mem _ ha))
    simp only [List.length_cons, List.map_cons, List.sum_cons, Nat.add_mul, Nat.one_mul]
    omega

theorem sum_map_le_sum_map {α : Type} (f g : α → Nat) :
    ∀ (l : List α), (∀ a ∈ l, f a ≤ g a) → (l.map f).sum ≤ (l.map g).sum := by
  intro l
  induction l with
  | nil => intro _; simp
  | cons b rest ih =>
    intro h
    have h1 := h b (List.mem_cons_self _ _)
    have h2 := ih (fun a ha => h a (List.mem_cons_of_mem _ ha))
    simp only [List.map_cons, List.sum_cons]
    omega

theorem sum_map_add_const {α : Type} (f g : α → Nat) (c : Nat) :
    ∀ (l : List α), (∀ a ∈ l, g a = f a + c) →
      (l.map g).sum = (l.map f).sum + l.length * c := by
  intro l
  induction l with
  | nil => intro _; simp
  | cons b rest ih =>
    intro h
    have h1 := h b (List.mem_cons_self _ _)
    have h2 := ih (fun a ha => h a (List.mem_cons_of_mem _ ha))
    simp only [List.length_cons, List.map_cons, List.sum_cons, Nat.add_mul, Nat.one_mul]
    omega

theorem avail_eq_sub {d : btrfs_device} (h1 : d.bytes_used ≤ d.total_bytes)
    (h2 : d.total_bytes < 18446744073709551616) : avail d = d.total_bytes - d.bytes_used :=
  u64_sub_of_le h1 h2

theorem bytes_used_add_eq {cs : Nat} {d : btrfs_device} (h1 : d.bytes_used ≤ d.total_bytes)
    (h2 : d.total_bytes < 18446744073709551616) (h3 : cs ≤ avail d) :
    (bytes_used_add cs d).bytes_used = d.bytes_used + cs := by
  rw [avail_eq_sub h1 h2] at h3
  unfold bytes_used_add
  exact u64_of_lt (by omega)

/-- The number of stripes is the length of a list of devices once
`num_devices` fits a C `int`. -/
theorem chunk_num_stripes_nonneg (K : ctree_consts) (info : btrfs_fs_info) (type : Nat)
    (hnd : info.num_devices < 2147483648) :
    0 ≤ chunk_num_stripes K info type ∧ chunk_num_stripes K info type < 2147483648 := by
  unfold chunk_num_stripes
  by_cases h : Nat.land type K.BTRFS_BLOCK_GROUP_RAID0 ≠ 0
  · rw [if_pos h, int_of_u64_of_lt hnd]
    omega
  · rw [if_neg h]
    omega

theorem u64_of_int_toNat {i : Int} (h0 : 0 ≤ i) (h1 : i < 2147483648) :
    u64_of_int i = i.toNat :=
  u64_of_int_of_nonneg h0 (by omega)

/-- A successful `btrfs_alloc_chunk` taken apart: the selection gave
`calc_size`, the selected devices `sel` and the others `rest`; the start is
the one of `find_next_chunk`; the stripe loop gave one stripe per selected
device; the devices, the device tree, the chunk tree and the mapping tree after
the call are built from these. -/
theorem btrfs_alloc_chunk_ok_inv (K : ctree_consts) (info info2 : btrfs_fs_info)
    (extent_root : btrfs_root) (type L S : Nat)
    (h : btrfs_alloc_chunk K info extent_root type = .ok (.ok (L, S), info2)) :
    ∃ (cs : Nat) (sel rest : List btrfs_device) (stripes : List (btrfs_device × Nat))
      (info1 : btrfs_fs_info),
      select_devices (chunk_num_stripes K info type) info.devices = .ok (cs, rest, sel) ∧
      (sel ++ rest).Perm info.devices ∧ (∀ d ∈ sel, cs ≤ avail d) ∧
      sel.length = (chunk_num_stripes K info type).toNat ∧ 0 < cs ∧
      (cs = 8388608 ∨ cs = max_avail_of info.devices) ∧
      find_next_chunk K info.chunk_root = .ok L ∧
      S = u64 (cs * u64_of_int (chunk_num_stripes K info type)) ∧
      stripes.map (fun s => s.1) = sel.map (bytes_used_add cs) ∧
      (∀ s ∈ stripes, s.2 < 18446744073709551616) ∧
      info2.devices = rest ++ sel.map (bytes_used_add cs) ∧
      info2.dev_root.Perm
        (stripes.map (fun s => new_dev_extent K s.1.devid L cs s.2) ++ info.dev_root) ∧
      info1.chunk_root.map (fun it => it.key) = info.chunk_root.map (fun it => it.key) ∧
      btrfs_insert_item (fun it => it.key) info1.chunk_root
        { key := { objectid := L, offset := S, type := K.BTRFS_CHUNK_ITEM_KEY },
          data := item_data.chunk (new_chunk_item extent_root type
            (chunk_num_stripes K info type) (chunk_stripe_len K type) stripes) } =
        .ok info2.chunk_root ∧
      insert_existing_cache_extent info.mapping_tree
        (new_map_lookup { objectid := L, offset := S, type := K.BTRFS_CHUNK_ITEM_KEY }
          extent_root type (chunk_num_stripes K info type) (chunk_stripe_len K type) stripes) =
        .ok info2.mapping_tree ∧
      info2.num_devices = info.num_devices := by
  rcases btrfs_alloc_chunk_cases K info info2 extent_root type _ h with
    ⟨h1, _, _⟩ | ⟨h1, _, _, _, _⟩ | ⟨_, cs, dl, pv, hs, h2⟩
  · injection h1
  · injection h1
  · obtain ⟨L1, info1, stripes, hr, hf, hst, hi, hm, hd1, hd2, hd3⟩ :=
      alloc_chunk_assemble_ok_inv K _ _ _ _ _ _ _ _ _ h2
    injection hr with hr
    injection hr with hL hS
    subst hL
    obtain ⟨p1, p2, p3, p4, p5⟩ := select_devices_ok_inv _ _ _ _ _ hs
    obtain ⟨sel, e1, _, e3, e4, e5, e6, e7, e8, e9⟩ := alloc_stripes_ok_inv K _ _ _ _ _ _ _ _ hst
    rw [List.append_nil] at e1
    subst e1
    rw [← hS] at hi hm
    rw [e7] at hm
    refine ⟨cs, pv, dl, stripes, info1, hs, p1, p2, p3, p4, p5, hf, hS, e3, e9, ?_, ?_, e6, hi, hm,
      ?_⟩
    · rw [hd1, e4]
    · rw [hd2]; exact e5
    · rw [hd3, e8]

/-- The selected devices fit the 64-bit arithmetic: for devices with
`bytes_used ≤ total_bytes` whose sizes add up to less than `2^64`, the product
`calc_size * num_stripes` does not wrap and neither does `bytes_used +
calc_size` on a selected device. -/
theorem selected_no_wrap (devices sel rest : List btrfs_device) (cs : Nat)
    (hfit : ∀ d ∈ devices, d.bytes_used ≤ d.total_bytes)
    (hcap : (devices.map (fun d => d.total_bytes)).sum < 18446744073709551616)
    (hperm : (sel ++ rest).Perm devices) (hav : ∀ d ∈ sel, cs ≤ avail d) :
    cs * sel.length < 18446744073709551616 ∧
      ∀ d ∈ sel, (bytes_used_add cs d).bytes_used = d.bytes_used + cs := by
  have htot : ∀ d ∈ devices, d.total_bytes < 18446744073709551616 := fun d hd =>
    Nat.lt_of_le_of_lt (le_sum_map_of_mem (fun d => d.total_bytes) devices d hd) hcap
  have hsel : ∀ d ∈ sel, d ∈ devices := fun d hd =>
    hperm.subset (List.mem_append_left _ hd)
  have hb1 : sel.length * cs ≤ (sel.map avail).sum := length_mul_le_sum_map avail cs sel hav
  have hb2 : (sel.map avail).sum ≤ (sel.map (fun d => d.total_bytes)).sum := by
    apply sum_map_le_sum_map
    intro d hd
    rw [avail_eq_sub (hfit d (hsel d hd)) (htot d (hsel d hd))]
    exact Nat.sub_le _ _
  have hb3 : (sel.map (fun d => d.total_bytes)).sum ≤
      (devices.map (fun d => d.total_bytes)).sum := by
    rw [← (hperm.map (fun d => d.total_bytes)).sum_eq, List.map_append, List.sum_append]
    exact Nat.le_add_right _ _
  constructor
  · rw [Nat.mul_comm]
    exact Nat.lt_of_le_of_lt (Nat.le_trans hb1 (Nat.le_trans hb2 hb3)) hcap
  · exact fun d hd =>
      bytes_used_add_eq (hfit d (hsel d hd)) (htot d (hsel d hd)) (hav d hd)

/-- C10: space accounting of a successful `btrfs_alloc_chunk`, for devices
with `bytes_used ≤ total_bytes` whose sizes add up to less than `2^64` and
`num_devices` in the range of a C `int`. The returned `num_bytes` is
`calc_size * num_stripes`; the chunk tree gains the one key
`(start, CHUNK_ITEM_KEY, num_bytes)`, with a chunk item; the device tree gains
one extent of `calc_size` bytes per selected device; the selected devices are
at the tail of the device list with `bytes_used` raised by `calc_size`, the
others are unchanged; the sum of `bytes_used` grows by `num_bytes`. -/
theorem btrfs_alloc_chunk_accounting (K : ctree_consts) (info info2 : btrfs_fs_info)
    (extent_root : btrfs_root) (type L S : Nat)
    (hfit : ∀ d ∈ info.devices, d.bytes_used ≤ d.total_bytes)
    (hcap : (info.devices.map (fun d => d.total_bytes)).sum < 18446744073709551616)
    (hnd : info.num_devices < 2147483648)
    (h : btrfs_alloc_chunk K info extent_root type = .ok (.ok (L, S), info2)) :
    ∃ (cs : Nat) (sel rest : List btrfs_device) (stripes : List (btrfs_device × Nat)),
      (sel ++ rest).Perm info.devices ∧
      (sel.length : Int) = chunk_num_stripes K info type ∧
      S = cs * sel.length ∧
      (∃ c, ({ key := { objectid := L, type := K.BTRFS_CHUNK_ITEM_KEY, offset := S },
               data := item_data.chunk c } : btrfs_item) ∈ info2.chunk_root) ∧
      (info2.chunk_root.map (fun it => it.key)).Perm
        ({ objectid := L, type := K.BTRFS_CHUNK_ITEM_KEY, offset := S } ::
          info.chunk_root.map (fun it => it.key)) ∧
      stripes.map (fun s => s.1) = sel.map (bytes_used_add cs) ∧
      info2.dev_root.Perm
        (stripes.map (fun s => new_dev_extent K s.1.devid L cs s.2) ++ info.dev_root) ∧
      info2.devices = rest ++ sel.map (bytes_used_add cs) ∧
      (∀ d ∈ sel, (bytes_used_add cs d).bytes_used = d.bytes_used + cs) ∧
      (info2.devices.map (fun d => d.bytes_used)).sum =
        (info.devices.map (fun d => d.bytes_used)).sum + S := by
  obtain ⟨cs, sel, rest, stripes, info1, _, hperm, hav, hlen, _, _, _, hS, hst, _, hdev, hext,
    hkeys, hins, _, _⟩ := btrfs_alloc_chunk_ok_inv K info info2 extent_root type L S h
  obtain ⟨hn0, hn1⟩ := chunk_num_stripes_nonneg K info type hnd
  have hlenI : (sel.length : Int) = chunk_num_stripes K info type := by omega
  obtain ⟨hprod, hbump⟩ := selected_no_wrap info.devices sel rest cs hfit hcap hperm hav
  have hS2 : S = cs * sel.length := by
    rw [hS, u64_of_int_toNat hn0 hn1, ← hlen]
    exact u64_of_lt hprod
  have hp2 := btrfs_insert_item_perm _ _ _ _ hins
  refine ⟨cs, sel, rest, stripes, hperm, hlenI, hS2, ?_, ?_, hst, hext, hdev, hbump, ?_⟩
  · exact ⟨_, hp2.symm.subset (List.mem_cons_self _ _)⟩
  · have := hp2.map (fun it => it.key)
    rw [List.map_cons, hkeys] at this
    exact this
  · rw [hdev, List.map_append, List.sum_append, List.map_map]
    have e1 := sum_map_add_const (fun (d : btrfs_device) => d.bytes_used)
      ((fun (d : btrfs_device) => d.bytes_used) ∘ bytes_used_add cs) cs sel hbump
    rw [e1, ← (hperm.map (fun d => d.bytes_used)).sum_eq, List.map_append, List.sum_append, hS2]
    rw [Nat.mul_comm cs]
    omega

/-- C10 (witness): scenario 2, two devices of 1 GiB and `DATA | RAID0`: the
call returns `(0, 16 MiB)`. -/
theorem btrfs_alloc_chunk_accounting_witness :
    btrfs_alloc_chunk K0 ex_info_two ex_root 9 = .ok (.ok (0, 16777216), ex_info_two_after) ∧
    ∃ (cs : Nat) (sel rest : List btrfs_device) (stripes : List (btrfs_device × Nat)),
      (sel ++ rest).Perm ex_info_two.devices ∧
      (sel.length : Int) = chunk_num_stripes K0 ex_info_two 9 ∧
      16777216 = cs * sel.length ∧
      (∃ c, ({ key := { objectid := 0, type := K0.BTRFS_CHUNK_ITEM_KEY, offset := 16777216 },
               data := item_data.chunk c } : btrfs_item) ∈ ex_info_two_after.chunk_root) ∧
      (ex_info_two_after.chunk_root.map (fun it => it.key)).Perm
        ({ objectid := 0, type := K0.BTRFS_CHUNK_ITEM_KEY, offset := 16777216 } ::
          ex_info_two.chunk_root.map (fun it => it.key)) ∧
      stripes.map (fun s => s.1) = sel.map (bytes_used_add cs) ∧
      ex_info_two_after.dev_root.Perm
        (stripes.map (fun s => new_dev_extent K0 s.1.devid 0 cs s.2) ++ ex_info_two.dev_root) ∧
      ex_info_two_after.devices = rest ++ sel.map (bytes_used_add cs) ∧
      (∀ d ∈ sel, (bytes_used_add cs d).bytes_used = d.bytes_used + cs) ∧
      (ex_info_two_after.devices.map (fun d => d.bytes_used)).sum =
        (ex_info_two.devices.map (fun d => d.bytes_used)).sum + 16777216 :=
  ⟨rfl, btrfs_alloc_chunk_accounting K0 ex_info_two ex_info_two_after ex_root 9 0 16777216
    (by decide) (by decide) (by decide) rfl⟩

/-! ## The mapping entry of a new chunk -/

/-- A successful insertion into the interval cache adds the entry and keeps
the cache well-formed. -/
theorem insert_existing_cache_extent_ok :
    ∀ (t t1 : cache_tree) (m : map_lookup), insert_existing_cache_extent t m = .ok t1 →
      t1.Perm (m :: t) ∧ (cache_tree_wf t → cache_tree_wf t1) := by
  intro t
  induction t with
  | nil =>
    intro t1 m h
    simp only [insert_existing_cache_extent] at h
    injection h with h
    rw [← h]
    exact ⟨List.Perm.refl _, fun _ => by unfold cache_tree_wf; simp⟩
  | cons e rest ih =>
    intro t1 m h
    unfold insert_existing_cache_extent at h
    by_cases h1 : m.ce.start + m.ce.size ≤ e.ce.start
    · rw [if_pos h1] at h
      injection h with h
      rw [← h]
      refine ⟨List.Perm.refl _, ?_⟩
      intro hwf
      unfold cache_tree_wf at hwf ⊢
      refine List.pairwise_cons.mpr ⟨?_, hwf⟩
      intro x hx
      rcases List.mem_cons.mp hx with h0 | h0
      · rw [h0]; exact h1
      · have := (List.pairwise_cons.mp hwf).1 x h0
        omega
    · rw [if_neg h1] at h
      by_cases h2 : e.ce.start + e.ce.size ≤ m.ce.start
      · rw [if_pos h2] at h
        cases hr : insert_existing_cache_extent rest m with
        | error x => rw [hr] at h; injection h
        | ok t2 =>
          rw [hr] at h
          injection h with h
          rw [← h]
          obtain ⟨hp, hw⟩ := ih t2 m hr
          refine ⟨(List.Perm.cons e hp).trans (List.Perm.swap m e rest), ?_⟩
          intro hwf
          unfold cache_tree_wf at hwf hw ⊢
          refine List.pairwise_cons.mpr ⟨?_, hw (List.pairwise_cons.mp hwf).2⟩
          intro x hx
          rcases List.mem_cons.mp (hp.subset hx) with h0 | h0
          · rw [h0]; exact h2
          · exact (List.pairwise_cons.mp hwf).1 x h0
      · rw [if_neg h2] at h
        injection h

/-- C11: the stripes of a new chunk are on distinct devices. On a device list
without repeated entries, a successful `btrfs_alloc_chunk` that returns
`(start, num_bytes)` has left the device selection with the size `calc_size`
and the private list `sel` (`select_devices`), with `calc_size > 0` and
`num_bytes = calc_size * num_stripes`; it installs a mapping entry `map` for
`[start, start + num_bytes)` whose stripes name, in order, the `num_stripes`
devices of `sel`; these are pairwise distinct devices of the list, each had
`avail = total_bytes - bytes_used ≥ calc_size` when it was selected, and the
device list after the call holds every device exactly once. -/
theorem btrfs_alloc_chunk_distinct (K : ctree_consts) (info info2 : btrfs_fs_info)
    (extent_root : btrfs_root) (type L S : Nat)
    (hnodup : (info.devices.map (fun d => d.ptr)).Nodup)
    (h : btrfs_alloc_chunk K info extent_root type = .ok (.ok (L, S), info2)) :
    ∃ (cs : Nat) (sel rest : List btrfs_device) (map : map_lookup),
      select_devices (chunk_num_stripes K info type) info.devices = .ok (cs, rest, sel) ∧
      0 < cs ∧ S = u64 (cs * u64_of_int (chunk_num_stripes K info type)) ∧
      map ∈ info2.mapping_tree ∧ map.ce.start = L ∧ map.ce.size = S ∧
      map.num_stripes = chunk_num_stripes K info type ∧
      map.stripes.map (fun s => s.dev) = sel.map (fun d => d.ptr) ∧
      sel.length = (chunk_num_stripes K info type).toNat ∧
      (sel.map (fun d => d.ptr)).Nodup ∧
      (∀ d ∈ sel, d ∈ info.devices ∧ cs ≤ avail d ∧
        (d.bytes_used ≤ d.total_bytes → d.total_bytes < 18446744073709551616 →
          cs ≤ d.total_bytes - d.bytes_used)) ∧
      (info2.devices.map (fun d => d.ptr)).Perm (info.devices.map (fun d => d.ptr)) ∧
      (info2.devices.map (fun d => d.ptr)).Nodup := by
  obtain ⟨cs, sel, rest, stripes, info1, hsel, hperm, hav, hlen, hcs, _, _, hS, hst, _, hdev, _,
    _, _, hmap, _⟩ := btrfs_alloc_chunk_ok_inv K info info2 extent_root type L S h
  have hpp : (sel.map (fun d => d.ptr) ++ rest.map (fun d => d.ptr)).Perm
      (info.devices.map (fun d => d.ptr)) := by
    rw [← List.map_append]; exact hperm.map _
  have hnd2 : (sel.map (fun d => d.ptr) ++ rest.map (fun d => d.ptr)).Nodup :=
    hpp.nodup_iff.mpr hnodup
  have hptr : (sel.map (bytes_used_add cs)).map (fun d => d.ptr) = sel.map (fun d => d.ptr) := by
    rw [List.map_map]; rfl
  have hp2 : (info2.devices.map (fun d => d.ptr)).Perm (info.devices.map (fun d => d.ptr)) := by
    rw [hdev, List.map_append, hptr]
    exact List.perm_append_comm.trans hpp
  refine ⟨cs, sel, rest, _, hsel, hcs, hS, ((insert_existing_cache_extent_ok _ _ _ hmap).1.symm.subset
    (List.mem_cons_self _ _)), rfl, rfl, rfl, ?_, hlen, (List.nodup_append.mp hnd2).1, ?_, hp2,
    hp2.nodup_iff.mpr hnodup⟩
  · simp only [new_map_lookup, List.map_map]
    have : (fun s : btrfs_device × Nat => s.1.ptr) = (fun d : btrfs_device => d.ptr) ∘ (fun s => s.1) :=
      rfl
    show List.map (fun s : btrfs_device × Nat => s.1.ptr) stripes = _
    rw [this, ← List.map_map, hst, hptr]
  · intro d hd
    refine ⟨hperm.subset (List.mem_append_left _ hd), hav d hd, ?_⟩
    intro h1 h2
    rw [← avail_eq_sub h1 h2]
    exact hav d hd

/-- C11 (witness): scenario 2, two devices of 1 GiB and `DATA | RAID0`. -/
theorem btrfs_alloc_chunk_distinct_witness :
    (ex_info_two.devices.map (fun d => d.ptr)).Nodup ∧
    ∃ (cs : Nat) (sel rest : List btrfs_device) (map : map_lookup),
      select_devices (chunk_num_stripes K0 ex_info_two 9) ex_info_two.devices =
        .ok (cs, rest, sel) ∧
      0 < cs ∧ 16777216 = u64 (cs * u64_of_int (chunk_num_stripes K0 ex_info_two 9)) ∧
      map ∈ ex_info_two_after.mapping_tree ∧ map.ce.start = 0 ∧ map.ce.size = 16777216 ∧
      map.num_stripes = chunk_num_stripes K0 ex_info_two 9 ∧
      map.stripes.map (fun s => s.dev) = sel.map (fun d => d.ptr) ∧
      sel.length = (chunk_num_stripes K0 ex_info_two 9).toNat ∧
      (sel.map (fun d => d.ptr)).Nodup ∧
      (∀ d ∈ sel, d ∈ ex_info_two.devices ∧ cs ≤ avail d ∧
        (d.bytes_used ≤ d.total_bytes → d.total_bytes < 18446744073709551616 →
          cs ≤ d.total_bytes - d.bytes_used)) ∧
      (ex_info_two_after.devices.map (fun d => d.ptr)).Perm
        (ex_info_two.devices.map (fun d => d.ptr)) ∧
      (ex_info_two_after.devices.map (fun d => d.ptr)).Nodup :=
  ⟨by decide, btrfs_alloc_chunk_distinct K0 ex_info_two ex_info_two_after ex_root 9 0 16777216
    (by decide) rfl⟩

/-! ## The logical start of a new chunk -/

theorem btrfs_key_lt_trans {a b c : btrfs_key} (h1 : btrfs_key_lt a b) (h2 : btrfs_key_lt b c) :
    btrfs_key_lt a c := by
  unfold btrfs_key_lt at *
  omega

theorem btrfs_search_slot_length (keys : List btrfs_key) (key : btrfs_key) :
    (btrfs_search_slot keys key).2 ≤ keys.length := by
  induction keys with
  | nil => simp [btrfs_search_slot]
  | cons k rest ih =>
    unfold btrfs_search_slot
    by_cases h1 : btrfs_key_lt k key
    · rw [if_pos h1]; simp only [List.length_cons]; omega
    · rw [if_neg h1]
      by_cases h2 : k = key
      · rw [if_pos h2]; simp
      · rw [if_neg h2]; simp

/-- The item the search stops at is not below the key, and it is not the key
when the search returns 1. -/
theorem btrfs_search_slot_head (keys : List btrfs_key) (key : btrfs_key) :
    ∀ k, (keys.drop (btrfs_search_slot keys key).2).head? = some k →
      ¬ btrfs_key_lt k key ∧ ((btrfs_search_slot keys key).1 ≠ 0 → k ≠ key) := by
  induction keys with
  | nil => intro k hk; simp [btrfs_search_slot] at hk
  | cons a rest ih =>
    intro k hk
    unfold btrfs_search_slot at hk ⊢
    by_cases h1 : btrfs_key_lt a key
    · rw [if_pos h1] at hk ⊢
      simp only [List.drop_succ_cons] at hk
      exact ih k hk
    · rw [if_neg h1] at hk ⊢
      by_cases h2 : a = key
      · rw [if_pos h2] at hk ⊢
        simp only [List.drop_zero, List.head?_cons, Option.some.injEq] at hk
        rw [← hk]
        exact ⟨h1, fun h => absurd rfl h⟩
      · rw [if_neg h2] at hk ⊢
        simp only [List.drop_zero, List.head?_cons, Option.some.injEq] at hk
        rw [← hk]
        exact ⟨h1, fun _ => h2⟩

/-- The walk back finds the last item of the key type in front of the slot. -/
theorem btrfs_previous_item_last (keys : List btrfs_key) (type : Nat) :
    ∀ slot, slot ≤ keys.length →
      match ((keys.take slot).filter (fun k => decide (k.type = type))).getLast? with
      | none => (btrfs_previous_item keys type slot).1 = 1
      | some k => (btrfs_previous_item keys type slot).1 = 0 ∧
          keys[(btrfs_previous_item keys type slot).2]? = some k := by
  intro slot
  induction slot with
  | zero => intro _; simp [btrfs_previous_item]
  | succ n ih =>
    intro hle
    have hn : n < keys.length := hle
    have hk : keys[n]? = some keys[n] := List.getElem?_eq_getElem hn
    have ht : keys.take (n + 1) = keys.take n ++ [keys[n]] := by
      rw [List.take_succ, hk]; rfl
    unfold btrfs_previous_item
    rw [hk, ht, List.filter_append]
    simp only
    by_cases hty : keys[n].type = type
    · rw [if_pos hty]
      have : List.filter (fun k => decide (k.type = type)) [keys[n]] = [keys[n]] := by
        simp [hty]
      have e : (List.filter (fun k => decide (k.type = type)) (keys.take n) ++
          [keys[n]]).getLast? = some keys[n] := by simp
      rw [this, e]
      exact ⟨rfl, hk⟩
    · rw [if_neg hty]
      have : List.filter (fun k => decide (k.type = type)) [keys[n]] = [] := by
        simp [hty]
      rw [this, List.append_nil]
      exact ih (Nat.le_of_lt hn)
/-- In a chunk tree in key order whose chunk items lie in the 64-bit logical
space, every chunk item is in front of the slot found for the key
`(-1, CHUNK_ITEM_KEY, -1)` unless the search returns 0. -/
theorem chunk_keys_before_slot (K : ctree_consts) (chunk_root : List btrfs_item)
    (hsorted : chunk_tree_sorted chunk_root)
    (hkeys : ∀ k ∈ chunk_keys K chunk_root, k.objectid + k.offset < 18446744073709551616)
    (hr : (btrfs_search_slot (chunk_root.map (fun it => it.key))
      { objectid := 18446744073709551615, offset := 18446744073709551615,
        type := K.BTRFS_CHUNK_ITEM_KEY }).1 ≠ 0) :
    chunk_keys K chunk_root =
      ((chunk_root.map (fun it => it.key)).take
        (btrfs_search_slot (chunk_root.map (fun it => it.key))
          { objectid := 18446744073709551615, offset := 18446744073709551615,
            type := K.BTRFS_CHUNK_ITEM_KEY }).2).filter
        (fun k => decide (k.type = K.BTRFS_CHUNK_ITEM_KEY)) := by
  have hp : (chunk_root.map (fun it => it.key)).Pairwise btrfs_key_lt := by
    rw [List.pairwise_map]; exact hsorted
  generalize hkeysdef : chunk_root.map (fun it => it.key) = keys at *
  have hck : chunk_keys K chunk_root =
      keys.filter (fun k => decide (k.type = K.BTRFS_CHUNK_ITEM_KEY)) := by
    unfold chunk_keys; rw [hkeysdef]
  rw [hck] at hkeys ⊢
  obtain ⟨SK, hSK⟩ : ∃ SK : btrfs_key, SK =
      { objectid := 18446744073709551615, offset := 18446744073709551615,
        type := K.BTRFS_CHUNK_ITEM_KEY } := ⟨_, rfl⟩
  rw [← hSK] at hr ⊢
  -- a chunk key is the search key or below it
  have hbelow : ∀ x ∈ keys, x.type = K.BTRFS_CHUNK_ITEM_KEY → x = SK ∨ btrfs_key_lt x SK := by
    intro x hx hty
    have hb := hkeys x (List.mem_filter.mpr ⟨hx, by simpa using hty⟩)
    rw [hSK]
    by_cases h1 : x.objectid = 18446744073709551615 ∧ x.offset = 18446744073709551615
    · left
      cases x
      simp only at h1 hty
      simp only [btrfs_key.mk.injEq]
      exact ⟨h1.1, hty, h1.2⟩
    · right
      have hb1 : x.objectid < 18446744073709551615 ∨ (x.objectid = 18446744073709551615 ∧
          x.offset < 18446744073709551615) := by omega
      unfold btrfs_key_lt
      rcases hb1 with hb1 | hb1
      · exact Or.inl hb1
      · exact Or.inr ⟨hb1.1, Or.inr ⟨hty, hb1.2⟩⟩
  have hdropnil : (keys.drop (btrfs_search_slot keys SK).2).filter
      (fun k => decide (k.type = K.BTRFS_CHUNK_ITEM_KEY)) = [] := by
    rw [List.filter_eq_nil_iff]
    intro x hx
    simp only [decide_eq_true_eq]
    intro hty
    have hxk : x ∈ keys := List.mem_of_mem_drop hx
    have hpd : (keys.drop (btrfs_search_slot keys SK).2).Pairwise btrfs_key_lt :=
      List.Pairwise.sublist (List.drop_sublist _ _) hp
    cases hd : keys.drop (btrfs_search_slot keys SK).2 with
    | nil => rw [hd] at hx; simp at hx
    | cons k0 rest =>
      have hh := btrfs_search_slot_head keys SK k0 (by rw [hd]; rfl)
      rw [hd] at hx hpd
      have hk0 : ¬ btrfs_key_lt k0 SK := hh.1
      have hk1 : k0 ≠ SK := hh.2 hr
      rcases List.mem_cons.mp hx with h0 | h0
      · rcases hbelow x hxk hty with h2 | h2
        · exact hk1 (h0 ▸ h2)
        · exact hk0 (h0 ▸ h2)
      · have hlt : btrfs_key_lt k0 x := (List.pairwise_cons.mp hpd).1 x h0
        rcases hbelow x hxk hty with h2 | h2
        · exact hk0 (h2 ▸ hlt)
        · exact hk0 (btrfs_key_lt_trans hlt h2)
  have e : keys.filter (fun k => decide (k.type = K.BTRFS_CHUNK_ITEM_KEY)) =
      (keys.take (btrfs_search_slot keys SK).2).filter
          (fun k => decide (k.type = K.BTRFS_CHUNK_ITEM_KEY)) ++
        (keys.drop (btrfs_search_slot keys SK).2).filter
          (fun k => decide (k.type = K.BTRFS_CHUNK_ITEM_KEY)) := by
    rw [← List.filter_append, List.take_append_drop]
  rw [hdropnil, List.append_nil] at e
  exact e

/-- `find_next_chunk` returns the start of the spec: on a chunk tree in key
order whose chunk items end below `2^64`, a return gives `objectid + offset`
of the highest-keyed chunk item, 0 without one. -/
theorem find_next_chunk_eq (K : ctree_consts) (chunk_root : List btrfs_item) (L : Nat)
    (hsorted : chunk_tree_sorted chunk_root)
    (hkeys : ∀ k ∈ chunk_keys K chunk_root, k.objectid + k.offset < 18446744073709551616)
    (h : find_next_chunk K chunk_root = .ok L) : L = next_logical_start K chunk_root := by
  unfold find_next_chunk at h
  simp only at h
  by_cases hr : (btrfs_search_slot (chunk_root.map (fun it => it.key))
      { objectid := 18446744073709551615, offset := 18446744073709551615,
        type := K.BTRFS_CHUNK_ITEM_KEY }).1 = 0
  · rw [if_pos hr] at h; injection h
  · rw [if_neg hr] at h
    have hck := chunk_keys_before_slot K chunk_root hsorted hkeys hr
    have hlast := btrfs_previous_item_last (chunk_root.map (fun it => it.key))
      K.BTRFS_CHUNK_ITEM_KEY _ (btrfs_search_slot_length (chunk_root.map (fun it => it.key))
        { objectid := 18446744073709551615, offset := 18446744073709551615,
          type := K.BTRFS_CHUNK_ITEM_KEY })
    rw [← hck] at hlast
    unfold next_logical_start
    cases hg : (chunk_keys K chunk_root).getLast? with
    | none =>
      rw [hg] at hlast
      simp only at hlast ⊢
      rw [if_pos (by rw [hlast]; decide)] at h
      injection h with h
      exact h.symm
    | some k =>
      rw [hg] at hlast
      simp only at hlast ⊢
      rw [if_neg (by rw [hlast.1]; decide), hlast.2] at h
      simp only at h
      injection h with h
      rw [← h]
      have hmem : k ∈ chunk_keys K chunk_root := by
        obtain ⟨ys, hys⟩ := List.getLast?_eq_some_iff.mp hg
        rw [hys]
        exact List.mem_append_right _ (List.mem_singleton_self _)
      exact u64_of_lt (hkeys k hmem)

/-- Among non-empty, pairwise disjoint chunks in key order the highest-keyed
ends last. -/
theorem chunk_keys_end_le (K : ctree_consts) (chunk_root : List btrfs_item)
    (hsorted : chunk_tree_sorted chunk_root)
    (hne : ∀ k ∈ chunk_keys K chunk_root, 1 ≤ k.offset)
    (hdis : (chunk_keys K chunk_root).Pairwise
      (fun a b => a.objectid + a.offset ≤ b.objectid ∨ b.objectid + b.offset ≤ a.objectid)) :
    ∀ k ∈ chunk_keys K chunk_root, k.objectid + k.offset ≤ next_logical_start K chunk_root := by
  have hp : (chunk_keys K chunk_root).Pairwise btrfs_key_lt := by
    unfold chunk_keys
    refine List.Pairwise.sublist (List.filter_sublist _) ?_
    rw [List.pairwise_map]; exact hsorted
  have hty : ∀ k ∈ chunk_keys K chunk_root, k.type = K.BTRFS_CHUNK_ITEM_KEY := by
    intro k hk
    unfold chunk_keys at hk
    simpa using (List.mem_filter.mp hk).2
  unfold next_logical_start
  generalize chunk_keys K chunk_root = ks at *
  intro k hk
  cases hg : ks.getLast? with
  | none =>
    rw [List.getLast?_eq_none_iff] at hg
    rw [hg] at hk; simp at hk
  | some last =>
    simp only
    obtain ⟨init, hinit⟩ : ∃ init, ks = init ++ [last] := by
      rw [List.getLast?_eq_some_iff] at hg
      exact hg
    rw [hinit] at hk hp hdis hne hty
    rcases List.mem_append.mp hk with h0 | h0
    · have h1 : btrfs_key_lt k last :=
        (List.pairwise_append.mp hp).2.2 k h0 last (List.mem_singleton_self _)
      have h2 := (List.pairwise_append.mp hdis).2.2 k h0 last (List.mem_singleton_self _)
      have h3 := hne k (List.mem_append_left _ h0)
      have h4 := hne last (List.mem_append_right _ (List.mem_singleton_self _))
      have h5 := hty k (List.mem_append_left _ h0)
      have h6 := hty last (List.mem_append_right _ (List.mem_singleton_self _))
      unfold btrfs_key_lt at h1
      omega
    · rw [List.mem_singleton.mp h0]
/-- C12: the logical start of a new chunk. On a chunk tree in key order whose
chunk items end below `2^64`, a successful `btrfs_alloc_chunk` returns as
start `objectid + offset` of the highest-keyed chunk item, 0 when the tree has
no chunk item; and if the chunk items are non-empty and pairwise
non-overlapping, every one of them ends at or before that start, so the new
chunk `[start, start + num_bytes)` overlaps none of them. -/
theorem btrfs_alloc_chunk_logical_start (K : ctree_consts) (info info2 : btrfs_fs_info)
    (extent_root : btrfs_root) (type L S : Nat)
    (hsorted : chunk_tree_sorted info.chunk_root)
    (hkeys : ∀ k ∈ chunk_keys K info.chunk_root, k.objectid + k.offset < 18446744073709551616)
    (h : btrfs_alloc_chunk K info extent_root type = .ok (.ok (L, S), info2)) :
    L = next_logical_start K info.chunk_root ∧
    ((∀ k ∈ chunk_keys K info.chunk_root, 1 ≤ k.offset) →
      (chunk_keys K info.chunk_root).Pairwise
        (fun a b => a.objectid + a.offset ≤ b.objectid ∨ b.objectid + b.offset ≤ a.objectid) →
      ∀ k ∈ chunk_keys K info.chunk_root, k.objectid + k.offset ≤ L) := by
  obtain ⟨_, _, _, _, _, _, _, _, _, _, _, hf, _⟩ :=
    btrfs_alloc_chunk_ok_inv K info info2 extent_root type L S h
  have hL := find_next_chunk_eq K info.chunk_root L hsorted hkeys hf
  refine ⟨hL, ?_⟩
  intro hne hdis k hk
  rw [hL]
  exact chunk_keys_end_le K info.chunk_root hsorted hne hdis k hk

/-- C12 (witness): a second chunk on the two devices of scenario 2 starts at
16 MiB, the end of the first chunk `[0, 16 MiB)`. -/
theorem btrfs_alloc_chunk_logical_start_witness :
    chunk_keys K0 ex_info_two_after.chunk_root =
        [{ objectid := 0, type := 77, offset := 16777216 }] ∧
    btrfs_alloc_chunk K0 ex_info_two_after ex_root 9 =
        .ok (.ok (16777216, 16777216), ex_info_two_after2) ∧
    16777216 = next_logical_start K0 ex_info_two_after.chunk_root ∧
    ((∀ k ∈ chunk_keys K0 ex_info_two_after.chunk_root, 1 ≤ k.offset) →
      (chunk_keys K0 ex_info_two_after.chunk_root).Pairwise
        (fun a b => a.objectid + a.offset ≤ b.objectid ∨ b.objectid + b.offset ≤ a.objectid) →
      ∀ k ∈ chunk_keys K0 ex_info_two_after.chunk_root, k.objectid + k.offset ≤ 16777216) :=
  ⟨rfl, rfl, btrfs_alloc_chunk_logical_start K0 ex_info_two_after ex_info_two_after2 ex_root 9
    16777216 16777216 (by decide) (by decide) rfl⟩

/-! ## Translation on a new chunk -/

theorem chunk_stripe_len_cases (K : ctree_consts) (type : Nat) :
    chunk_stripe_len K type = 65536 ∨ chunk_stripe_len K type = 32768 := by
  unfold chunk_stripe_len
  simp only
  by_cases h : Nat.land type (Nat.lor K.BTRFS_BLOCK_GROUP_METADATA K.BTRFS_BLOCK_GROUP_SYSTEM) ≠ 0
  · rw [if_pos h]; right; rfl
  · rw [if_neg h]
    left
    by_cases h2 : Nat.land type K.BTRFS_BLOCK_GROUP_DATA ≠ 0
    · rw [if_pos h2]; rfl
    · rw [if_neg h2]; rfl

/-- The mapping entry of a new chunk inhabits its C types. -/
theorem new_map_lookup_typed (K : ctree_consts) (extent_root : btrfs_root) (type L S : Nat)
    (ns : Int) (stripes : List (btrfs_device × Nat))
    (hL : L < 18446744073709551616) (hS : S < 18446744073709551616)
    (htype : type < 18446744073709551616) (hn0 : 0 ≤ ns) (hn1 : ns < 2147483648)
    (hlen : stripes.length = ns.toNat) (hphys : ∀ s ∈ stripes, s.2 < 18446744073709551616) :
    (new_map_lookup { objectid := L, offset := S, type := K.BTRFS_CHUNK_ITEM_KEY } extent_root
      type ns (chunk_stripe_len K type) stripes).typed := by
  unfold map_lookup.typed new_map_lookup
  simp only [List.length_map]
  refine ⟨hL, hS, htype, ?_, ?_, by omega, hn1, by omega, ?_⟩
  · rcases chunk_stripe_len_cases K type with h | h <;> rw [h] <;> decide
  · rcases chunk_stripe_len_cases K type with h | h <;> rw [h] <;> decide
  · intro s hs
    obtain ⟨a, ha, hae⟩ := List.mem_map.mp hs
    rw [← hae]
    exact hphys a ha

theorem u64_of_int_chunk_stripe_len (K : ctree_consts) (type : Nat) :
    u64_of_int (chunk_stripe_len K type) ≠ 0 := by
  rcases chunk_stripe_len_cases K type with h | h <;> rw [h] <;> decide
/-- C5: translation on a new chunk. For a well-formed mapping index, devices
with `bytes_used ≤ total_bytes` whose sizes add up to less than `2^64`, at
least one stripe (`num_devices` between 1 and `2^31 - 1` under RAID0), a
`u64` type and a chunk that ends below `2^64`: after a successful
`btrfs_alloc_chunk` returning `(L, S)`, `S ≥ 1`; `btrfs_map_block(L)` returns
the first selected device at the offset of the device extent reserved for it
(the extent of `calc_size` bytes with owner `L` that is in the device tree);
and `btrfs_map_block(L + S - 1)` returns one of the selected devices. -/
theorem btrfs_alloc_chunk_map_block (K : ctree_consts) (info info2 : btrfs_fs_info)
    (extent_root : btrfs_root) (type L S : Nat)
    (hwf : cache_tree_wf info.mapping_tree)
    (hfit : ∀ d ∈ info.devices, d.bytes_used ≤ d.total_bytes)
    (hcap : (info.devices.map (fun d => d.total_bytes)).sum < 18446744073709551616)
    (hnd : info.num_devices < 2147483648)
    (hns : 1 ≤ chunk_num_stripes K info type)
    (htype : type < 18446744073709551616)
    (hend : L + S < 18446744073709551616)
    (h : btrfs_alloc_chunk K info extent_root type = .ok (.ok (L, S), info2)) :
    1 ≤ S ∧
    ∃ (cs : Nat) (sel : List btrfs_device) (d0 : btrfs_device) (r0 r1 : block_mapping),
      sel.head? = some d0 ∧ (∀ d ∈ sel, d ∈ info.devices) ∧
      (sel.length : Int) = chunk_num_stripes K info type ∧
      btrfs_map_block K info2.mapping_tree L = .ok r0 ∧ r0.dev = d0.ptr ∧
      new_dev_extent K d0.devid L cs r0.phys ∈ info2.dev_root ∧
      btrfs_map_block K info2.mapping_tree (L + S - 1) = .ok r1 ∧
      r1.dev ∈ sel.map (fun d => d.ptr) := by
  obtain ⟨cs, sel, rest, stripes, info1, _, hperm, hav, hlen, hcs, _, _, hS, hst, hphys, _, hext,
    _, _, hmap, _⟩ := btrfs_alloc_chunk_ok_inv K info info2 extent_root type L S h
  obtain ⟨hn0, hn1⟩ := chunk_num_stripes_nonneg K info type hnd
  obtain ⟨hprod, _⟩ := selected_no_wrap info.devices sel rest cs hfit hcap hperm hav
  have hS2 : S = cs * sel.length := by
    rw [hS, u64_of_int_toNat hn0 hn1, ← hlen]
    exact u64_of_lt hprod
  have hlen1 : 1 ≤ sel.length := by omega
  have hlenI : (sel.length : Int) = chunk_num_stripes K info type := by omega
  have hSpos : 1 ≤ S := by rw [hS2]; exact Nat.mul_pos hcs hlen1
  have hslen : stripes.length = sel.length := by
    have := congrArg List.length hst
    simpa using this
  have hsel : ∀ d ∈ sel, d ∈ info.devices := fun d hd =>
    hperm.subset (List.mem_append_left _ hd)
  clear hprod hav hfit hcap hS hperm
  -- the new entry and the index after the call
  obtain ⟨m, hm⟩ : ∃ m : map_lookup, m =
      new_map_lookup { objectid := L, offset := S, type := K.BTRFS_CHUNK_ITEM_KEY } extent_root
        type (chunk_num_stripes K info type) (chunk_stripe_len K type) stripes := ⟨_, rfl⟩
  rw [← hm] at hmap
  have hty : m.typed := by
    rw [hm]
    exact new_map_lookup_typed K extent_root type L S _ stripes (by omega) (by omega) htype hn0 hn1
      (by omega) hphys
  have hstart : m.ce.start = L := by rw [hm]; rfl
  have hsize : m.ce.size = S := by rw [hm]; rfl
  have hnum : m.num_stripes = chunk_num_stripes K info type := by rw [hm]; rfl
  have hsl : m.stripe_len = chunk_stripe_len K type := by rw [hm]; rfl
  have hstr : m.stripes = stripes.map (fun s => { dev := s.1.ptr, physical := s.2 }) := by
    rw [hm]; rfl
  obtain ⟨hp, hw⟩ := insert_existing_cache_extent_ok _ _ _ hmap
  have hwf2 := hw hwf
  have hmem : m ∈ info2.mapping_tree := hp.symm.subset (List.mem_cons_self _ _)
  have hu : u64_of_int m.stripe_len ≠ 0 := by rw [hsl]; exact u64_of_int_chunk_stripe_len K type
  have hnpos : 0 < m.num_stripes := by rw [hnum]; omega
  have hsum : u64 (m.ce.start + m.ce.size) = L + S := by
    rw [hstart, hsize]; exact u64_of_lt hend
  have hf0 : find_first_cache_extent info2.mapping_tree L = some m :=
    find_first_cache_extent_of_mem _ L m hwf2 hmem (by rw [hstart]) (by rw [hstart, hsize]; omega)
  have hf1 : find_first_cache_extent info2.mapping_tree (L + S - 1) = some m :=
    find_first_cache_extent_of_mem _ (L + S - 1) m hwf2 hmem (by rw [hstart]; omega)
      (by rw [hstart, hsize]; omega)
  obtain ⟨_, s, hs, he⟩ := map_block_entry_eq K m L hty (by omega) (by rw [hstart])
    (by rw [hsum]; omega) hu hnpos
  obtain ⟨_, s1, hs1, he1⟩ := map_block_entry_eq K m (L + S - 1) hty (by omega)
    (by rw [hstart]; omega) (by rw [hsum]; omega) hu hnpos
  rw [← btrfs_map_block_eq_entry K _ _ _ hf0] at he
  rw [← btrfs_map_block_eq_entry K _ _ _ hf1] at he1
  clear hf0 hf1 hsum hwf2 hw hp hwf hmap hty
  -- the first stripe
  cases hsel0 : sel with
  | nil => rw [hsel0] at hlen1; simp at hlen1
  | cons d0 sel1 =>
    cases hstr0 : stripes with
    | nil => rw [hstr0, hsel0] at hslen; simp at hslen
    | cons s0 stripes1 =>
      have hd0 : s0.1 = bytes_used_add cs d0 := by
        rw [hstr0, hsel0] at hst
        simp only [List.map_cons, List.cons.injEq] at hst
        exact hst.1
      have hs0 : s = { dev := s0.1.ptr, physical := s0.2 } := by
        rw [hstart, Nat.sub_self, Nat.zero_div, Nat.zero_mod, hstr, hstr0] at hs
        simp only [List.map_cons, List.getElem?_cons_zero, Option.some.injEq] at hs
        exact hs.symm
      have hph : s0.2 < 18446744073709551616 := hphys s0 (by rw [hstr0]; exact List.mem_cons_self _ _)
      have hx : new_dev_extent K s0.1.devid L cs s0.2 ∈ info2.dev_root := by
        apply hext.symm.subset
        rw [hstr0]
        simp only [List.map_cons, List.cons_append]
        exact List.mem_cons_self _ _
      have hs1m : s1 ∈ m.stripes := List.mem_iff_getElem?.mpr ⟨_, hs1⟩
      refine ⟨hSpos, cs, d0 :: sel1, d0, _, _, rfl, by rw [← hsel0]; exact hsel,
        by rw [← hsel0]; exact hlenI, he, ?_, ?_, he1, ?_⟩
      · simp only
        rw [hs0, hd0]
        rfl
      · simp only
        simp only [hs0, hstart, Nat.sub_self, Nat.zero_mod, Nat.zero_div, Nat.zero_mul,
          Nat.add_zero]
        rw [u64_of_lt hph]
        rw [hd0] at hx
        exact hx
      · simp only
        rw [hstr] at hs1m
        obtain ⟨a, ha, hae⟩ := List.mem_map.mp hs1m
        rw [← hae]
        simp only
        have ha1 : a.1 ∈ stripes.map (fun s => s.1) := List.mem_map_of_mem _ ha
        rw [hst] at ha1
        obtain ⟨d, hd, hde⟩ := List.mem_map.mp ha1
        rw [← hsel0, ← hde]
        exact List.mem_map_of_mem (fun d => d.ptr) hd

/-- C5 (witness): scenario 1, one device of 1 GiB and `DATA`: the call returns
`(0, 8 MiB)`, and `btrfs_map_block(0)` is `(dev1, 0, 8 MiB)`. -/
theorem btrfs_alloc_chunk_map_block_witness :
    btrfs_alloc_chunk K0 ex_info_single ex_root 1 =
        .ok (.ok (0, 8388608), ex_info_single_after) ∧
    btrfs_map_block K0 ex_info_single_after.mapping_tree 0 =
        .ok { dev := 1, phys := 0, length := 8388608 } ∧
    1 ≤ 8388608 ∧
    ∃ (cs : Nat) (sel : List btrfs_device) (d0 : btrfs_device) (r0 r1 : block_mapping),
      sel.head? = some d0 ∧ (∀ d ∈ sel, d ∈ ex_info_single.devices) ∧
      (sel.length : Int) = chunk_num_stripes K0 ex_info_single 1 ∧
      btrfs_map_block K0 ex_info_single_after.mapping_tree 0 = .ok r0 ∧ r0.dev = d0.ptr ∧
      new_dev_extent K0 d0.devid 0 cs r0.phys ∈ ex_info_single_after.dev_root ∧
      btrfs_map_block K0 ex_info_single_after.mapping_tree (0 + 8388608 - 1) = .ok r1 ∧
      r1.dev ∈ sel.map (fun d => d.ptr) :=
  ⟨rfl, rfl, btrfs_alloc_chunk_map_block K0 ex_info_single ex_info_single_after ex_root 1 0 8388608
    (by decide) (by decide) (by decide) (by decide) (by decide) (by decide) (by decide) rfl⟩

/-! ## Device registry -/

theorem device_list_update_latest (f : btrfs_fs_devices) (device : Option btrfs_device)
    (new_ptr : Nat) (path : String) (gen devid : Nat) :
    (device_list_update f device new_ptr path gen devid).fsid = f.fsid ∧
    (device_list_update f device new_ptr path gen devid).latest_trans =
      (if gen > f.latest_trans then gen else f.latest_trans) ∧
    (device_list_update f device new_ptr path gen devid).latest_devid =
      (if gen > f.latest_trans then devid else f.latest_devid) := by
  unfold device_list_update
  cases device <;> simp only <;> split <;> split <;> simp_all

theorem find_fsid_replace_first (fsid : List Nat) (f2 : btrfs_fs_devices) (h2 : f2.fsid = fsid) :
    ∀ (l : List btrfs_fs_devices) (f : btrfs_fs_devices), find_fsid l fsid = some f →
      find_fsid (replace_first (fun x => decide (fsid = x.fsid)) f2 l) fsid = some f2 := by
  intro l
  induction l with
  | nil => intro f h; simp [find_fsid] at h
  | cons a rest ih =>
    intro f h
    unfold find_fsid at h ⊢
    unfold replace_first
    by_cases hc : fsid = a.fsid
    · simp only [hc, decide_True, if_true, List.find?_cons_of_pos]
      rw [List.find?_cons_of_pos]
      simpa using (hc ▸ h2.symm)
    · have hd : decide (fsid = a.fsid) = false := by simpa using hc
      rw [List.find?_cons_of_neg _ (by simpa using hc)] at h
      simp only [hd, Bool.false_eq_true, if_false]
      rw [List.find?_cons_of_neg _ (by simpa using hc)]
      exact ih f h

/-- One call on a filesystem already known: the entry of the filesystem is
found again, with `latest_trans` the larger generation and `latest_devid`
moved with it. -/
theorem device_list_add_known (fs_uuids : List btrfs_fs_devices) (c : scan_call)
    (fsid : List Nat) (f : btrfs_fs_devices) (h : find_fsid fs_uuids fsid = some f) :
    ∃ f2, find_fsid (device_list_add fs_uuids c.new_ptr c.path
        { fsid := fsid, generation := c.generation, sys_array_size := 0, sys_chunk_array := [] }
        c.devid).1 fsid = some f2 ∧
      f2.latest_trans = (if c.generation > f.latest_trans then c.generation else f.latest_trans) ∧
      f2.latest_devid = (if c.generation > f.latest_trans then c.devid else f.latest_devid) := by
  unfold device_list_add
  simp only [h]
  obtain ⟨e1, e2, e3⟩ := device_list_update_latest f (find_device f.devices c.devid) c.new_ptr
    c.path c.generation c.devid
  have hf : f.fsid = fsid := by
    unfold find_fsid at h
    have h0 := List.find?_some h
    have h1 : fsid = f.fsid := by simpa using h0
    exact h1.symm
  exact ⟨_, find_fsid_replace_first fsid _ (by rw [e1, hf]) fs_uuids f h, e2, e3⟩

theorem device_list_add_all_known (fsid : List Nat) :
    ∀ (calls : List scan_call) (fs_uuids : List btrfs_fs_devices) (f : btrfs_fs_devices),
      find_fsid fs_uuids fsid = some f →
      ∃ f2, find_fsid (device_list_add_all fsid fs_uuids calls) fsid = some f2 ∧
        f.latest_trans ≤ f2.latest_trans ∧
        (∀ c ∈ calls, c.generation ≤ f2.latest_trans) ∧
        ((f2.latest_trans = f.latest_trans ∧ f2.latest_devid = f.latest_devid) ∨
          ∃ c ∈ calls, c.generation = f2.latest_trans ∧ c.devid = f2.latest_devid) := by
  intro calls
  induction calls with
  | nil =>
    intro fs_uuids f h
    exact ⟨f, h, Nat.le_refl _, by simp, Or.inl ⟨rfl, rfl⟩⟩
  | cons c rest ih =>
    intro fs_uuids f h
    obtain ⟨f1, h1, e1, e2⟩ := device_list_add_known fs_uuids c fsid f h
    obtain ⟨f2, h2, g1, g2, g3⟩ := ih _ f1 h1
    refine ⟨f2, h2, ?_, ?_, ?_⟩
    · by_cases hc : c.generation > f.latest_trans
      · rw [if_pos hc] at e1; omega
      · rw [if_neg hc] at e1; omega
    · intro x hx
      rcases List.mem_cons.mp hx with h0 | h0
      · rw [h0]
        by_cases hc : c.generation > f.latest_trans
        · rw [if_pos hc] at e1; omega
        · rw [if_neg hc] at e1; omega
      · exact g2 x h0
    · rcases g3 with ⟨g4, g5⟩ | ⟨x, hx, g4, g5⟩
      · by_cases hc : c.generation > f.latest_trans
        · rw [if_pos hc] at e1 e2
          exact Or.inr ⟨c, List.mem_cons_self _ _, by rw [g4, e1], by rw [g5, e2]⟩
        · rw [if_neg hc] at e1 e2
          exact Or.inl ⟨by rw [g4, e1], by rw [g5, e2]⟩
      · exact Or.inr ⟨x, List.mem_cons_of_mem _ hx, g4, g5⟩

/-- C13: `latest_trans` and `latest_devid` after device scans. After a
non-empty sequence of `device_list_add` calls for a filesystem that was not
known before, the entry of the filesystem has `latest_trans` equal to the
largest generation passed (no call passed a larger one, and one call passed
it) and `latest_devid` is the devid of a call that passed that generation.
In every single call on a known filesystem the two fields either both stay or
both become the devid and the generation of the call. -/
theorem device_list_add_latest (fsid : List Nat) (fs_uuids : List btrfs_fs_devices)
    (calls : List scan_call) (hnew : find_fsid fs_uuids fsid = none) (hne : calls ≠ []) :
    (∃ f, find_fsid (device_list_add_all fsid fs_uuids calls) fsid = some f ∧
      (∀ c ∈ calls, c.generation ≤ f.latest_trans) ∧
      (∃ c ∈ calls, c.generation = f.latest_trans ∧ c.devid = f.latest_devid)) ∧
    (∀ (l : List btrfs_fs_devices) (c : scan_call) (f : btrfs_fs_devices),
      find_fsid l fsid = some f →
      ∃ f2, find_fsid (device_list_add l c.new_ptr c.path
          { fsid := fsid, generation := c.generation, sys_array_size := 0,
            sys_chunk_array := [] } c.devid).1 fsid = some f2 ∧
        ((f2.latest_trans = f.latest_trans ∧ f2.latest_devid = f.latest_devid) ∨
          (f2.latest_trans = c.generation ∧ f2.latest_devid = c.devid))) := by
  constructor
  · cases calls with
    | nil => exact absurd rfl hne
    | cons c rest =>
      -- the first call creates the entry
      have h1 : ∃ f1, find_fsid (device_list_add fs_uuids c.new_ptr c.path
          { fsid := fsid, generation := c.generation, sys_array_size := 0,
            sys_chunk_array := [] } c.devid).1 fsid = some f1 ∧
          f1.latest_trans = c.generation ∧ f1.latest_devid = c.devid := by
        unfold device_list_add
        simp only [hnew]
        obtain ⟨e1, e2, e3⟩ := device_list_update_latest
          { fsid := fsid, latest_devid := c.devid, latest_trans := c.generation,
            lowest_devid := 18446744073709551615, latest_bdev := 0, lowest_bdev := 0,
            devices := [] } none c.new_ptr c.path c.generation c.devid
        simp only [gt_iff_lt, Nat.lt_irrefl, if_false] at e2 e3
        refine ⟨_, ?_, e2, e3⟩
        unfold find_fsid list_add
        rw [List.find?_cons_of_pos]
        simpa using e1.symm
      obtain ⟨f1, hf1, e1, e2⟩ := h1
      obtain ⟨f2, h2, g1, g2, g3⟩ := device_list_add_all_known fsid rest _ f1 hf1
      refine ⟨f2, h2, ?_, ?_⟩
      · intro x hx
        rcases List.mem_cons.mp hx with h0 | h0
        · rw [h0]; omega
        · exact g2 x h0
      · rcases g3 with ⟨g4, g5⟩ | ⟨x, hx, g4, g5⟩
        · exact ⟨c, List.mem_cons_self _ _, by rw [g4, e1], by rw [g5, e2]⟩
        · exact ⟨x, List.mem_cons_of_mem _ hx, g4, g5⟩
  · intro l c f h
    obtain ⟨f2, h2, e1, e2⟩ := device_list_add_known l c fsid f h
    refine ⟨f2, h2, ?_⟩
    by_cases hc : c.generation > f.latest_trans
    · rw [if_pos hc] at e1 e2; exact Or.inr ⟨e1, e2⟩
    · rw [if_neg hc] at e1 e2; exact Or.inl ⟨e1, e2⟩

/-- C13 (witness): three scans with generations 5, 9, 9 and devids 1, 2, 3:
`latest_trans` is 9 and `latest_devid` is 2. -/
theorem device_list_add_latest_witness :
    (find_fsid (device_list_add_all [1] [] ex_scans) [1]).map
        (fun f => (f.latest_trans, f.latest_devid)) = some (9, 2) ∧
    ∃ f, find_fsid (device_list_add_all [1] [] ex_scans) [1] = some f ∧
      (∀ c ∈ ex_scans, c.generation ≤ f.latest_trans) ∧
      (∃ c ∈ ex_scans, c.generation = f.latest_trans ∧ c.devid = f.latest_devid) :=
  ⟨rfl, (device_list_add_latest [1] [] ex_scans rfl (by decide)).1⟩

/-- C18 (failing input): `btrfs_close_devices` stores 0 in `fd` of every
device and changes no other field; 0 is not negative, it is a descriptor a
process can hold. The same is left by `btrfs_open_devices` when an `open`
fails: on a filesystem whose second device cannot be opened the call returns
the error and every stored descriptor is 0. -/
theorem btrfs_close_devices_fd_zero (fs_devices : btrfs_fs_devices) :
    (btrfs_close_devices fs_devices).devices =
        fs_devices.devices.map (fun d => { d with fd := 0 }) ∧
    (∀ d ∈ (btrfs_close_devices fs_devices).devices, d.fd = 0 ∧ ¬ d.fd < 0) ∧
    (btrfs_close_devices ex_fs_devices).devices.map (fun d => d.fd) = [0, 0] ∧
    (btrfs_open_devices ex_sys_open ex_fs_devices_bad).1 = .error errno.ENOENT ∧
    (btrfs_open_devices ex_sys_open ex_fs_devices_bad).2.devices.map (fun d => d.fd) = [0, 0] := by
  refine ⟨rfl, ?_, rfl, rfl, rfl⟩
  intro d hd
  unfold btrfs_close_devices at hd
  obtain ⟨a, _, hae⟩ := List.mem_map.mp hd
  rw [← hae]
  exact ⟨rfl, Int.lt_irrefl 0⟩

/-! ## System chunk array and catalog reader -/

/-- C14 (failing input): the stored size 1984 is below the cap of 2048 bytes
and `1984 + 64 ≤ 2048` passes the test of `btrfs_add_system_chunk`, which does
not count the 17 bytes of the disk key; the key is written at bytes
`[1984, 2001)` and the copy of the 64 bytes of the chunk item to
`[2001, 2065)` runs past the end of the array. The size the function would
store is 2065, above the cap. -/
theorem btrfs_add_system_chunk_overflow :
    ex_super_full.sys_array_size ≤ K0.BTRFS_SYSTEM_CHUNK_ARRAY_SIZE ∧
    ex_super_full.sys_chunk_array.length = K0.BTRFS_SYSTEM_CHUNK_ARRAY_SIZE ∧
    btrfs_add_system_chunk K0 ex_super_full { objectid := 0, type := 77, offset := 8388608 }
        (List.replicate 64 0) 64 = .error fault.out_of_bounds ∧
    u32 (ex_super_full.sys_array_size + u32_of_int 64) ≤ K0.BTRFS_SYSTEM_CHUNK_ARRAY_SIZE ∧
    u32 (ex_super_full.sys_array_size + u32_of_int (64 + sizeof_disk_key)) = 2065 ∧
    K0.BTRFS_SYSTEM_CHUNK_ARRAY_SIZE < 2065 := by
  have hlen : ex_super_full.sys_chunk_array.length = 2048 := List.length_replicate _ _
  refine ⟨by decide, hlen, ?_, by decide, rfl, by decide⟩
  have h1 : u32 (ex_super_full.sys_array_size + u32_of_int 64) = 2048 := rfl
  have h2 : (btrfs_cpu_key_to_disk { objectid := 0, type := 77, offset := 8388608 }).length = 17 :=
    rfl
  have h3 : ex_super_full.sys_array_size = 1984 := rfl
  have h4 : K0.BTRFS_SYSTEM_CHUNK_ARRAY_SIZE = 2048 := rfl
  unfold btrfs_add_system_chunk memcpy
  simp [h1, h2, h3, h4, hlen, sizeof_disk_key]
  decide

/-- C15 (failing input): the chunk tree holds the dev item of devid 1 and a
chunk item whose second stripe names devid 2, which is not in the device list
after the pass over the dev items. `read_one_chunk` returns `EIO` for the
chunk item; `btrfs_read_chunk_tree` returns 0 all the same and leaves the
mapping tree empty. -/
theorem btrfs_read_chunk_tree_missing_device :
    find_device ex_info_missing.devices 2 = none ∧
    read_one_chunk ex_info_missing { objectid := 0, type := 77, offset := 16777216 }
        { owner := 2, stripe_len := 65536, type := 9, io_align := 65536, io_width := 65536,
          sector_size := 4096, num_stripes := 2,
          stripes := [{ devid := 1, offset := 0 }, { devid := 2, offset := 0 }] } =
      .ok (.error errno.EIO) ∧
    btrfs_read_chunk_tree K0 [] ex_info_missing = some (.ok ([], ex_info_missing)) ∧
    ex_info_missing.mapping_tree = [] := by
  refine ⟨rfl, rfl, rfl, rfl⟩

/-! ## Round trip of a chunk item -/

theorem find_device_of_nodup :
    ∀ (l : List btrfs_device) (d : btrfs_device), (l.map (fun x => x.devid)).Nodup → d ∈ l →
      find_device l d.devid = some d := by
  intro l
  induction l with
  | nil => intro d _ hd; simp at hd
  | cons a rest ih =>
    intro d hn hd
    rw [List.map_cons, List.nodup_cons] at hn
    unfold find_device
    by_cases hc : a.devid = d.devid
    · rw [List.find?_cons_of_pos _ (by simpa using hc)]
      rcases List.mem_cons.mp hd with h0 | h0
      · rw [h0]
      · exfalso
        apply hn.1
        rw [hc]
        exact List.mem_map_of_mem (fun x => x.devid) h0
    · rw [List.find?_cons_of_neg _ (by simpa using hc)]
      rcases List.mem_cons.mp hd with h0 | h0
      · exact absurd (by rw [h0]) hc
      · exact ih d hn.2 h0

theorem read_stripes_of_devices (devices : List btrfs_device) :
    ∀ (stripes : List (btrfs_device × Nat)),
      (∀ s ∈ stripes, find_device devices s.1.devid = some s.1) →
      read_stripes devices stripes.length
          (stripes.map (fun s => ({ devid := s.1.devid, offset := s.2 } : btrfs_stripe))) =
        .ok (.ok (stripes.map (fun s => ({ dev := s.1.ptr, physical := s.2 } : stripe)))) := by
  intro stripes
  induction stripes with
  | nil => intro _; rfl
  | cons s rest ih =>
    intro h
    have h1 := h s (List.mem_cons_self _ _)
    have h2 := ih (fun x hx => h x (List.mem_cons_of_mem _ hx))
    simp only [List.length_cons, List.map_cons, read_stripes, h1, h2]

theorem int_of_u16_of_int {i : Int} (h0 : 0 ≤ i) (h1 : i < 65536) :
    int_of_u64 (u16_of_int i) = i := by
  unfold int_of_u64 u16_of_int
  omega

theorem chunk_stripe_len_conv (K : ctree_consts) (type : Nat) :
    int_of_u64 (u64_of_int (chunk_stripe_len K type)) = chunk_stripe_len K type ∧
    int_of_u64 (u32_of_int (chunk_stripe_len K type)) = chunk_stripe_len K type := by
  rcases chunk_stripe_len_cases K type with h | h <;> rw [h] <;> exact ⟨by decide, by decide⟩

/-- `read_one_chunk` on an empty mapping index installs the entry of the
chunk when all its stripes resolve. -/
theorem read_one_chunk_empty (info : btrfs_fs_info) (key : btrfs_key) (chunk : btrfs_chunk)
    (stripes : List stripe) (hm : info.mapping_tree = [])
    (hrs : read_stripes info.devices (int_of_u64 chunk.num_stripes).toNat chunk.stripes =
      .ok (.ok stripes)) :
    read_one_chunk info key chunk =
      .ok (.ok { info with mapping_tree := [chunk_map_lookup key chunk stripes] }) := by
  unfold read_one_chunk
  rw [hm, hrs]
  rfl

/-- C17: round trip of the chunk record. For devices with distinct devids and
`num_devices` below `2^16` (the width of the on-disk `num_stripes`), the chunk
item that a successful `btrfs_alloc_chunk` inserted under the key
`(start, CHUNK_ITEM_KEY, num_bytes)`, read by `read_one_chunk` against the
devices after the call and an empty mapping index, installs exactly the mapping
entry `m` that `btrfs_alloc_chunk` installed for the chunk: all fields and all
stripes are equal. -/
theorem btrfs_alloc_chunk_round_trip (K : ctree_consts) (info info2 : btrfs_fs_info)
    (extent_root : btrfs_root) (type L S : Nat)
    (hdevid : (info.devices.map (fun d => d.devid)).Nodup)
    (hnd : info.num_devices < 65536)
    (h : btrfs_alloc_chunk K info extent_root type = .ok (.ok (L, S), info2)) :
    ∃ (c : btrfs_chunk) (m : map_lookup),
      ({ key := { objectid := L, type := K.BTRFS_CHUNK_ITEM_KEY, offset := S },
         data := item_data.chunk c } : btrfs_item) ∈ info2.chunk_root ∧
      m ∈ info2.mapping_tree ∧ m.ce.start = L ∧ m.ce.size = S ∧
      read_one_chunk { info2 with mapping_tree := [] }
          { objectid := L, type := K.BTRFS_CHUNK_ITEM_KEY, offset := S } c =
        .ok (.ok { info2 with mapping_tree := [m] }) := by
  obtain ⟨cs, sel, rest, stripes, info1, _, hperm, _, hlen, _, _, _, _, hst, _, hdev, _,
    _, hins, hmap, _⟩ := btrfs_alloc_chunk_ok_inv K info info2 extent_root type L S h
  have hns : 0 ≤ chunk_num_stripes K info type ∧ chunk_num_stripes K info type < 65536 := by
    unfold chunk_num_stripes
    by_cases hr : Nat.land type K.BTRFS_BLOCK_GROUP_RAID0 ≠ 0
    · rw [if_pos hr, int_of_u64_of_lt (by omega)]; omega
    · rw [if_neg hr]; omega
  have hslen : stripes.length = (chunk_num_stripes K info type).toNat := by
    have := congrArg List.length hst
    simp only [List.length_map] at this
    omega
  -- the devices after the call have distinct devids and hold the devices of the stripes
  have hdevid2 : (info2.devices.map (fun d => d.devid)).Nodup := by
    have hp : (info2.devices.map (fun d => d.devid)).Perm (info.devices.map (fun d => d.devid)) := by
      rw [hdev, List.map_append, List.map_map]
      have e : (fun d : btrfs_device => d.devid) ∘ bytes_used_add cs = fun d => d.devid := rfl
      rw [e, ← List.map_append]
      exact (List.perm_append_comm.trans hperm).map _
    exact hp.nodup_iff.mpr hdevid
  have hfind : ∀ s ∈ stripes, find_device info2.devices s.1.devid = some s.1 := by
    intro s hs
    apply find_device_of_nodup _ _ hdevid2
    rw [hdev]
    apply List.mem_append_right
    rw [← hst]
    exact List.mem_map_of_mem (fun s => s.1) hs
  have hrs := read_stripes_of_devices info2.devices stripes hfind
  obtain ⟨hc1, hc2⟩ := chunk_stripe_len_conv K type
  refine ⟨new_chunk_item extent_root type (chunk_num_stripes K info type) (chunk_stripe_len K type)
      stripes, _, (btrfs_insert_item_perm _ _ _ _ hins).symm.subset (List.mem_cons_self _ _),
    (insert_existing_cache_extent_ok _ _ _ hmap).1.symm.subset (List.mem_cons_self _ _), rfl, rfl,
    ?_⟩
  have hn : (int_of_u64 (new_chunk_item extent_root type (chunk_num_stripes K info type)
      (chunk_stripe_len K type) stripes).num_stripes).toNat = stripes.length := by
    show (int_of_u64 (u16_of_int (chunk_num_stripes K info type))).toNat = stripes.length
    rw [int_of_u16_of_int hns.1 hns.2, hslen]
  have hm : chunk_map_lookup { objectid := L, type := K.BTRFS_CHUNK_ITEM_KEY, offset := S }
      (new_chunk_item extent_root type (chunk_num_stripes K info type) (chunk_stripe_len K type)
        stripes) (stripes.map (fun s => ({ dev := s.1.ptr, physical := s.2 } : stripe))) =
      new_map_lookup { objectid := L, offset := S, type := K.BTRFS_CHUNK_ITEM_KEY } extent_root
        type (chunk_num_stripes K info type) (chunk_stripe_len K type) stripes := by
    unfold chunk_map_lookup new_chunk_item new_map_lookup
    rw [int_of_u16_of_int hns.1 hns.2, hc1, hc2]
  rw [← hm]
  apply read_one_chunk_empty _ _ _ _ rfl
  rw [hn]
  exact hrs

/-- C17 (witness): scenario 2: the chunk item of the chunk `[0, 16 MiB)`
allocated on two devices is read back to the mapping entry installed. -/
theorem btrfs_alloc_chunk_round_trip_witness :
    btrfs_alloc_chunk K0 ex_info_two ex_root 9 = .ok (.ok (0, 16777216), ex_info_two_after) ∧
    ∃ (c : btrfs_chunk) (m : map_lookup),
      ({ key := { objectid := 0, type := K0.BTRFS_CHUNK_ITEM_KEY, offset := 16777216 },
         data := item_data.chunk c } : btrfs_item) ∈ ex_info_two_after.chunk_root ∧
      m ∈ ex_info_two_after.mapping_tree ∧ m.ce.start = 0 ∧ m.ce.size = 16777216 ∧
      read_one_chunk { ex_info_two_after with mapping_tree := [] }
          { objectid := 0, type := K0.BTRFS_CHUNK_ITEM_KEY, offset := 16777216 } c =
        .ok (.ok { ex_info_two_after with mapping_tree := [m] }) :=
  ⟨rfl, btrfs_alloc_chunk_round_trip K0 ex_info_two ex_info_two_after ex_root 9 0 16777216
    (by decide) (by decide) rfl⟩

/-! ## The mapping index after the mount -/

theorem read_stripes_resolve (devices : List btrfs_device) :
    ∀ (n : Nat) (stripes : List btrfs_stripe), n ≤ stripes.length →
      (∀ s ∈ stripes.take n, (find_device devices s.devid).isSome = true) →
      ∃ l, read_stripes devices n stripes = .ok (.ok l) := by
  intro n
  induction n with
  | zero => intro stripes _ _; exact ⟨[], rfl⟩
  | succ n ih =>
    intro stripes hlen h
    cases stripes with
    | nil => simp at hlen
    | cons s rest =>
      have h1 := h s (by simp)
      obtain ⟨dev, hdev⟩ := Option.isSome_iff_exists.mp h1
      obtain ⟨l, hl⟩ := ih rest (by simpa using hlen)
        (fun x hx => h x (by rw [List.take_succ_cons]; exact List.mem_cons_of_mem _ hx))
      exact ⟨{ dev := dev.ptr, physical := s.offset } :: l, by
        simp only [read_stripes, hdev, hl]⟩

/-- The insertion into the interval cache succeeds for an interval that
overlaps no entry. -/
theorem insert_existing_cache_extent_disjoint :
    ∀ (t : cache_tree) (m : map_lookup),
      (∀ e ∈ t, e.ce.start + e.ce.size ≤ m.ce.start ∨ m.ce.start + m.ce.size ≤ e.ce.start) →
      ∃ t1, insert_existing_cache_extent t m = .ok t1 := by
  intro t
  induction t with
  | nil => intro m _; exact ⟨[m], rfl⟩
  | cons e rest ih =>
    intro m h
    unfold insert_existing_cache_extent
    by_cases h1 : m.ce.start + m.ce.size ≤ e.ce.start
    · rw [if_pos h1]; exact ⟨_, rfl⟩
    · rw [if_neg h1]
      have h2 : e.ce.start + e.ce.size ≤ m.ce.start := by
        rcases h e (List.mem_cons_self _ _) with h0 | h0
        · exact h0
        · exact absurd h0 h1
      rw [if_pos h2]
      obtain ⟨t1, ht1⟩ := ih m (fun x hx => h x (List.mem_cons_of_mem _ hx))
      rw [ht1]
      exact ⟨_, rfl⟩

theorem find_first_cache_extent_le :
    ∀ (t : cache_tree) (logical : Nat) (m : map_lookup),
      find_first_cache_extent t logical = some m → m.ce.start ≤ logical := by
  intro t
  induction t with
  | nil => intro logical m h; simp [find_first_cache_extent] at h
  | cons a rest ih =>
    intro logical m h
    unfold find_first_cache_extent at h
    by_cases hc : a.ce.start ≤ logical
    · rw [if_pos hc] at h
      cases hr : find_first_cache_extent rest logical with
      | none =>
        rw [hr] at h
        simp only [Option.some.injEq] at h
        rw [← h]; exact hc
      | some m2 =>
        rw [hr] at h
        simp only [Option.some.injEq] at h
        rw [← h]; exact ih logical m2 hr
    · rw [if_neg hc] at h
      exact absurd h (by simp)

theorem u64_le_self (x : Nat) : u64 x ≤ x := by
  unfold u64; exact Nat.mod_le _ _

/-- One call of `read_one_chunk` for a chunk that is the interval of an entry
of the index or overlaps none: the call returns 0, the index stays well-formed
and gains the interval of the chunk if it did not hold it; nothing else
changes. A chunk already mapped leaves the state as it is. -/
theorem read_one_chunk_step (info : btrfs_fs_info) (key : btrfs_key) (chunk : btrfs_chunk)
    (hwf : cache_tree_wf info.mapping_tree)
    (hz : 1 ≤ key.offset) (hend : key.objectid + key.offset < 18446744073709551616)
    (hcompat : ∀ m ∈ info.mapping_tree,
      (m.ce.start, m.ce.size) = (key.objectid, key.offset) ∨
        m.ce.start + m.ce.size ≤ key.objectid ∨ key.objectid + key.offset ≤ m.ce.start)
    (hres : stripes_resolve info.devices chunk) :
    ∃ info1, read_one_chunk info key chunk = .ok (.ok info1) ∧
      info1.devices = info.devices ∧ info1.chunk_root = info.chunk_root ∧
      cache_tree_wf info1.mapping_tree ∧
      (∀ p, p ∈ index_pairs info1.mapping_tree ↔
        p = (key.objectid, key.offset) ∨ p ∈ index_pairs info.mapping_tree) ∧
      ((key.objectid, key.offset) ∈ index_pairs info.mapping_tree → info1 = info) := by
  by_cases hin : (key.objectid, key.offset) ∈ index_pairs info.mapping_tree
  · -- already mapped
    obtain ⟨m, hm, hme⟩ := List.mem_map.mp hin
    have hs : m.ce.start = key.objectid := congrArg Prod.fst hme
    have hsz : m.ce.size = key.offset := congrArg Prod.snd hme
    have hf : find_first_cache_extent info.mapping_tree key.objectid = some m :=
      find_first_cache_extent_of_mem _ _ m hwf hm (by omega) (by omega)
    refine ⟨info, ?_, rfl, rfl, hwf, ?_, fun _ => rfl⟩
    · unfold read_one_chunk
      simp only [hf]
      have h1 : decide (m.ce.start ≤ key.objectid) = true := by simpa using Nat.le_of_eq hs
      have h2 : decide (u64 (m.ce.start + m.ce.size) > key.objectid) = true := by
        rw [hs, hsz, u64_of_lt hend]
        simpa using hz
      rw [h1, h2]
      rfl
    · intro p
      constructor
      · intro hp; exact Or.inr hp
      · intro hp
        rcases hp with hp | hp
        · rw [hp]; exact hin
        · exact hp
  · -- a new interval, disjoint from every entry
    have hdis : ∀ m ∈ info.mapping_tree,
        m.ce.start + m.ce.size ≤ key.objectid ∨ key.objectid + key.offset ≤ m.ce.start := by
      intro m hm
      rcases hcompat m hm with h0 | h0
      · exact absurd (List.mem_map.mpr ⟨m, hm, h0⟩) hin
      · exact h0
    have hmapped : (match find_first_cache_extent info.mapping_tree key.objectid with
        | none => false
        | some ce => decide (ce.ce.start ≤ key.objectid) &&
            decide (u64 (ce.ce.start + ce.ce.size) > key.objectid)) = false := by
      cases hf : find_first_cache_extent info.mapping_tree key.objectid with
      | none => rfl
      | some m =>
        simp only
        have hm := find_first_cache_extent_mem _ _ _ hf
        have hle := find_first_cache_extent_le _ _ _ hf
        have h3 : m.ce.start + m.ce.size ≤ key.objectid := by
          rcases hdis m hm with h0 | h0
          · exact h0
          · omega
        have h4 := u64_le_self (m.ce.start + m.ce.size)
        have h5 : decide (u64 (m.ce.start + m.ce.size) > key.objectid) = false := by
          simp only [gt_iff_lt, decide_eq_false_iff_not]
          omega
        rw [h5, Bool.and_false]
    obtain ⟨l, hl⟩ := read_stripes_resolve info.devices _ _ hres.1 hres.2
    obtain ⟨t1, ht1⟩ := insert_existing_cache_extent_disjoint info.mapping_tree
      (chunk_map_lookup key chunk l) hdis
    obtain ⟨hp, hw⟩ := insert_existing_cache_extent_ok _ _ _ ht1
    refine ⟨{ info with mapping_tree := t1 }, ?_, rfl, rfl, hw hwf, ?_, fun h => absurd h hin⟩
    · unfold read_one_chunk
      simp only [hmapped, Bool.false_eq_true, if_false, hl, ht1]
    · intro p
      have hpp : (index_pairs t1).Perm ((key.objectid, key.offset) :: index_pairs info.mapping_tree) :=
        hp.map _
      rw [hpp.mem_iff, List.mem_cons]
/-- The step of `read_one_chunk` inside a family `U` of chunks that are the
same interval or do not overlap. -/
theorem read_one_chunk_in (U : List (Nat × Nat)) (hU : chunks_disjoint U) (info : btrfs_fs_info)
    (key : btrfs_key) (chunk : btrfs_chunk)
    (hwf : cache_tree_wf info.mapping_tree)
    (hsub : ∀ p ∈ index_pairs info.mapping_tree, p ∈ U)
    (hkey : (key.objectid, key.offset) ∈ U)
    (hres : stripes_resolve info.devices chunk) :
    ∃ info1, read_one_chunk info key chunk = .ok (.ok info1) ∧
      info1.devices = info.devices ∧ info1.chunk_root = info.chunk_root ∧
      cache_tree_wf info1.mapping_tree ∧
      (∀ p ∈ index_pairs info1.mapping_tree, p ∈ U) ∧
      (∀ p, p ∈ index_pairs info1.mapping_tree ↔
        p = (key.objectid, key.offset) ∨ p ∈ index_pairs info.mapping_tree) := by
  have hk := hU.1 _ hkey
  have hcompat : ∀ m ∈ info.mapping_tree,
      (m.ce.start, m.ce.size) = (key.objectid, key.offset) ∨
        m.ce.start + m.ce.size ≤ key.objectid ∨ key.objectid + key.offset ≤ m.ce.start := by
    intro m hm
    exact hU.2 _ (hsub _ (List.mem_map_of_mem (fun m => (m.ce.start, m.ce.size)) hm)) _ hkey
  obtain ⟨info1, h1, h2, h3, h4, h5, _⟩ :=
    read_one_chunk_step info key chunk hwf hk.1 hk.2 hcompat hres
  refine ⟨info1, h1, h2, h3, h4, ?_, h5⟩
  intro p hp
  rcases (h5 p).mp hp with h0 | h0
  · rw [h0]; exact hkey
  · exact hsub p h0

/-- `btrfs_read_sys_array` installs the chunks of the array: on an array whose
entries are read as `entries`, all in the family `U` and with stripes that
resolve, the loop returns, and the index holds the intervals it held and those
of the entries. -/
theorem read_sys_array_loop_entries (K : ctree_consts) (super_copy : btrfs_super_block)
    (U : List (Nat × Nat)) (hU : chunks_disjoint U) :
    ∀ (fuel pos cur : Nat) (info : btrfs_fs_info) (entries : List (btrfs_key × btrfs_chunk)),
      sys_array_entries_loop K super_copy fuel pos cur = some entries →
      (∀ p ∈ chunk_pairs entries, p ∈ U) →
      (∀ e ∈ entries, stripes_resolve info.devices e.2) →
      cache_tree_wf info.mapping_tree →
      (∀ p ∈ index_pairs info.mapping_tree, p ∈ U) →
      ∃ info1, read_sys_array_loop K super_copy fuel pos cur info = some (.ok info1) ∧
        info1.devices = info.devices ∧ info1.chunk_root = info.chunk_root ∧
        cache_tree_wf info1.mapping_tree ∧
        (∀ p ∈ index_pairs info1.mapping_tree, p ∈ U) ∧
        (∀ p, p ∈ index_pairs info1.mapping_tree ↔
          p ∈ chunk_pairs entries ∨ p ∈ index_pairs info.mapping_tree) := by
  intro fuel
  induction fuel with
  | zero =>
    intro pos cur info entries he _ _ hwf hsub
    unfold sys_array_entries_loop at he
    unfold read_sys_array_loop
    by_cases hc : cur < super_copy.sys_array_size
    · rw [if_pos hc] at he; exact absurd he (by simp)
    · rw [if_neg hc] at he ⊢
      simp only [Option.some.injEq] at he
      rw [← he]
      exact ⟨info, rfl, rfl, rfl, hwf, hsub, by simp [chunk_pairs]⟩
  | succ fuel ih =>
    intro pos cur info entries he hin hres hwf hsub
    unfold sys_array_entries_loop at he
    unfold read_sys_array_loop
    by_cases hc : cur < super_copy.sys_array_size
    · rw [if_pos hc] at he ⊢
      cases hk : btrfs_disk_key_to_cpu super_copy.sys_chunk_array pos with
      | none => rw [hk] at he; exact absurd he (by simp)
      | some key =>
        rw [hk] at he
        simp only at he ⊢
        by_cases ht : key.type = K.BTRFS_CHUNK_ITEM_KEY
        · rw [if_pos ht] at he ⊢
          cases hch : btrfs_chunk_at super_copy.sys_chunk_array (pos + sizeof_disk_key) with
          | none => rw [hch] at he; exact absurd he (by simp)
          | some chunk =>
            rw [hch] at he
            simp only at he ⊢
            cases hrec : sys_array_entries_loop K super_copy fuel
                (pos + sizeof_disk_key + u32 (btrfs_chunk_item_size chunk.num_stripes))
                (u32 (u32 (cur + sizeof_disk_key) +
                  u32 (btrfs_chunk_item_size chunk.num_stripes))) with
            | none => rw [hrec] at he; exact absurd he (by simp)
            | some l =>
              rw [hrec] at he
              simp only [Option.some.injEq] at he
              rw [← he] at hin hres
              obtain ⟨info1, h1, h2, h3, h4, h5, h6⟩ := read_one_chunk_in U hU info key chunk hwf
                hsub (hin _ (by simp [chunk_pairs])) (hres (key, chunk) (List.mem_cons_self _ _))
              obtain ⟨info2, g1, g2, g3, g4, g5, g6⟩ := ih _ _ info1 l hrec
                (fun p hp => hin p (by
                  unfold chunk_pairs at hp ⊢
                  rw [List.map_cons]; exact List.mem_cons_of_mem _ hp))
                (fun e he2 => by rw [h2]; exact hres e (List.mem_cons_of_mem _ he2)) h4 h5
              rw [h1]
              simp only
              refine ⟨info2, g1, by rw [g2, h2], by rw [g3, h3], g4, g5, ?_⟩
              intro p
              rw [g6 p, h6 p, ← he]
              unfold chunk_pairs
              simp only [List.map_cons, List.mem_cons]
              constructor
              · rintro (h0 | h0 | h0)
                · exact Or.inl (Or.inr h0)
                · exact Or.inl (Or.inl h0)
                · exact Or.inr h0
              · rintro ((h0 | h0) | h0)
                · exact Or.inr (Or.inl h0)
                · exact Or.inl h0
                · exact Or.inr (Or.inr h0)
        · rw [if_neg ht] at he; exact absurd he (by simp)
    · rw [if_neg hc] at he ⊢
      simp only [Option.some.injEq] at he
      rw [← he]
      exact ⟨info, rfl, rfl, rfl, hwf, hsub, by simp [chunk_pairs]⟩
/-- The pass over the chunk items (`key.objectid` different from
`BTRFS_DEV_ITEMS_OBJECTID`): on typed items whose chunks are in the family `U`
and have stripes that resolve, the loop ends, and the index holds the intervals
it held and those of the chunk items. -/
theorem read_chunk_tree_loop_chunks (K : ctree_consts) (U : List (Nat × Nat))
    (hU : chunks_disjoint U) (ko : Nat) (hko : ko ≠ K.BTRFS_DEV_ITEMS_OBJECTID) :
    ∀ (items : List btrfs_item) (heap : List btrfs_device) (info : btrfs_fs_info),
      chunk_tree_typed K items →
      (∀ p ∈ chunk_pairs (catalog_chunks K items), p ∈ U) →
      (∀ e ∈ catalog_chunks K items, stripes_resolve info.devices e.2) →
      cache_tree_wf info.mapping_tree →
      (∀ p ∈ index_pairs info.mapping_tree, p ∈ U) →
      ∃ info1, read_chunk_tree_loop K ko items heap info = .ok (heap, info1) ∧
        info1.devices = info.devices ∧ info1.chunk_root = info.chunk_root ∧
        cache_tree_wf info1.mapping_tree ∧
        (∀ p ∈ index_pairs info1.mapping_tree, p ∈ U) ∧
        (∀ p, p ∈ index_pairs info1.mapping_tree ↔
          p ∈ chunk_pairs (catalog_chunks K items) ∨ p ∈ index_pairs info.mapping_tree) := by
  intro items
  induction items with
  | nil =>
    intro heap info _ _ _ hwf hsub
    exact ⟨info, rfl, rfl, rfl, hwf, hsub, by simp [chunk_pairs, catalog_chunks]⟩
  | cons it rest ih =>
    intro heap info hty hin hres hwf hsub
    have hty2 : chunk_tree_typed K rest := fun x hx => hty x (List.mem_cons_of_mem _ hx)
    have hit := hty it (List.mem_cons_self _ _)
    unfold read_chunk_tree_loop
    rw [if_neg hko]
    by_cases ht : it.key.type = K.BTRFS_CHUNK_ITEM_KEY
    · rw [if_pos ht]
      have hd := hit.1 ht
      cases hdata : it.data with
      | dev_item d => rw [hdata] at hd; exact absurd hd (by simp [item_data.is_chunk])
      | chunk c =>
        have hcat : catalog_chunks K (it :: rest) = (it.key, c) :: catalog_chunks K rest := by
          simp only [catalog_chunks, hdata, ht, if_true]
        rw [hcat] at hin hres
        obtain ⟨info1, h1, h2, h3, h4, h5, h6⟩ := read_one_chunk_in U hU info it.key c hwf hsub
          (hin _ (by simp [chunk_pairs])) (hres (it.key, c) (List.mem_cons_self _ _))
        obtain ⟨info2, g1, g2, g3, g4, g5, g6⟩ := ih heap info1 hty2
          (fun p hp => hin p (by
            unfold chunk_pairs at hp ⊢
            rw [List.map_cons]; exact List.mem_cons_of_mem _ hp))
          (fun e he2 => by rw [h2]; exact hres e (List.mem_cons_of_mem _ he2)) h4 h5
        simp only [h1]
        refine ⟨info2, g1, by rw [g2, h2], by rw [g3, h3], g4, g5, ?_⟩
        intro p
        rw [g6 p, h6 p, hcat]
        unfold chunk_pairs
        simp only [List.map_cons, List.mem_cons]
        constructor
        · rintro (h0 | h0 | h0)
          · exact Or.inl (Or.inr h0)
          · exact Or.inl (Or.inl h0)
          · exact Or.inr h0
        · rintro ((h0 | h0) | h0)
          · exact Or.inr (Or.inl h0)
          · exact Or.inl h0
          · exact Or.inr (Or.inr h0)
    · rw [if_neg ht]
      have hcat : catalog_chunks K (it :: rest) = catalog_chunks K rest := by
        cases hdata : it.data with
        | dev_item d => simp only [catalog_chunks, hdata]
        | chunk c => simp only [catalog_chunks, hdata, ht, if_false]
      rw [hcat] at hin hres ⊢
      exact ih heap info hty2 hin hres hwf hsub

theorem find_device_replace_first (x : btrfs_device) (devid d2 : Nat) (hx : x.devid = devid) :
    ∀ (l : List btrfs_device), (find_device l d2).isSome = true →
      (find_device (replace_first (fun dev => decide (dev.devid = devid)) x l) d2).isSome = true := by
  intro l
  induction l with
  | nil => intro h; simp [find_device] at h
  | cons a rest ih =>
    intro h
    unfold replace_first
    unfold find_device at h ⊢
    by_cases hc : a.devid = devid
    · simp only [hc, decide_True, if_true]
      by_cases h2 : d2 = devid
      · rw [List.find?_cons_of_pos _ (by simpa using (hx.trans h2.symm))]
        rfl
      · have hne : ¬ a.devid = d2 := by rw [hc]; exact fun h3 => h2 h3.symm
        have hne2 : ¬ x.devid = d2 := by rw [hx]; exact fun h3 => h2 h3.symm
        rw [List.find?_cons_of_neg _ (by simpa using hne)] at h
        rw [List.find?_cons_of_neg _ (by simpa using hne2)]
        exact h
    · have hd : decide (a.devid = devid) = false := by simpa using hc
      simp only [hd, Bool.false_eq_true, if_false]
      by_cases h2 : a.devid = d2
      · rw [List.find?_cons_of_pos _ (by simpa using h2)]
        rfl
      · rw [List.find?_cons_of_neg _ (by simpa using h2)] at h ⊢
        exact ih h

/-- `read_one_dev` keeps every devid of the device list resolvable, the mapping
index and the chunk tree. -/
theorem read_one_dev_ok (heap : List btrfs_device) (info : btrfs_fs_info)
    (dev_item : btrfs_dev_item) (hheap : 1 ≤ heap.length) :
    ∃ heap1 info1, read_one_dev heap info dev_item = .ok (heap1, info1) ∧
      heap.length ≤ heap1.length + 1 ∧
      info1.mapping_tree = info.mapping_tree ∧ info1.chunk_root = info.chunk_root ∧
      ∀ d2, (find_device info.devices d2).isSome = true →
        (find_device info1.devices d2).isSome = true := by
  unfold read_one_dev
  simp only
  cases hf : find_device info.devices dev_item.devid with
  | some device =>
    simp only
    refine ⟨heap, _, rfl, by omega, rfl, rfl, ?_⟩
    intro d2 h
    exact find_device_replace_first (fill_device_from_item dev_item device) dev_item.devid d2 rfl
      info.devices h
  | none =>
    cases heap with
    | nil => simp at hheap
    | cons device heap1 =>
      simp only
      refine ⟨heap1, _, rfl, by simp, rfl, rfl, ?_⟩
      intro d2 h
      simp only [list_add]
      unfold find_device at h ⊢
      by_cases hc : (fill_device_from_item dev_item device).devid = d2
      · rw [List.find?_cons_of_pos _ (by simpa using hc)]; rfl
      · rw [List.find?_cons_of_neg _ (by simpa using hc)]; exact h

/-- The pass over the dev items (`key.objectid` equal to
`BTRFS_DEV_ITEMS_OBJECTID`): with an object on the heap for every item the
loop ends; it keeps the mapping index and the chunk tree, and every devid that
resolved before resolves after it. -/
theorem read_chunk_tree_loop_devs (K : ctree_consts) :
    ∀ (items : List btrfs_item) (heap : List btrfs_device) (info : btrfs_fs_info),
      chunk_tree_typed K items → items.length ≤ heap.length →
      ∃ heap1 info1,
        read_chunk_tree_loop K K.BTRFS_DEV_ITEMS_OBJECTID items heap info = .ok (heap1, info1) ∧
        info1.mapping_tree = info.mapping_tree ∧ info1.chunk_root = info.chunk_root ∧
        ∀ d2, (find_device info.devices d2).isSome = true →
          (find_device info1.devices d2).isSome = true := by
  intro items
  induction items with
  | nil => intro heap info _ _; exact ⟨heap, info, rfl, rfl, rfl, fun _ h => h⟩
  | cons it rest ih =>
    intro heap info hty hlen
    have hty2 : chunk_tree_typed K rest := fun x hx => hty x (List.mem_cons_of_mem _ hx)
    have hit := hty it (List.mem_cons_self _ _)
    have hlen2 : rest.length + 1 ≤ heap.length := hlen
    unfold read_chunk_tree_loop
    rw [if_pos rfl]
    by_cases ho : it.key.objectid ≠ K.BTRFS_DEV_ITEMS_OBJECTID
    · rw [if_pos ho]
      exact ⟨heap, info, rfl, rfl, rfl, fun _ h => h⟩
    · rw [if_neg ho]
      by_cases ht : it.key.type = K.BTRFS_DEV_ITEM_KEY
      · rw [if_pos ht]
        have hd := hit.2 ht
        cases hdata : it.data with
        | chunk c => rw [hdata] at hd; exact absurd hd (by simp [item_data.is_dev_item])
        | dev_item d =>
          obtain ⟨heap1, info1, h1, h2, h3, h4, h5⟩ := read_one_dev_ok heap info d (by omega)
          obtain ⟨heap2, info2, g1, g2, g3, g4⟩ := ih heap1 info1 hty2 (by omega)
          simp only [h1]
          exact ⟨heap2, info2, g1, by rw [g2, h3], by rw [g3, h4], fun d2 h => g4 d2 (h5 d2 h)⟩
      · rw [if_neg ht]
        exact ih heap info hty2 (by omega)

theorem btrfs_search_slot_zero (keys : List btrfs_key) :
    (btrfs_search_slot keys { objectid := 0, offset := 0, type := 0 }).2 = 0 := by
  cases keys with
  | nil => rfl
  | cons k rest =>
    unfold btrfs_search_slot
    have h : ¬ btrfs_key_lt k { objectid := 0, offset := 0, type := 0 } := by
      unfold btrfs_key_lt
      simp
    rw [if_neg h]
    split <;> rfl

theorem stripes_resolve_mono (devices devices1 : List btrfs_device) (c : btrfs_chunk)
    (h : ∀ d2, (find_device devices d2).isSome = true → (find_device devices1 d2).isSome = true)
    (hr : stripes_resolve devices c) : stripes_resolve devices1 c :=
  ⟨hr.1, fun s hs => h _ (hr.2 s hs)⟩

/-- In a well-formed index of non-empty intervals no interval occurs twice. -/
theorem index_pairs_nodup :
    ∀ (t : cache_tree), cache_tree_wf t → (∀ p ∈ index_pairs t, 1 ≤ p.2) →
      (index_pairs t).Nodup := by
  intro t
  induction t with
  | nil => intro _ _; exact List.nodup_nil
  | cons a rest ih =>
    intro hwf hpos
    unfold cache_tree_wf at hwf
    have hw := List.pairwise_cons.mp hwf
    unfold index_pairs at hpos ⊢
    rw [List.map_cons, List.nodup_cons]
    refine ⟨?_, ih hw.2 (fun p hp => hpos p (by rw [List.map_cons]; exact List.mem_cons_of_mem _ hp))⟩
    intro hmem
    obtain ⟨b, hb, hbe⟩ := List.mem_map.mp hmem
    have h1 := hw.1 b hb
    have h2 := hpos (a.ce.start, a.ce.size) (by rw [List.map_cons]; exact List.mem_cons_self _ _)
    have h3 : b.ce.start = a.ce.start := congrArg Prod.fst hbe
    simp only at h2
    omega

theorem find_device_isSome_of_mem (l : List btrfs_device) (devid : Nat)
    (h : devid ∈ l.map (fun d => d.devid)) : (find_device l devid).isSome = true := by
  obtain ⟨d, hd, he⟩ := List.mem_map.mp h
  unfold find_device
  rw [List.find?_isSome]
  exact ⟨d, hd, by simpa using he⟩

/-- After `read_one_dev` the devid of the dev item resolves. -/
theorem read_one_dev_known (heap heap1 : List btrfs_device) (info info1 : btrfs_fs_info)
    (dev_item : btrfs_dev_item)
    (h : read_one_dev heap info dev_item = .ok (heap1, info1)) :
    (find_device info1.devices dev_item.devid).isSome = true := by
  unfold read_one_dev at h
  simp only at h
  cases hf : find_device info.devices dev_item.devid with
  | some device =>
    rw [hf] at h
    simp only at h
    have hi : info1 = { info with
        devices := replace_first (fun dev => decide (dev.devid = dev_item.devid))
          (fill_device_from_item dev_item device) info.devices } :=
      (congrArg Prod.snd (Except.ok.inj h)).symm
    rw [hi]
    exact find_device_replace_first (fill_device_from_item dev_item device) dev_item.devid
      dev_item.devid rfl info.devices (by rw [hf]; rfl)
  | none =>
    rw [hf] at h
    cases heap with
    | nil => exact absurd h (by simp)
    | cons device heap2 =>
      simp only at h
      have hi : info1 = { info with
          devices := list_add (fill_device_from_item dev_item device) info.devices } :=
        (congrArg Prod.snd (Except.ok.inj h)).symm
      rw [hi]
      simp only [list_add]
      unfold find_device
      rw [List.find?_cons_of_pos _ (by simp [fill_device_from_item])]
      rfl

theorem catalog_dev_items_nil (K : ctree_consts) :
    ∀ (items : List btrfs_item),
      (∀ it ∈ items, it.key.objectid ≠ K.BTRFS_DEV_ITEMS_OBJECTID) →
      catalog_dev_items K items = []
  | [], _ => rfl
  | it :: rest, h => by
    have h1 := h it (List.mem_cons_self _ _)
    have ih := catalog_dev_items_nil K rest (fun x hx => h x (List.mem_cons_of_mem _ hx))
    cases hdata : it.data with
    | chunk c => simp only [catalog_dev_items, hdata, ih]
    | dev_item d =>
      have hc : ¬ (it.key.objectid = K.BTRFS_DEV_ITEMS_OBJECTID ∧
          it.key.type = K.BTRFS_DEV_ITEM_KEY) := fun hh => h1 hh.1
      simp only [catalog_dev_items, hdata, hc, if_false, ih]

theorem catalog_dev_items_append (K : ctree_consts) :
    ∀ (l1 l2 : List btrfs_item),
      catalog_dev_items K (l1 ++ l2) = catalog_dev_items K l1 ++ catalog_dev_items K l2
  | [], _ => rfl
  | it :: rest, l2 => by
    have ih := catalog_dev_items_append K rest l2
    show catalog_dev_items K (it :: (rest ++ l2)) = _
    cases hdata : it.data with
    | chunk c =>
      simp only [catalog_dev_items, hdata]
      exact ih
    | dev_item d =>
      by_cases hc : it.key.objectid = K.BTRFS_DEV_ITEMS_OBJECTID ∧
          it.key.type = K.BTRFS_DEV_ITEM_KEY
      · simp only [catalog_dev_items, hdata, hc, and_self, if_true, List.cons_append]
        rw [ih]
      · simp only [catalog_dev_items, hdata, hc, if_false]
        exact ih

/-- The pass over the dev items, on items in the order of their objectids that
start at `BTRFS_DEV_ITEMS_OBJECTID`: with an object on the heap for every item
the loop ends; it keeps the mapping index and the chunk tree, every devid that
resolved before resolves after it, and so does the devid of every dev item. -/
theorem read_chunk_tree_loop_devs_known (K : ctree_consts) :
    ∀ (items : List btrfs_item) (heap : List btrfs_device) (info : btrfs_fs_info),
      chunk_tree_typed K items → items.length ≤ heap.length →
      items.Pairwise (fun a b => a.key.objectid ≤ b.key.objectid) →
      (∀ it ∈ items, K.BTRFS_DEV_ITEMS_OBJECTID ≤ it.key.objectid) →
      ∃ heap1 info1,
        read_chunk_tree_loop K K.BTRFS_DEV_ITEMS_OBJECTID items heap info = .ok (heap1, info1) ∧
        info1.mapping_tree = info.mapping_tree ∧ info1.chunk_root = info.chunk_root ∧
        (∀ d2, (find_device info.devices d2).isSome = true →
          (find_device info1.devices d2).isSome = true) ∧
        ∀ di ∈ catalog_dev_items K items, (find_device info1.devices di.devid).isSome = true := by
  intro items
  induction items with
  | nil =>
    intro heap info _ _ _ _
    exact ⟨heap, info, rfl, rfl, rfl, fun _ h => h, fun di hdi => absurd hdi (List.not_mem_nil _)⟩
  | cons it rest ih =>
    intro heap info hty hlen hmono hge
    have hty2 : chunk_tree_typed K rest := fun x hx => hty x (List.mem_cons_of_mem _ hx)
    have hit := hty it (List.mem_cons_self _ _)
    have hlen2 : rest.length + 1 ≤ heap.length := hlen
    obtain ⟨hm1, hm2⟩ := List.pairwise_cons.mp hmono
    have hge2 : ∀ x ∈ rest, K.BTRFS_DEV_ITEMS_OBJECTID ≤ x.key.objectid :=
      fun x hx => hge x (List.mem_cons_of_mem _ hx)
    unfold read_chunk_tree_loop
    rw [if_pos rfl]
    by_cases ho : it.key.objectid ≠ K.BTRFS_DEV_ITEMS_OBJECTID
    · rw [if_pos ho]
      have hnil : catalog_dev_items K (it :: rest) = [] := by
        apply catalog_dev_items_nil
        intro x hx
        have hgt : K.BTRFS_DEV_ITEMS_OBJECTID < it.key.objectid :=
          Nat.lt_of_le_of_ne (hge it (List.mem_cons_self _ _)) (fun h => ho h.symm)
        rcases List.mem_cons.mp hx with hx | hx
        · rw [hx]; exact ho
        · have := hm1 x hx
          omega
      refine ⟨heap, info, rfl, rfl, rfl, fun _ h => h, ?_⟩
      rw [hnil]
      exact fun di hdi => absurd hdi (List.not_mem_nil _)
    · rw [if_neg ho]
      have ho2 : it.key.objectid = K.BTRFS_DEV_ITEMS_OBJECTID := not_not.mp ho
      by_cases ht : it.key.type = K.BTRFS_DEV_ITEM_KEY
      · rw [if_pos ht]
        have hd := hit.2 ht
        cases hdata : it.data with
        | chunk c => rw [hdata] at hd; exact absurd hd (by simp [item_data.is_dev_item])
        | dev_item d =>
          obtain ⟨heap1, info1, h1, h2, h3, h4, h5⟩ := read_one_dev_ok heap info d (by omega)
          have h6 := read_one_dev_known heap heap1 info info1 d h1
          obtain ⟨heap2, info2, g1, g2, g3, g4, g5⟩ := ih heap1 info1 hty2 (by omega) hm2 hge2
          simp only [h1]
          refine ⟨heap2, info2, g1, by rw [g2, h3], by rw [g3, h4],
            fun d2 h => g4 d2 (h5 d2 h), ?_⟩
          intro di hdi
          simp only [catalog_dev_items, hdata, ho2, ht, and_self, if_true] at hdi
          rcases List.mem_cons.mp hdi with hdi | hdi
          · rw [hdi]; exact g4 _ h6
          · exact g5 di hdi
      · rw [if_neg ht]
        obtain ⟨heap2, info2, g1, g2, g3, g4, g5⟩ := ih heap info hty2 (by omega) hm2 hge2
        refine ⟨heap2, info2, g1, g2, g3, g4, ?_⟩
        intro di hdi
        apply g5
        cases hdata : it.data with
        | chunk c => simpa only [catalog_dev_items, hdata] using hdi
        | dev_item d =>
          have hc : ¬ (it.key.objectid = K.BTRFS_DEV_ITEMS_OBJECTID ∧
              it.key.type = K.BTRFS_DEV_ITEM_KEY) := fun hh => ht hh.2
          simpa only [catalog_dev_items, hdata, hc, if_false] using hdi

/-- In a chunk tree in key order the first pass of `btrfs_read_chunk_tree`
starts in front of the dev items: the items from the slot of the search on are
in the order of their objectids, none is below `BTRFS_DEV_ITEMS_OBJECTID`, and
they hold every dev item of the tree. -/
theorem dev_items_from_slot (K : ctree_consts) (chunk_root : List btrfs_item)
    (hsorted : chunk_tree_sorted chunk_root) :
    (chunk_root.drop (btrfs_search_slot (chunk_root.map (fun it => it.key))
      { objectid := K.BTRFS_DEV_ITEMS_OBJECTID, offset := 0, type := 0 }).2).Pairwise
        (fun a b => a.key.objectid ≤ b.key.objectid) ∧
    (∀ it ∈ chunk_root.drop (btrfs_search_slot (chunk_root.map (fun it => it.key))
      { objectid := K.BTRFS_DEV_ITEMS_OBJECTID, offset := 0, type := 0 }).2,
        K.BTRFS_DEV_ITEMS_OBJECTID ≤ it.key.objectid) ∧
    catalog_dev_items K (chunk_root.drop (btrfs_search_slot (chunk_root.map (fun it => it.key))
      { objectid := K.BTRFS_DEV_ITEMS_OBJECTID, offset := 0, type := 0 }).2) =
      catalog_dev_items K chunk_root := by
  generalize hslot : (btrfs_search_slot (chunk_root.map (fun it => it.key))
      { objectid := K.BTRFS_DEV_ITEMS_OBJECTID, offset := 0, type := 0 }).2 = slot
  have hmono : chunk_root.Pairwise (fun a b => a.key.objectid ≤ b.key.objectid) := by
    refine List.Pairwise.imp ?_ hsorted
    intro a b hab
    rcases hab with h | h
    · exact Nat.le_of_lt h
    · exact Nat.le_of_eq h.1
  have hmono2 : (chunk_root.drop slot).Pairwise (fun a b => a.key.objectid ≤ b.key.objectid) :=
    List.Pairwise.sublist (List.drop_sublist _ _) hmono
  refine ⟨hmono2, ?_, ?_⟩
  · intro it hit
    cases hd : chunk_root.drop slot with
    | nil => rw [hd] at hit; exact absurd hit (List.not_mem_nil _)
    | cons a rest =>
      have hhead : ((chunk_root.map (fun it => it.key)).drop (btrfs_search_slot
          (chunk_root.map (fun it => it.key))
          { objectid := K.BTRFS_DEV_ITEMS_OBJECTID, offset := 0, type := 0 }).2).head? =
          some a.key := by
        rw [hslot, ← List.map_drop, hd]; rfl
      have hnlt := (btrfs_search_slot_head _ _ _ hhead).1
      have ha : K.BTRFS_DEV_ITEMS_OBJECTID ≤ a.key.objectid := by
        unfold btrfs_key_lt at hnlt
        simp only at hnlt
        omega
      rw [hd] at hit hmono2
      rcases List.mem_cons.mp hit with hit | hit
      · rw [hit]; exact ha
      · have := (List.pairwise_cons.mp hmono2).1 it hit
        omega
  · have hsplit : catalog_dev_items K chunk_root =
        catalog_dev_items K (chunk_root.take slot) ++ catalog_dev_items K (chunk_root.drop slot) := by
      rw [← catalog_dev_items_append, List.take_append_drop]
    have hnil : catalog_dev_items K (chunk_root.take slot) = [] := by
      apply catalog_dev_items_nil
      intro it hit
      have hk : it.key ∈ (chunk_root.map (fun it => it.key)).take (btrfs_search_slot
          (chunk_root.map (fun it => it.key))
          { objectid := K.BTRFS_DEV_ITEMS_OBJECTID, offset := 0, type := 0 }).2 := by
        rw [hslot, ← List.map_take]
        exact List.mem_map_of_mem _ hit
      have hlt := btrfs_search_slot_le _ _ _ hk
      unfold btrfs_key_lt at hlt
      simp only at hlt
      omega
    rw [hsplit, hnil, List.nil_append]

/-- C16: the mapping index after the mount. Let the array of system chunks be
read as `entries` and the chunk tree be in key order and typed, with an object
on the heap for every item; let the chunks of the array and of the chunk tree
be non-empty, end below `2^64`, and any two of them be the same interval or
not overlap; let every stripe devid resolve: for a chunk of the array in the
device list before the mount (the array is read first), for a chunk of the
chunk tree in the device list or among the dev items of the chunk tree; and
let `BTRFS_DEV_ITEMS_OBJECTID ≠ 0`. Then, from an empty mapping index,
`btrfs_read_sys_array` followed by `btrfs_read_chunk_tree` return, the devid of
every dev item resolves in the device list after them, and the index after
them is well-formed and holds, for every chunk of the array and of the chunk
tree, its interval `(start, size)`, exactly once, and nothing else; a chunk of
the array that is also in the chunk tree is installed once, and
`read_one_chunk` on any of these chunks leaves the state as it is. -/
theorem mount_mapping_index (K : ctree_consts) (super_copy : btrfs_super_block)
    (heap : List btrfs_device) (info : btrfs_fs_info) (entries : List (btrfs_key × btrfs_chunk))
    (hD : K.BTRFS_DEV_ITEMS_OBJECTID ≠ 0)
    (hempty : info.mapping_tree = [])
    (hsys : sys_array_entries K super_copy = some entries)
    (hsorted : chunk_tree_sorted info.chunk_root)
    (htyped : chunk_tree_typed K info.chunk_root)
    (hheap : info.chunk_root.length ≤ heap.length)
    (hdis : chunks_disjoint (chunk_pairs (entries ++ catalog_chunks K info.chunk_root)))
    (hres : ∀ e ∈ entries, stripes_resolve info.devices e.2)
    (hknown : ∀ e ∈ catalog_chunks K info.chunk_root,
      stripes_known (info.devices.map (fun d => d.devid) ++
        (catalog_dev_items K info.chunk_root).map (fun di => di.devid)) e.2) :
    ∃ (info1 : btrfs_fs_info) (heap2 : List btrfs_device) (info2 : btrfs_fs_info),
      btrfs_read_sys_array K super_copy info = some (.ok info1) ∧
      btrfs_read_chunk_tree K heap info1 = some (.ok (heap2, info2)) ∧
      (∀ di ∈ catalog_dev_items K info.chunk_root,
        (find_device info2.devices di.devid).isSome = true) ∧
      (∀ e ∈ entries ++ catalog_chunks K info.chunk_root, stripes_resolve info2.devices e.2) ∧
      cache_tree_wf info2.mapping_tree ∧
      (∀ p, p ∈ index_pairs info2.mapping_tree ↔
        p ∈ chunk_pairs (entries ++ catalog_chunks K info.chunk_root)) ∧
      (∀ p ∈ chunk_pairs (entries ++ catalog_chunks K info.chunk_root),
        (index_pairs info2.mapping_tree).countP (fun q => decide (q = p)) = 1) ∧
      (∀ e ∈ entries ++ catalog_chunks K info.chunk_root,
        read_one_chunk info2 e.1 e.2 = .ok (.ok info2)) := by
  have hpairs : chunk_pairs (entries ++ catalog_chunks K info.chunk_root) =
      chunk_pairs entries ++ chunk_pairs (catalog_chunks K info.chunk_root) := by
    unfold chunk_pairs; rw [List.map_append]
  have hwf0 : cache_tree_wf info.mapping_tree := by
    rw [hempty]; unfold cache_tree_wf; exact List.Pairwise.nil
  have hsub0 : ∀ p ∈ index_pairs info.mapping_tree,
      p ∈ chunk_pairs (entries ++ catalog_chunks K info.chunk_root) := by
    rw [hempty]; intro p hp; simp [index_pairs] at hp
  -- the array of system chunks
  obtain ⟨info1, h1, h2, h3, h4, h5, h6⟩ := read_sys_array_loop_entries K super_copy _ hdis
    super_copy.sys_array_size 0 0 info entries hsys
    (fun p hp => by rw [hpairs]; exact List.mem_append_left _ hp) hres hwf0 hsub0
  -- the pass over the dev items
  have hty1 : chunk_tree_typed K (info1.chunk_root.drop
      (btrfs_search_slot (info1.chunk_root.map (fun it => it.key))
        { objectid := K.BTRFS_DEV_ITEMS_OBJECTID, offset := 0, type := 0 }).2) := by
    rw [h3]
    exact fun x hx => htyped x (List.mem_of_mem_drop hx)
  obtain ⟨s1, s2, s3⟩ := dev_items_from_slot K info1.chunk_root (by rw [h3]; exact hsorted)
  obtain ⟨heap1, info1b, g1, g2, g3, g4, g5⟩ := read_chunk_tree_loop_devs_known K _ heap info1
    hty1 (by rw [h3, List.length_drop]; omega) s1 s2
  rw [s3, h3] at g5
  -- every stripe resolves behind the pass over the dev items
  have hmono1 : ∀ d2, (find_device info.devices d2).isSome = true →
      (find_device info1b.devices d2).isSome = true := by
    intro d2 hd2
    apply g4
    rw [h2]; exact hd2
  have hres1 : ∀ e ∈ entries ++ catalog_chunks K info.chunk_root,
      stripes_resolve info1b.devices e.2 := by
    intro e he
    rcases List.mem_append.mp he with he | he
    · exact stripes_resolve_mono info.devices _ _ hmono1 (hres e he)
    · obtain ⟨k1, k2⟩ := hknown e he
      refine ⟨k1, fun s hs => ?_⟩
      rcases List.mem_append.mp (k2 s hs) with hm | hm
      · exact hmono1 _ (find_device_isSome_of_mem _ _ hm)
      · obtain ⟨di, hdi, hde⟩ := List.mem_map.mp hm
        rw [← hde]; exact g5 di hdi
  -- the pass over the chunk items
  have hres2 : ∀ e ∈ catalog_chunks K info1b.chunk_root, stripes_resolve info1b.devices e.2 := by
    rw [g3, h3]
    exact fun e he => hres1 e (List.mem_append_right _ he)
  obtain ⟨info2, k1, k2, k3, k4, k5, k6⟩ := read_chunk_tree_loop_chunks K _ hdis 0
    (fun h => hD h.symm) info1b.chunk_root heap1 info1b (by rw [g3, h3]; exact htyped)
    (fun p hp => by
      rw [g3, h3] at hp
      rw [hpairs]; exact List.mem_append_right _ hp)
    hres2 (by rw [g2]; exact h4) (by rw [g2]; exact h5)
  have hchar : ∀ p, p ∈ index_pairs info2.mapping_tree ↔
      p ∈ chunk_pairs (entries ++ catalog_chunks K info.chunk_root) := by
    intro p
    rw [k6 p, g2, h6 p, g3, h3, hempty, hpairs, List.mem_append]
    simp only [index_pairs, List.map_nil, List.not_mem_nil, or_false]
    exact Or.comm
  have hnodup : (index_pairs info2.mapping_tree).Nodup :=
    index_pairs_nodup _ k4 (fun p hp => (hdis.1 p ((hchar p).mp hp)).1)
  have hres3 : ∀ e ∈ entries ++ catalog_chunks K info.chunk_root,
      stripes_resolve info2.devices e.2 := by
    intro e he
    rw [k2]; exact hres1 e he
  refine ⟨info1, heap1, info2, h1, ?_, ?_, hres3, k4, hchar,
    fun p hp => List.count_eq_one_of_mem hnodup ((hchar p).mpr hp), ?_⟩
  · unfold btrfs_read_chunk_tree
    simp only [read_chunk_tree_again, g1, if_true, btrfs_search_slot_zero, List.drop_zero, k1]
    rw [if_neg (fun h => hD h.symm)]
  · intro di hdi
    rw [k2]; exact g5 di hdi
  · intro e he
    have hmem : (e.1.objectid, e.1.offset) ∈
        chunk_pairs (entries ++ catalog_chunks K info.chunk_root) :=
      List.mem_map_of_mem (fun e => (e.1.objectid, e.1.offset)) he
    have hk := hdis.1 _ hmem
    obtain ⟨info3, r1, _, _, _, _, r6⟩ := read_one_chunk_step info2 e.1 e.2 k4 hk.1 hk.2
      (fun m hm => hdis.2 _ ((hchar _).mp (List.mem_map_of_mem
        (fun m => (m.ce.start, m.ce.size)) hm)) _ hmem) (hres3 e he)
    rw [r1, r6 ((hchar _).mpr hmem)]

/-- Witness of C16 on the mount example: the system chunk `[0, 8 MiB)` is in
the array and in the chunk tree, the chunk `[8 MiB, 24 MiB)` in the chunk tree
only; its second stripe is on the device 2, which the device list does not hold
before the mount and which the pass over the dev items adds. -/
theorem mount_mapping_index_witness :
    find_device ex_info_mount.devices 2 = none ∧
    ∃ (info1 : btrfs_fs_info) (heap2 : List btrfs_device) (info2 : btrfs_fs_info),
      btrfs_read_sys_array K0 ex_super_mount ex_info_mount = some (.ok info1) ∧
      btrfs_read_chunk_tree K0 ex_heap_mount info1 = some (.ok (heap2, info2)) ∧
      (∀ di ∈ catalog_dev_items K0 ex_info_mount.chunk_root,
        (find_device info2.devices di.devid).isSome = true) ∧
      (∀ e ∈ [({ objectid := 0, type := 77, offset := 8388608 }, ex_sys_chunk)] ++
          catalog_chunks K0 ex_info_mount.chunk_root, stripes_resolve info2.devices e.2) ∧
      cache_tree_wf info2.mapping_tree ∧
      (∀ p, p ∈ index_pairs info2.mapping_tree ↔
        p ∈ chunk_pairs ([({ objectid := 0, type := 77, offset := 8388608 }, ex_sys_chunk)] ++
          catalog_chunks K0 ex_info_mount.chunk_root)) ∧
      (∀ p ∈ chunk_pairs ([({ objectid := 0, type := 77, offset := 8388608 }, ex_sys_chunk)] ++
          catalog_chunks K0 ex_info_mount.chunk_root),
        (index_pairs info2.mapping_tree).countP (fun q => decide (q = p)) = 1) ∧
      (∀ e ∈ [({ objectid := 0, type := 77, offset := 8388608 }, ex_sys_chunk)] ++
          catalog_chunks K0 ex_info_mount.chunk_root,
        read_one_chunk info2 e.1 e.2 = .ok (.ok info2)) :=
  ⟨rfl, mount_mapping_index K0 ex_super_mount ex_heap_mount ex_info_mount
    [({ objectid := 0, type := 77, offset := 8388608 }, ex_sys_chunk)]
    (by decide) rfl rfl (by decide) (by decide) (by decide) (by decide) (by decide) (by decide)⟩

/-! ## The translation is injective and stays inside the device extents -/

theorem u64_sub_add_cancel {p x : Nat} (hp : p < 18446744073709551616)
    (hx : x < 18446744073709551616) : u64_sub (u64 (p + x)) p = x := by
  unfold u64_sub u64; omega

/-- The stripe index of `btrfs_map_block` as a natural number. -/
theorem map_block_stripe_index_eq (m : map_lookup) (logical : Nat) (hty : m.typed)
    (hl : logical < 18446744073709551616) (h1 : m.ce.start ≤ logical) (hns : 0 < m.num_stripes) :
    map_block_stripe_index m logical =
      (((logical - m.ce.start) / u64_of_int m.stripe_len % m.num_stripes.toNat : Nat) : Int) := by
  obtain ⟨_, _, _, _, _, hn0, hn1, _, _⟩ := hty
  have hnn : u64_of_int m.num_stripes = m.num_stripes.toNat := by
    unfold u64_of_int; omega
  have hnpos : 0 < m.num_stripes.toNat := by omega
  have hnlt : m.num_stripes.toNat < 2147483648 := by omega
  unfold map_block_stripe_index
  rw [u64_sub_of_le h1 hl, hnn]
  exact int_of_u64_of_lt (Nat.lt_trans (Nat.mod_lt _ hnpos) hnlt)

/-- The offset inside a stripe's device extent, `stripe_offset + stripe_round *
stripe_len`, is at most the offset inside the chunk. -/
theorem stripe_extent_offset_le (off u n : Nat) : off % u + off / u / n * u ≤ off := by
  have h1 : off / u / n * u ≤ off / u * u := Nat.mul_le_mul_right _ (Nat.div_le_self _ _)
  have h2 : off % u + off / u * u = off := by
    rw [Nat.mul_comm]; exact Nat.mod_add_div off u
  omega

/-- The offset inside the chunk is determined by the stripe index and the
offset inside the stripe's device extent. -/
theorem stripe_coordinates_inj (o1 o2 u n : Nat) (hu : 0 < u)
    (hi : o1 / u % n = o2 / u % n)
    (hx : o1 % u + o1 / u / n * u = o2 % u + o2 / u / n * u) : o1 = o2 := by
  have ha1 : o1 % u < u := Nat.mod_lt _ hu
  have ha2 : o2 % u < u := Nat.mod_lt _ hu
  have hr : o1 / u / n = o2 / u / n := by
    have h := congrArg (fun z => z / u) hx
    simp only [Nat.add_mul_div_right _ _ hu, Nat.div_eq_of_lt ha1, Nat.div_eq_of_lt ha2,
      Nat.zero_add] at h
    exact h
  have ha : o1 % u = o2 % u := by
    rw [hr] at hx
    exact Nat.add_right_cancel hx
  have hq : o1 / u = o2 / u := by
    rw [← Nat.div_add_mod (o1 / u) n, ← Nat.div_add_mod (o2 / u) n, hr, hi]
  rw [← Nat.div_add_mod o1 u, ← Nat.div_add_mod o2 u, hq, ha]

/-- C22: `btrfs_map_block` is injective on a chunk. For an entry of the mapping
index with `stripe_len > 0` and `num_stripes > 0` and two different logical
addresses inside the chunk, both calls return, and the pairs of the stripe
index and the offset `phys - stripes[stripe_index].physical` differ; when the
stripes are on distinct devices, the pairs `(dev, phys)` returned differ. -/
theorem btrfs_map_block_injective (K : ctree_consts) (map_tree : cache_tree) (chunk : map_lookup)
    (L1 L2 : Nat) (hwf : cache_tree_wf map_tree) (hmem : chunk ∈ map_tree) (hty : chunk.typed)
    (hsl : 0 < chunk.stripe_len) (hns : 0 < chunk.num_stripes)
    (h1 : chunk.ce.start ≤ L1) (h1e : L1 < u64 (chunk.ce.start + chunk.ce.size))
    (h2 : chunk.ce.start ≤ L2) (h2e : L2 < u64 (chunk.ce.start + chunk.ce.size))
    (hne : L1 ≠ L2) :
    ∃ (r1 r2 : block_mapping) (s1 s2 : stripe),
      btrfs_map_block K map_tree L1 = .ok r1 ∧ btrfs_map_block K map_tree L2 = .ok r2 ∧
      chunk.stripes[(map_block_stripe_index chunk L1).toNat]? = some s1 ∧
      chunk.stripes[(map_block_stripe_index chunk L2).toNat]? = some s2 ∧
      r1.dev = s1.dev ∧ r2.dev = s2.dev ∧
      (map_block_stripe_index chunk L1, u64_sub r1.phys s1.physical) ≠
        (map_block_stripe_index chunk L2, u64_sub r2.phys s2.physical) ∧
      ((chunk.stripes.map (fun s => s.dev)).Nodup → (r1.dev, r1.phys) ≠ (r2.dev, r2.phys)) := by
  have hM := u64_lt (chunk.ce.start + chunk.ce.size)
  have hL1 : L1 < 18446744073709551616 := Nat.lt_trans h1e hM
  have hL2 : L2 < 18446744073709551616 := Nat.lt_trans h2e hM
  have hend1 : L1 < chunk.ce.start + chunk.ce.size := by
    unfold u64 at h1e; omega
  have hend2 : L2 < chunk.ce.start + chunk.ce.size := by
    unfold u64 at h2e; omega
  have hU : u64_of_int chunk.stripe_len = chunk.stripe_len.toNat :=
    u64_of_int_of_nonneg (by omega) (by
      have := hty.2.2.2.2.1
      omega)
  have hu : u64_of_int chunk.stripe_len ≠ 0 := by
    rw [hU]; omega
  have hupos : 0 < u64_of_int chunk.stripe_len := Nat.pos_of_ne_zero hu
  obtain ⟨_, s1, hs1, hm1⟩ :=
    map_block_entry_eq K chunk L1 hty hL1 h1 (Nat.not_lt.mpr (Nat.le_of_lt h1e)) hu hns
  obtain ⟨_, s2, hs2, hm2⟩ :=
    map_block_entry_eq K chunk L2 hty hL2 h2 (Nat.not_lt.mpr (Nat.le_of_lt h2e)) hu hns
  rw [← btrfs_map_block_eq_entry K map_tree L1 chunk
    (find_first_cache_extent_of_mem map_tree L1 chunk hwf hmem h1 hend1)] at hm1
  rw [← btrfs_map_block_eq_entry K map_tree L2 chunk
    (find_first_cache_extent_of_mem map_tree L2 chunk hwf hmem h2 hend2)] at hm2
  have hi1 := map_block_stripe_index_eq chunk L1 hty hL1 h1 hns
  have hi2 := map_block_stripe_index_eq chunk L2 hty hL2 h2 hns
  have hp1 : s1.physical < 18446744073709551616 :=
    hty.2.2.2.2.2.2.2.2 s1 (List.mem_iff_getElem?.mpr ⟨_, hs1⟩)
  have hp2 : s2.physical < 18446744073709551616 :=
    hty.2.2.2.2.2.2.2.2 s2 (List.mem_iff_getElem?.mpr ⟨_, hs2⟩)
  have hx1 := stripe_extent_offset_le (L1 - chunk.ce.start) (u64_of_int chunk.stripe_len)
    chunk.num_stripes.toNat
  have hx2 := stripe_extent_offset_le (L2 - chunk.ce.start) (u64_of_int chunk.stripe_len)
    chunk.num_stripes.toNat
  have hd1 : u64_sub (u64 (s1.physical + (L1 - chunk.ce.start) % u64_of_int chunk.stripe_len +
      (L1 - chunk.ce.start) / u64_of_int chunk.stripe_len / chunk.num_stripes.toNat *
        u64_of_int chunk.stripe_len)) s1.physical =
      (L1 - chunk.ce.start) % u64_of_int chunk.stripe_len +
      (L1 - chunk.ce.start) / u64_of_int chunk.stripe_len / chunk.num_stripes.toNat *
        u64_of_int chunk.stripe_len := by
    rw [Nat.add_assoc]
    exact u64_sub_add_cancel hp1 (by omega)
  have hd2 : u64_sub (u64 (s2.physical + (L2 - chunk.ce.start) % u64_of_int chunk.stripe_len +
      (L2 - chunk.ce.start) / u64_of_int chunk.stripe_len / chunk.num_stripes.toNat *
        u64_of_int chunk.stripe_len)) s2.physical =
      (L2 - chunk.ce.start) % u64_of_int chunk.stripe_len +
      (L2 - chunk.ce.start) / u64_of_int chunk.stripe_len / chunk.num_stripes.toNat *
        u64_of_int chunk.stripe_len := by
    rw [Nat.add_assoc]
    exact u64_sub_add_cancel hp2 (by omega)
  have hpair : (map_block_stripe_index chunk L1,
      u64_sub (u64 (s1.physical + (L1 - chunk.ce.start) % u64_of_int chunk.stripe_len +
        (L1 - chunk.ce.start) / u64_of_int chunk.stripe_len / chunk.num_stripes.toNat *
          u64_of_int chunk.stripe_len)) s1.physical) ≠
      (map_block_stripe_index chunk L2,
      u64_sub (u64 (s2.physical + (L2 - chunk.ce.start) % u64_of_int chunk.stripe_len +
        (L2 - chunk.ce.start) / u64_of_int chunk.stripe_len / chunk.num_stripes.toNat *
          u64_of_int chunk.stripe_len)) s2.physical) := by
    intro heq
    rw [hd1, hd2, hi1, hi2] at heq
    have hidx : (L1 - chunk.ce.start) / u64_of_int chunk.stripe_len % chunk.num_stripes.toNat =
        (L2 - chunk.ce.start) / u64_of_int chunk.stripe_len % chunk.num_stripes.toNat := by
      exact Int.ofNat_inj.mp (congrArg Prod.fst heq)
    have ho := stripe_coordinates_inj _ _ _ _ hupos hidx (congrArg Prod.snd heq)
    omega
  rw [hi1, Int.toNat_ofNat]
  rw [hi2, Int.toNat_ofNat]
  rw [← hi1, ← hi2]
  refine ⟨_, _, s1, s2, hm1, hm2, hs1, hs2, rfl, rfl, hpair, ?_⟩
  intro hnd heq
  have hdev : s1.dev = s2.dev := congrArg Prod.fst heq
  have hphys := congrArg Prod.snd heq
  have hidx : (L1 - chunk.ce.start) / u64_of_int chunk.stripe_len % chunk.num_stripes.toNat =
      (L2 - chunk.ce.start) / u64_of_int chunk.stripe_len % chunk.num_stripes.toNat := by
    have g1 : (chunk.stripes.map (fun s => s.dev))[(L1 - chunk.ce.start) /
        u64_of_int chunk.stripe_len % chunk.num_stripes.toNat]? = some s1.dev := by
      rw [List.getElem?_map, hs1]; rfl
    have g2 : (chunk.stripes.map (fun s => s.dev))[(L2 - chunk.ce.start) /
        u64_of_int chunk.stripe_len % chunk.num_stripes.toNat]? = some s1.dev := by
      rw [List.getElem?_map, hs2, hdev]; rfl
    have hlt := (List.getElem?_eq_some_iff.mp g1).1
    exact (List.getElem?_inj hlt hnd (g1.trans g2.symm))
  have hss : s1 = s2 := by
    rw [hidx] at hs1
    exact Option.some.inj (hs1.symm.trans hs2)
  apply hpair
  rw [hi1, hi2, hidx]
  simp only at hphys
  rw [hphys, hss]
/-- Witness of C22 on the RAID0 chunk `[0, 16)` with stripes of 4 bytes on two
devices: the addresses 3 and 8 are both on the first device, at the physical
offsets 103 and 104. -/
theorem btrfs_map_block_injective_witness :
    ∃ (r1 r2 : block_mapping) (s1 s2 : stripe),
      btrfs_map_block K0 [ex_raid0, ex_single] 3 = .ok r1 ∧
      btrfs_map_block K0 [ex_raid0, ex_single] 8 = .ok r2 ∧
      ex_raid0.stripes[(map_block_stripe_index ex_raid0 3).toNat]? = some s1 ∧
      ex_raid0.stripes[(map_block_stripe_index ex_raid0 8).toNat]? = some s2 ∧
      r1.dev = s1.dev ∧ r2.dev = s2.dev ∧
      (map_block_stripe_index ex_raid0 3, u64_sub r1.phys s1.physical) ≠
        (map_block_stripe_index ex_raid0 8, u64_sub r2.phys s2.physical) ∧
      ((ex_raid0.stripes.map (fun s => s.dev)).Nodup → (r1.dev, r1.phys) ≠ (r2.dev, r2.phys)) :=
  btrfs_map_block_injective K0 [ex_raid0, ex_single] ex_raid0 3 8 (by decide) (by decide)
    (by decide) (by decide) (by decide) (by decide) (by decide) (by decide) (by decide)
    (by decide)

/-- C23: mapped I/O stays inside the reserved device extent. For a chunk of
size `calc_size * num_stripes` whose stripes own the device extents
`[stripes[i].physical, stripes[i].physical + calc_size)` (which end at or
below `2^64`), with `stripe_len` a divisor of `calc_size`, that is RAID0 or
has one stripe, `btrfs_map_block` returns for every logical address in the
chunk, and the result `(dev, phys, length)` lies in the extent of the stripe
`stripe_index` it was computed from: `stripes[i].physical ≤ phys` and
`phys + length ≤ stripes[i].physical + calc_size`. -/
theorem btrfs_map_block_within_extent (K : ctree_consts) (map_tree : cache_tree)
    (chunk : map_lookup) (calc_size L : Nat)
    (hwf : cache_tree_wf map_tree) (hmem : chunk ∈ map_tree) (hty : chunk.typed)
    (hsize : chunk.ce.size = calc_size * chunk.num_stripes.toNat)
    (hdiv : u64_of_int chunk.stripe_len ∣ calc_size)
    (hext : ∀ s ∈ chunk.stripes, s.physical + calc_size ≤ 18446744073709551616)
    (hkind : Nat.land chunk.type K.BTRFS_BLOCK_GROUP_RAID0 ≠ 0 ∨ chunk.num_stripes = 1)
    (h1 : chunk.ce.start ≤ L) (h2 : L < u64 (chunk.ce.start + chunk.ce.size)) :
    ∃ (r : block_mapping) (s : stripe),
      btrfs_map_block K map_tree L = .ok r ∧
      chunk.stripes[(map_block_stripe_index chunk L).toNat]? = some s ∧
      r.dev = s.dev ∧ s.physical ≤ r.phys ∧ r.phys + r.length ≤ s.physical + calc_size := by
  have hM := u64_lt (chunk.ce.start + chunk.ce.size)
  have hL : L < 18446744073709551616 := Nat.lt_trans h2 hM
  have hend : L < chunk.ce.start + chunk.ce.size := by
    unfold u64 at h2; omega
  have hoff : L - chunk.ce.start < calc_size * chunk.num_stripes.toNat := by omega
  have hnpos : 0 < chunk.num_stripes.toNat := by
    rcases Nat.eq_zero_or_pos chunk.num_stripes.toNat with h | h
    · rw [h, Nat.mul_zero] at hoff; omega
    · exact h
  have hns : 0 < chunk.num_stripes := by omega
  have hcpos : 0 < calc_size := by
    rcases Nat.eq_zero_or_pos calc_size with h | h
    · rw [h, Nat.zero_mul] at hoff; omega
    · exact h
  have hu : u64_of_int chunk.stripe_len ≠ 0 := by
    intro h0
    rw [h0] at hdiv
    have := Nat.eq_zero_of_zero_dvd hdiv
    omega
  have hupos : 0 < u64_of_int chunk.stripe_len := Nat.pos_of_ne_zero hu
  obtain ⟨_, s, hs, hm⟩ :=
    map_block_entry_eq K chunk L hty hL h1 (Nat.not_lt.mpr (Nat.le_of_lt h2)) hu hns
  rw [← btrfs_map_block_eq_entry K map_tree L chunk
    (find_first_cache_extent_of_mem map_tree L chunk hwf hmem h1 hend)] at hm
  have hi := map_block_stripe_index_eq chunk L hty hL h1 hns
  have hse := hext s (List.mem_iff_getElem?.mpr ⟨_, hs⟩)
  rw [hi, Int.toNat_ofNat]
  refine ⟨_, s, hm, hs, rfl, ?_⟩
  obtain ⟨c, hc⟩ := hdiv
  have hk : Nat.land chunk.type K.BTRFS_BLOCK_GROUP_RAID0 ≠ 0 ∨ chunk.num_stripes.toNat = 1 := by
    rcases hkind with h | h
    · exact Or.inl h
    · right; rw [h]; rfl
  generalize u64_of_int chunk.stripe_len = u at *
  generalize L - chunk.ce.start = off at *
  generalize chunk.num_stripes.toNat = n at *
  have hmodlt : off % u < u := Nat.mod_lt _ hupos
  have hq : off / u < c * n := by
    apply Nat.div_lt_of_lt_mul
    rw [← Nat.mul_assoc, ← hc]; exact hoff
  have hrho : off / u / n < c := by
    apply Nat.div_lt_of_lt_mul
    rw [Nat.mul_comm]; exact hq
  have hmul : (off / u / n + 1) * u ≤ c * u := Nat.mul_le_mul_right u hrho
  rw [Nat.succ_mul, Nat.mul_comm c u, ← hc] at hmul
  have hphys : u64 (s.physical + off % u + off / u / n * u) =
      s.physical + off % u + off / u / n * u := u64_of_lt (by omega)
  show s.physical ≤ u64 (s.physical + off % u + off / u / n * u) ∧
    u64 (s.physical + off % u + off / u / n * u) +
      (if Nat.land chunk.type K.BTRFS_BLOCK_GROUP_RAID0 ≠ 0 then
        min (chunk.ce.size - off) (u - off % u) else chunk.ce.size - off) ≤
      s.physical + calc_size
  rw [hphys]
  refine ⟨by omega, ?_⟩
  by_cases hR : Nat.land chunk.type K.BTRFS_BLOCK_GROUP_RAID0 ≠ 0
  · rw [if_pos hR]
    have hmin : min (chunk.ce.size - off) (u - off % u) ≤ u - off % u := Nat.min_le_right _ _
    omega
  · rw [if_neg hR]
    have hn1 : n = 1 := by
      rcases hk with h | h
      · exact absurd h hR
      · exact h
    subst hn1
    have hsum := single_stripe_sum off u
    rw [Nat.mul_one] at hsize
    omega

/-- Witness of C23 on the RAID0 chunk `[0, 16)` with stripes of 4 bytes and
device extents of 8 bytes at 100 and 200, at the logical address 13. -/
theorem btrfs_map_block_within_extent_witness :
    ∃ (r : block_mapping) (s : stripe),
      btrfs_map_block K0 [ex_raid0, ex_single] 13 = .ok r ∧
      ex_raid0.stripes[(map_block_stripe_index ex_raid0 13).toNat]? = some s ∧
      r.dev = s.dev ∧ s.physical ≤ r.phys ∧ r.phys + r.length ≤ s.physical + 8 :=
  btrfs_map_block_within_extent K0 [ex_raid0, ex_single] ex_raid0 8 13 (by decide) (by decide)
    (by decide) (by decide) (Dvd.intro 2 rfl) (by decide) (by decide) (by decide) (by decide)

/-! ## Devices filled by the allocator -/

theorem btrfs_key_lt_trichotomy (a b : btrfs_key) :
    btrfs_key_lt a b ∨ a = b ∨ btrfs_key_lt b a := by
  cases a with
  | mk ao at_ af =>
    cases b with
    | mk bo bt bf =>
      unfold btrfs_key_lt
      simp only [btrfs_key.mk.injEq]
      omega

theorem btrfs_key_lt_irrefl (a : btrfs_key) : ¬ btrfs_key_lt a a := by
  unfold btrfs_key_lt; omega

/-- The place at which `btrfs_insert_item` puts the item. -/
theorem btrfs_insert_item_split {ι : Type} (key_of : ι → btrfs_key) :
    ∀ (t t1 : List ι) (x : ι), btrfs_insert_item key_of t x = .ok t1 →
      ∃ l1 l2, t = l1 ++ l2 ∧ t1 = l1 ++ x :: l2 ∧
        (∀ y ∈ l1, btrfs_key_lt (key_of y) (key_of x)) ∧
        (∀ y, l2.head? = some y → btrfs_key_lt (key_of x) (key_of y))
  | [], t1, x, h => by
    simp only [btrfs_insert_item] at h
    have h1 := (Except.ok.inj h).symm
    exact ⟨[], [], rfl, h1, fun y hy => absurd hy (List.not_mem_nil _),
      fun y hy => absurd hy (by simp)⟩
  | y :: rest, t1, x, h => by
    simp only [btrfs_insert_item] at h
    by_cases hlt : btrfs_key_lt (key_of x) (key_of y)
    · rw [if_pos hlt] at h
      have h1 := (Except.ok.inj h).symm
      refine ⟨[], y :: rest, rfl, h1, fun z hz => absurd hz (List.not_mem_nil _), ?_⟩
      intro z hz
      have : y = z := by simpa using hz
      rw [← this]; exact hlt
    · rw [if_neg hlt] at h
      by_cases heq : key_of y = key_of x
      · rw [if_pos heq] at h; exact absurd h (by simp)
      · rw [if_neg heq] at h
        cases hr : btrfs_insert_item key_of rest x with
        | error e => rw [hr] at h; exact absurd h (by simp)
        | ok t2 =>
          rw [hr] at h
          have h1 := (Except.ok.inj h).symm
          obtain ⟨l1, l2, e1, e2, e3, e4⟩ := btrfs_insert_item_split key_of rest t2 x hr
          refine ⟨y :: l1, l2, by rw [e1]; rfl, by rw [h1, e2]; rfl, ?_, e4⟩
          intro z hz
          rcases List.mem_cons.mp hz with hz | hz
          · rw [hz]
            rcases btrfs_key_lt_trichotomy (key_of y) (key_of x) with h3 | h3 | h3
            · exact h3
            · exact absurd h3 heq
            · exact absurd h3 hlt
          · exact e3 z hz

/-- The insertion succeeds when the key is new. -/
theorem btrfs_insert_item_total {ι : Type} (key_of : ι → btrfs_key) :
    ∀ (t : List ι) (x : ι), (∀ y ∈ t, key_of y ≠ key_of x) →
      ∃ t1, btrfs_insert_item key_of t x = .ok t1
  | [], x, _ => ⟨[x], rfl⟩
  | y :: rest, x, h => by
    simp only [btrfs_insert_item]
    by_cases hlt : btrfs_key_lt (key_of x) (key_of y)
    · rw [if_pos hlt]; exact ⟨_, rfl⟩
    · rw [if_neg hlt, if_neg (h y (List.mem_cons_self _ _))]
      obtain ⟨t2, h2⟩ := btrfs_insert_item_total key_of rest x
        (fun z hz => h z (List.mem_cons_of_mem _ hz))
      rw [h2]; exact ⟨_, rfl⟩

/-- The insertion into a device tree in key order: the tree stays in key order,
the items in front of the new one have smaller keys and the items behind it
larger ones. -/
theorem dev_tree_insert (t t1 : List dev_extent_item) (x : dev_extent_item)
    (hs : dev_tree_sorted t)
    (h : btrfs_insert_item (fun it => it.key) t x = .ok t1) :
    ∃ l1 l2, t = l1 ++ l2 ∧ t1 = l1 ++ x :: l2 ∧
      (∀ y ∈ l1, btrfs_key_lt y.key x.key) ∧ (∀ y ∈ l2, btrfs_key_lt x.key y.key) ∧
      dev_tree_sorted t1 := by
  obtain ⟨l1, l2, e1, e2, e3, e4⟩ := btrfs_insert_item_split (fun it => it.key) t t1 x h
  unfold dev_tree_sorted at hs ⊢
  rw [e1, List.pairwise_append] at hs
  obtain ⟨hs1, hs2, hs3⟩ := hs
  have e5 : ∀ y ∈ l2, btrfs_key_lt x.key y.key := by
    intro y hy
    cases l2 with
    | nil => exact absurd hy (List.not_mem_nil _)
    | cons z rest =>
      have hz := e4 z rfl
      rcases List.mem_cons.mp hy with hy | hy
      · rw [hy]; exact hz
      · exact btrfs_key_lt_trans hz ((List.pairwise_cons.mp hs2).1 y hy)
  refine ⟨l1, l2, e1, e2, e3, e5, ?_⟩
  rw [e2, List.pairwise_append]
  refine ⟨hs1, List.pairwise_cons.mpr ⟨e5, hs2⟩, ?_⟩
  intro a ha b hb
  rcases List.mem_cons.mp hb with hb | hb
  · rw [hb]; exact e3 a ha
  · exact hs3 a ha b hb

theorem tiles_from_le : ∀ (es : List (Nat × Nat)) (a b : Nat), tiles_from a es = some b →
    a ≤ b ∧ ∀ e ∈ es, a ≤ e.1 ∧ 1 ≤ e.2 ∧ e.1 + e.2 ≤ b
  | [], a, b, h => by
    simp only [tiles_from] at h
    have : a = b := Option.some.inj h
    exact ⟨Nat.le_of_eq this, fun e he => absurd he (List.not_mem_nil _)⟩
  | e :: rest, a, b, h => by
    simp only [tiles_from] at h
    split at h
    · rename_i hc
      obtain ⟨h1, h2⟩ := tiles_from_le rest _ b h
      refine ⟨by omega, ?_⟩
      intro e2 he2
      rcases List.mem_cons.mp he2 with he2 | he2
      · rw [he2]; omega
      · have := h2 e2 he2; omega
    · exact absurd h (by simp)

theorem tiles_from_append : ∀ (es : List (Nat × Nat)) (a b n : Nat), tiles_from a es = some b →
    1 ≤ n → tiles_from a (es ++ [(b, n)]) = some (b + n)
  | [], a, b, n, h, hn => by
    simp only [tiles_from] at h
    have : a = b := Option.some.inj h
    simp only [List.nil_append, tiles_from, this, hn, and_self, if_true]
  | e :: rest, a, b, n, h, hn => by
    simp only [tiles_from] at h
    split at h
    · rename_i hc
      simp only [List.cons_append, tiles_from, hc, and_self, if_true]
      exact tiles_from_append rest _ b n h hn
    · exact absurd h (by simp)
/-- The scan of `find_free_dev_extent` is the loop over the items of the
device, from its first item on. -/
theorem find_free_dev_extent_eq_loop (K : ctree_consts) (dev_root : List dev_extent_item)
    (device : btrfs_device) (num_bytes : Nat)
    (hsorted : dev_tree_sorted dev_root)
    (htype : ∀ it ∈ dev_root, it.key.objectid = device.devid →
      it.key.type = K.BTRFS_DEV_EXTENT_KEY) :
    find_free_dev_extent K dev_root device num_bytes =
      find_free_dev_extent_loop K device.devid num_bytes 0 device.total_bytes
        (dev_root.filter (fun it => decide (it.key.objectid = device.devid))) 0 false := by
  have hmono : dev_root.Pairwise (fun a b => a.key.objectid ≤ b.key.objectid) := by
    refine List.Pairwise.imp ?_ hsorted
    intro a b hab
    rcases hab with h | h
    · exact Nat.le_of_lt h
    · exact Nat.le_of_eq h.1
  unfold find_free_dev_extent
  simp only
  rw [find_free_dev_extent_loop_filter K _ _ _ _ _ _ _
    (List.Pairwise.sublist (List.drop_sublist _ _) hmono)]
  congr 1
  apply filter_drop_of_take
  intro a ha
  have hle := btrfs_previous_item_le (dev_root.map (fun it => it.key)) K.BTRFS_DEV_EXTENT_KEY
    (btrfs_search_slot (dev_root.map (fun it => it.key))
      { objectid := device.devid, type := K.BTRFS_DEV_EXTENT_KEY, offset := 0 }).2
  have ha2 : a ∈ dev_root.take (btrfs_search_slot (dev_root.map (fun it => it.key))
      { objectid := device.devid, type := K.BTRFS_DEV_EXTENT_KEY, offset := 0 }).2 :=
    (List.take_sublist_take_left _ hle).subset ha
  have hk : a.key ∈ (dev_root.map (fun it => it.key)).take
      (btrfs_search_slot (dev_root.map (fun it => it.key))
      { objectid := device.devid, type := K.BTRFS_DEV_EXTENT_KEY, offset := 0 }).2 := by
    rw [← List.map_take]
    exact List.mem_map_of_mem _ ha2
  have hlt := btrfs_search_slot_le _ _ _ hk
  have hmem : a ∈ dev_root := List.mem_of_mem_take ha2
  by_cases h : a.key.objectid = device.devid
  · exfalso
    have ht := htype a hmem h
    rcases hlt with h3 | ⟨_, h3 | ⟨_, h3⟩⟩
    · simp only at h3; omega
    · simp only at h3; omega
    · simp only at h3; omega
  · simp [h]

/-- The extents of a device in a device tree that holds device extents only. -/
theorem dev_extents_eq_filter (K : ctree_consts) (dev_root : List dev_extent_item) (devid : Nat)
    (htype : ∀ it ∈ dev_root, it.key.type = K.BTRFS_DEV_EXTENT_KEY) :
    dev_extents K dev_root devid =
      (dev_root.filter (fun it => decide (it.key.objectid = devid))).map
        (fun it => (it.key.offset, it.length)) := by
  unfold dev_extents
  congr 1
  apply List.filter_congr
  intro x hx
  simp [htype x hx]

/-- Over extents that tile a region the loop finds no gap and runs to the end
of the items of the device. -/
theorem find_free_dev_extent_loop_tiled (K : ctree_consts) (devid nb total : Nat) :
    ∀ (l : List dev_extent_item) (lb b : Nat),
      (∀ it ∈ l, it.key.objectid = devid ∧ it.key.type = K.BTRFS_DEV_EXTENT_KEY) →
      tiles_from lb (l.map (fun it => (it.key.offset, it.length))) = some b →
      b < 18446744073709551616 →
      find_free_dev_extent_loop K devid nb 0 total l lb true =
        no_more_items nb 0 total b true
  | [], lb, b, _, h, _ => by
    simp only [List.map_nil, tiles_from] at h
    have : lb = b := Option.some.inj h
    rw [this]; rfl
  | it :: rest, lb, b, hty, h, hb => by
    simp only [List.map_cons, tiles_from] at h
    split at h
    · rename_i hc
      obtain ⟨ho, ht⟩ := hty it (List.mem_cons_self _ _)
      have hle := (tiles_from_le _ _ _ h).1
      rw [find_free_dev_extent_loop_cons_found K devid nb total it rest lb ho]
      have c1 : ¬ (it.key.offset > lb ∧ u64_sub it.key.offset lb ≥ nb) := by
        intro hh; omega
      have c2 : ¬ (it.key.type ≠ K.BTRFS_DEV_EXTENT_KEY) := fun hh => hh ht
      rw [if_neg c1, if_neg c2, hc.1, u64_of_lt (by omega)]
      exact find_free_dev_extent_loop_tiled K devid nb total rest _ b
        (fun t ht => hty t (List.mem_cons_of_mem _ ht)) h hb
    · exact absurd h (by simp)

/-- On a device whose extents tile `[0, bytes_used)`, a request that fits
behind them gets `start = bytes_used`. -/
theorem find_free_dev_extent_tiled (K : ctree_consts) (dev_root : List dev_extent_item)
    (device : btrfs_device) (cs : Nat)
    (hsorted : dev_tree_sorted dev_root)
    (htype : ∀ it ∈ dev_root, it.key.type = K.BTRFS_DEV_EXTENT_KEY)
    (htot : device.total_bytes < 18446744073709551616)
    (htile : tiles_from 0 (dev_extents K dev_root device.devid) = some device.bytes_used)
    (hcs : 0 < cs) (hfit : device.bytes_used + cs ≤ device.total_bytes) :
    find_free_dev_extent K dev_root device cs = .ok (.ok device.bytes_used) := by
  rw [find_free_dev_extent_eq_loop K dev_root device cs hsorted (fun it hit _ => htype it hit)]
  rw [dev_extents_eq_filter K dev_root device.devid htype] at htile
  have hty : ∀ it ∈ dev_root.filter (fun it => decide (it.key.objectid = device.devid)),
      it.key.objectid = device.devid ∧ it.key.type = K.BTRFS_DEV_EXTENT_KEY := by
    intro it hit
    have h := List.mem_filter.mp hit
    have h1 : it.key.objectid = device.devid := by simpa using h.2
    exact ⟨h1, htype it h.1⟩
  have hfin : no_more_items cs 0 device.total_bytes device.bytes_used true =
      .ok (.ok device.bytes_used) := by
    rw [no_more_items_found hcs (by omega), if_pos hfit]
  generalize dev_root.filter (fun it => decide (it.key.objectid = device.devid)) = l at *
  cases l with
  | nil =>
    simp only [List.map_nil, tiles_from] at htile
    have hb : device.bytes_used = 0 := (Option.some.inj htile).symm
    rw [hb] at hfit ⊢
    have c1 : ¬ (0 ≥ device.total_bytes) := by omega
    have c2 : ¬ (u64 (0 + cs) > device.total_bytes) := by
      rw [u64_of_lt (by omega)]; omega
    simp only [find_free_dev_extent_loop, no_more_items, check_pending, Bool.not_false, if_true,
      c1, c2, if_false, Nat.lt_irrefl]
  | cons it rest =>
    obtain ⟨ho, ht⟩ := hty it (List.mem_cons_self _ _)
    simp only [List.map_cons, tiles_from] at htile
    split at htile
    · rename_i hc
      have hle := (tiles_from_le _ _ _ htile).1
      rw [find_free_dev_extent_loop_cons_first K device.devid cs 0 device.total_bytes it rest 0
        ho ht, hc.1, u64_of_lt (by omega)]
      rw [find_free_dev_extent_loop_tiled K device.devid cs device.total_bytes rest _
        device.bytes_used (fun t ht => hty t (List.mem_cons_of_mem _ ht)) htile (by omega)]
      exact hfin
    · exact absurd htile (by simp)
/-- On a device whose extents tile `[0, bytes_used)`, `btrfs_alloc_dev_extent`
for a request that fits behind them returns `start = bytes_used` and puts the
new extent behind the extents of the device; the extents of the other devices
stay as they are. -/
theorem btrfs_alloc_dev_extent_tiled (K : ctree_consts) (dev_root : List dev_extent_item)
    (device : btrfs_device) (owner cs : Nat)
    (hsorted : dev_tree_sorted dev_root)
    (htype : ∀ it ∈ dev_root, it.key.type = K.BTRFS_DEV_EXTENT_KEY)
    (htot : device.total_bytes < 18446744073709551616)
    (htile : tiles_from 0 (dev_extents K dev_root device.devid) = some device.bytes_used)
    (hcs : 0 < cs) (hfit : device.bytes_used + cs ≤ device.total_bytes) :
    ∃ dev_root1,
      btrfs_alloc_dev_extent K dev_root device owner cs =
        .ok (.ok (device.bytes_used, dev_root1)) ∧
      dev_tree_sorted dev_root1 ∧
      (∀ it ∈ dev_root1, it.key.type = K.BTRFS_DEV_EXTENT_KEY) ∧
      dev_extents K dev_root1 device.devid =
        dev_extents K dev_root device.devid ++ [(device.bytes_used, cs)] ∧
      ∀ devid, devid ≠ device.devid →
        dev_extents K dev_root1 devid = dev_extents K dev_root devid := by
  have hfind := find_free_dev_extent_tiled K dev_root device cs hsorted htype htot htile hcs hfit
  have hext : ∀ y ∈ dev_root, y.key.objectid = device.devid →
      y.key.offset + y.length ≤ device.bytes_used ∧ 1 ≤ y.length := by
    intro y hy ho
    have hm : (y.key.offset, y.length) ∈ dev_extents K dev_root device.devid := by
      unfold dev_extents
      apply List.mem_map.mpr
      refine ⟨y, List.mem_filter.mpr ⟨hy, ?_⟩, rfl⟩
      simp [ho, htype y hy]
    have := (tiles_from_le _ _ _ htile).2 _ hm
    exact ⟨this.2.2, this.2.1⟩
  have hnew : ∀ y ∈ dev_root,
      y.key ≠ (new_dev_extent K device.devid owner cs device.bytes_used).key := by
    intro y hy heq
    have ho : y.key.objectid = device.devid := by rw [heq]; rfl
    have hf : y.key.offset = device.bytes_used := by rw [heq]; rfl
    have := hext y hy ho
    omega
  obtain ⟨t1, hins⟩ := btrfs_insert_item_total (fun it => it.key) dev_root
    (new_dev_extent K device.devid owner cs device.bytes_used) hnew
  obtain ⟨l1, l2, e1, e2, e3, e4, e5⟩ := dev_tree_insert dev_root t1 _ hsorted hins
  refine ⟨t1, ?_, e5, ?_, ?_, ?_⟩
  · unfold btrfs_alloc_dev_extent
    rw [hfind]
    simp only [hins]
  · intro it hit
    rw [e2] at hit
    rcases List.mem_append.mp hit with h | h
    · exact htype it (by rw [e1]; exact List.mem_append_left _ h)
    · rcases List.mem_cons.mp h with h | h
      · rw [h]; rfl
      · exact htype it (by rw [e1]; exact List.mem_append_right _ h)
  · have hl2 : l2.filter (fun it => decide (it.key.objectid = device.devid) &&
        decide (it.key.type = K.BTRFS_DEV_EXTENT_KEY)) = [] := by
      apply List.filter_eq_nil_iff.mpr
      intro y hy hp
      have hp2 : y.key.objectid = device.devid ∧ y.key.type = K.BTRFS_DEV_EXTENT_KEY := by
        simpa using hp
      have hlt := e4 y hy
      have hb := hext y (by rw [e1]; exact List.mem_append_right _ hy) hp2.1
      have hx1 : (new_dev_extent K device.devid owner cs device.bytes_used).key.objectid =
          device.devid := rfl
      have hx2 : (new_dev_extent K device.devid owner cs device.bytes_used).key.type =
          K.BTRFS_DEV_EXTENT_KEY := rfl
      have hx3 : (new_dev_extent K device.devid owner cs device.bytes_used).key.offset =
          device.bytes_used := rfl
      unfold btrfs_key_lt at hlt
      rw [hx1, hx2, hx3] at hlt
      omega
    have hpx : (decide ((new_dev_extent K device.devid owner cs device.bytes_used).key.objectid =
          device.devid) &&
        decide ((new_dev_extent K device.devid owner cs device.bytes_used).key.type =
          K.BTRFS_DEV_EXTENT_KEY)) = true := by
      simp [new_dev_extent]
    unfold dev_extents
    rw [e1, e2]
    simp only [List.filter_append, List.filter_cons, hpx, hl2, if_true, List.append_nil,
      List.map_append, List.map_cons, List.map_nil]
    rfl
  · intro devid hne
    have hpx : (decide ((new_dev_extent K device.devid owner cs device.bytes_used).key.objectid =
          devid) &&
        decide ((new_dev_extent K device.devid owner cs device.bytes_used).key.type =
          K.BTRFS_DEV_EXTENT_KEY)) = false := by
      have : ¬ device.devid = devid := fun h => hne h.symm
      simp [new_dev_extent, this]
    unfold dev_extents
    rw [e1, e2]
    simp only [List.filter_append, List.filter_cons, hpx, Bool.false_eq_true, if_false]
theorem dev_tiled_perm (K : ctree_consts) (devices devices1 : List btrfs_device)
    (dev_root : List dev_extent_item) (hp : devices.Perm devices1)
    (h : dev_tiled K devices dev_root) : dev_tiled K devices1 dev_root := by
  obtain ⟨h1, h2, h3, h4⟩ := h
  refine ⟨h1, h2, ?_, ?_⟩
  · exact (List.Perm.nodup_iff (List.Perm.map _ hp)).mp h3
  · intro d hd
    exact h4 d (hp.symm.subset hd)

/-- One turn of the stripe loop on devices the allocator has filled: the
device extent is found at `bytes_used`, and the devices are again filled
devices once `bytes_used` has been raised. -/
theorem dev_tiled_step (K : ctree_consts) (d : btrfs_device) (others : List btrfs_device)
    (dev_root : List dev_extent_item) (owner cs : Nat)
    (h : dev_tiled K (d :: others) dev_root) (hcs : 0 < cs) (hav : cs ≤ avail d) :
    find_free_dev_extent K dev_root d cs = .ok (.ok d.bytes_used) ∧
    ∃ dev_root1,
      btrfs_alloc_dev_extent K dev_root d owner cs = .ok (.ok (d.bytes_used, dev_root1)) ∧
      dev_tiled K (bytes_used_add cs d :: others) dev_root1 := by
  obtain ⟨h1, h2, h3, h4⟩ := h
  obtain ⟨ht, hu, htile⟩ := h4 d (List.mem_cons_self _ _)
  have hav2 : cs ≤ d.total_bytes - d.bytes_used := by
    rw [← avail_eq_sub hu ht]; exact hav
  have hfit : d.bytes_used + cs ≤ d.total_bytes := by omega
  refine ⟨find_free_dev_extent_tiled K dev_root d cs h1 h2 ht htile hcs hfit, ?_⟩
  obtain ⟨dr1, g1, g2, g3, g4, g5⟩ :=
    btrfs_alloc_dev_extent_tiled K dev_root d owner cs h1 h2 ht htile hcs hfit
  have hbu : (bytes_used_add cs d).bytes_used = d.bytes_used + cs := bytes_used_add_eq hu ht hav
  refine ⟨dr1, g1, g2, g3, h3, ?_⟩
  intro e he
  rcases List.mem_cons.mp he with he | he
  · rw [he]
    refine ⟨ht, ?_, ?_⟩
    · rw [hbu]; exact hfit
    · rw [hbu]
      show tiles_from 0 (dev_extents K dr1 d.devid) = _
      rw [g4]
      exact tiles_from_append _ _ _ _ htile hcs
  · have hne : e.devid ≠ d.devid := by
      intro heq
      have hnd := (List.nodup_cons.mp h3).1
      apply hnd
      show d.devid ∈ List.map (fun d => d.devid) others
      rw [← heq]
      exact List.mem_map_of_mem (fun d => d.devid) he
    rw [g5 e.devid hne]
    exact h4 e (List.mem_cons_of_mem _ he)

/-- The stripe loop keeps the devices filled devices, and every stripe is
reserved at the `bytes_used` of its device. -/
theorem alloc_stripes_tiled (K : ctree_consts) (owner cs : Nat) (hcs : 0 < cs) :
    ∀ (n : Nat) (pv : List btrfs_device) (info info1 : btrfs_fs_info)
      (left : List btrfs_device) (stripes : List (btrfs_device × Nat)),
      alloc_stripes K owner cs n pv info = .ok (info1, left, stripes) →
      dev_tiled K (pv ++ info.devices) info.dev_root →
      (∀ d ∈ pv, cs ≤ avail d) →
      dev_tiled K (left ++ info1.devices) info1.dev_root ∧
        stripes.map (fun s => s.2) = (pv.take n).map (fun d => d.bytes_used)
  | 0, pv, info, info1, left, stripes, h, hinv, _ => by
    simp only [alloc_stripes] at h
    have h1 := Except.ok.inj h
    have e1 : info1 = info := (congrArg Prod.fst h1).symm
    have e2 : left = pv := (congrArg (fun x => x.2.1) h1).symm
    have e3 : stripes = [] := (congrArg (fun x => x.2.2) h1).symm
    rw [e1, e2, e3]
    exact ⟨hinv, rfl⟩
  | n + 1, [], info, info1, left, stripes, h, _, _ => by
    simp only [alloc_stripes] at h
    exact absurd h (by simp)
  | n + 1, d :: pl, info, info1, left, stripes, h, hinv, hav => by
    rw [List.cons_append] at hinv
    obtain ⟨_, dr1, g1, g2⟩ := dev_tiled_step K d (pl ++ info.devices) info.dev_root owner cs
      hinv hcs (hav d (List.mem_cons_self _ _))
    simp only [alloc_stripes, g1] at h
    cases hu : btrfs_update_device K info.chunk_root (bytes_used_add cs d) with
    | error e => rw [hu] at h; exact absurd h (by simp)
    | ok cr1 =>
      rw [hu] at h
      simp only at h
      cases hr : alloc_stripes K owner cs n pl
          { info with devices := list_move_tail (bytes_used_add cs d) info.devices,
                      dev_root := dr1, chunk_root := cr1 } with
      | error f => rw [hr] at h; exact absurd h (by simp)
      | ok r =>
        obtain ⟨i1, l1, s1⟩ := r
        rw [hr] at h
        simp only at h
        have h1 := Except.ok.inj h
        have e1 : info1 = i1 := (congrArg Prod.fst h1).symm
        have e2 : left = l1 := (congrArg (fun x => x.2.1) h1).symm
        have e3 : stripes = (bytes_used_add cs d, d.bytes_used) :: s1 :=
          (congrArg (fun x => x.2.2) h1).symm
        have hinv2 : dev_tiled K (pl ++ list_move_tail (bytes_used_add cs d) info.devices) dr1 := by
          apply dev_tiled_perm K _ _ _ _ g2
          unfold list_move_tail
          rw [← List.append_assoc]
          exact (List.perm_append_singleton _ _).symm
        obtain ⟨k1, k2⟩ := alloc_stripes_tiled K owner cs hcs n pl _ i1 l1 s1 hr hinv2
          (fun e he => hav e (List.mem_cons_of_mem _ he))
        rw [e1, e2, e3]
        refine ⟨k1, ?_⟩
        simp only [List.map_cons, List.take_succ_cons, k2]

/-- A call of `btrfs_alloc_chunk` that returns leaves filled devices filled
devices. -/
theorem btrfs_alloc_chunk_tiled (K : ctree_consts) (info info2 : btrfs_fs_info)
    (extent_root : btrfs_root) (type : Nat) (ret : Except errno (Nat × Nat))
    (h : btrfs_alloc_chunk K info extent_root type = .ok (ret, info2))
    (hinv : dev_tiled K info.devices info.dev_root) :
    dev_tiled K info2.devices info2.dev_root := by
  rcases btrfs_alloc_chunk_cases K info info2 extent_root type ret h with
    ⟨_, _, h2⟩ | ⟨_, _, dl, hs, h2⟩ | ⟨_, cs, dl, pv, hs, ha⟩
  · rw [h2]; exact hinv
  · rw [h2]
    exact dev_tiled_perm K _ _ _ (select_devices_error_perm _ _ _ hs).symm hinv
  · obtain ⟨hp, hav, _, hcs, _⟩ := select_devices_ok_inv _ _ _ _ _ hs
    obtain ⟨L, info1, stripes, _, _, hst, _, _, hd, hr, _⟩ :=
      alloc_chunk_assemble_ok_inv K _ info2 extent_root type _ _ cs pv ret ha
    have hinv1 : dev_tiled K (pv ++ dl) info.dev_root := dev_tiled_perm K _ _ _ hp.symm hinv
    obtain ⟨k1, _⟩ := alloc_stripes_tiled K L cs hcs _ pv _ info1 [] stripes hst hinv1 hav
    rw [hd, hr]
    exact k1

/-- A sequence of calls of `btrfs_alloc_chunk` leaves filled devices filled
devices. -/
theorem alloc_chunks_tiled (K : ctree_consts) :
    ∀ (calls : List (btrfs_root × Nat)) (info info1 : btrfs_fs_info),
      alloc_chunks K info calls = .ok info1 → dev_tiled K info.devices info.dev_root →
      dev_tiled K info1.devices info1.dev_root
  | [], info, info1, h, hinv => by
    simp only [alloc_chunks] at h
    rw [← Except.ok.inj h]; exact hinv
  | c :: rest, info, info1, h, hinv => by
    simp only [alloc_chunks] at h
    cases hc : btrfs_alloc_chunk K info c.1 c.2 with
    | error f => rw [hc] at h; exact absurd h (by simp)
    | ok r =>
      obtain ⟨ret, info2⟩ := r
      rw [hc] at h
      simp only at h
      exact alloc_chunks_tiled K rest info2 info1 h
        (btrfs_alloc_chunk_tiled K info info2 c.1 c.2 ret hc hinv)
theorem btrfs_search_slot_of_mem : ∀ (keys : List btrfs_key) (key : btrfs_key),
    keys.Pairwise btrfs_key_lt → key ∈ keys → (btrfs_search_slot keys key).1 = 0
  | [], key, _, h => absurd h (List.not_mem_nil _)
  | k :: rest, key, hs, h => by
    obtain ⟨hk, hrest⟩ := List.pairwise_cons.mp hs
    simp only [btrfs_search_slot]
    by_cases hlt : btrfs_key_lt k key
    · rw [if_pos hlt]
      rcases List.mem_cons.mp h with h | h
      · rw [h] at hlt; exact absurd hlt (btrfs_key_lt_irrefl k)
      · exact btrfs_search_slot_of_mem rest key hrest h
    · rw [if_neg hlt]
      rcases List.mem_cons.mp h with h | h
      · rw [if_pos h.symm]
      · exact absurd (hk key h) hlt

/-- `btrfs_update_device` returns 0 when the chunk tree, in key order, holds
the dev item of the device; the keys of the chunk tree stay as they are. -/
theorem btrfs_update_device_total (K : ctree_consts) (chunk_root : List btrfs_item)
    (device : btrfs_device) (hs : chunk_tree_sorted chunk_root)
    (hk : dev_item_key K device ∈ chunk_root.map (fun it => it.key)) :
    ∃ chunk_root1, btrfs_update_device K chunk_root device = .ok chunk_root1 ∧
      chunk_root1.map (fun it => it.key) = chunk_root.map (fun it => it.key) ∧
      chunk_tree_sorted chunk_root1 := by
  have hs2 : (chunk_root.map (fun it => it.key)).Pairwise btrfs_key_lt :=
    List.pairwise_map.mpr hs
  have h0 := btrfs_search_slot_of_mem _ _ hs2 hk
  have hex : ∃ chunk_root1, btrfs_update_device K chunk_root device = .ok chunk_root1 := by
    unfold btrfs_update_device
    simp only
    have h1 : ¬ (btrfs_search_slot (chunk_root.map (fun it => it.key))
        { objectid := K.BTRFS_DEV_ITEMS_OBJECTID, type := K.BTRFS_DEV_ITEM_KEY,
          offset := device.devid }).1 > 0 := by
      have : (btrfs_search_slot (chunk_root.map (fun it => it.key))
        { objectid := K.BTRFS_DEV_ITEMS_OBJECTID, type := K.BTRFS_DEV_ITEM_KEY,
          offset := device.devid }).1 = 0 := h0
      rw [this]; exact Int.lt_irrefl 0
    rw [if_neg h1]
    exact ⟨_, rfl⟩
  obtain ⟨cr1, h1⟩ := hex
  have hkeys := btrfs_update_device_keys K chunk_root cr1 device h1
  refine ⟨cr1, h1, hkeys, ?_⟩
  unfold chunk_tree_sorted
  apply List.pairwise_map.mp
  rw [hkeys]; exact hs2

/-- On devices the allocator has filled, with their dev items in the chunk
tree, the stripe loop runs to its end: no assertion of the loop fires, and
every stripe is reserved at the `bytes_used` of its device. -/
theorem alloc_stripes_total (K : ctree_consts) (owner cs : Nat) (hcs : 0 < cs) :
    ∀ (pv : List btrfs_device) (info : btrfs_fs_info),
      dev_tiled K (pv ++ info.devices) info.dev_root →
      (∀ d ∈ pv, cs ≤ avail d) →
      chunk_tree_sorted info.chunk_root →
      (∀ d ∈ pv, dev_item_key K d ∈ info.chunk_root.map (fun it => it.key)) →
      ∃ info1 stripes,
        alloc_stripes K owner cs pv.length pv info = .ok (info1, [], stripes) ∧
        stripes.map (fun s => s.2) = pv.map (fun d => d.bytes_used) ∧
        dev_tiled K info1.devices info1.dev_root
  | [], info, hinv, _, _, _ => ⟨info, [], rfl, rfl, hinv⟩
  | d :: pl, info, hinv, hav, hs, hk => by
    rw [List.cons_append] at hinv
    obtain ⟨_, dr1, g1, g2⟩ := dev_tiled_step K d (pl ++ info.devices) info.dev_root owner cs
      hinv hcs (hav d (List.mem_cons_self _ _))
    obtain ⟨cr1, u1, u2, u3⟩ := btrfs_update_device_total K info.chunk_root
      (bytes_used_add cs d) hs (hk d (List.mem_cons_self _ _))
    have hinv2 : dev_tiled K (pl ++ list_move_tail (bytes_used_add cs d) info.devices) dr1 := by
      apply dev_tiled_perm K _ _ _ _ g2
      unfold list_move_tail
      rw [← List.append_assoc]
      exact (List.perm_append_singleton _ _).symm
    obtain ⟨info1, s1, k1, k2, k3⟩ := alloc_stripes_total K owner cs hcs pl
      { info with devices := list_move_tail (bytes_used_add cs d) info.devices,
                  dev_root := dr1, chunk_root := cr1 }
      hinv2 (fun e he => hav e (List.mem_cons_of_mem _ he)) u3
      (fun e he => by
        show dev_item_key K e ∈ cr1.map (fun it => it.key)
        rw [u2]; exact hk e (List.mem_cons_of_mem _ he))
    refine ⟨info1, (bytes_used_add cs d, d.bytes_used) :: s1, ?_, ?_, k3⟩
    · simp only [List.length_cons, alloc_stripes, g1, u1, k1]
    · simp only [List.map_cons, k2]
/-- C24: the assertion behind `btrfs_alloc_dev_extent` is unreachable on
devices the allocator has filled. Start from devices with distinct devids,
`bytes_used = 0`, `total_bytes < 2^64` and an empty device tree, and let a
sequence of calls of `btrfs_alloc_chunk` return. Then, in the state reached,
(1) for every device `bytes_used ≤ total_bytes` and the extents of the device
tile `[0, bytes_used)`; (2) for every device that the selection accepts for a
`calc_size > 0` (`avail ≥ calc_size`), `find_free_dev_extent` returns
`start = bytes_used` and `btrfs_alloc_dev_extent` returns 0, so that the
`BUG_ON(ret)` behind it does not fire; (3) when the selection of the next call
has returned the private list, and the chunk tree, in key order, holds the dev
items of the devices, the whole stripe loop runs to its end, every stripe
reserved at the `bytes_used` of its device. -/
theorem alloc_chunks_assertion_unreachable (K : ctree_consts) (info0 info : btrfs_fs_info)
    (calls : List (btrfs_root × Nat))
    (hroot : info0.dev_root = [])
    (hdev : ∀ d ∈ info0.devices, d.bytes_used = 0 ∧ d.total_bytes < 18446744073709551616)
    (hnd : (info0.devices.map (fun d => d.devid)).Nodup)
    (hrun : alloc_chunks K info0 calls = .ok info) :
    (∀ d ∈ info.devices, d.bytes_used ≤ d.total_bytes ∧
      tiles_from 0 (dev_extents K info.dev_root d.devid) = some d.bytes_used) ∧
    (∀ d ∈ info.devices, ∀ (calc_size owner : Nat), 0 < calc_size → calc_size ≤ avail d →
      find_free_dev_extent K info.dev_root d calc_size = .ok (.ok d.bytes_used) ∧
      ∃ dev_root1, btrfs_alloc_dev_extent K info.dev_root d owner calc_size =
        .ok (.ok (d.bytes_used, dev_root1))) ∧
    (∀ (num_stripes : Int) (owner calc_size : Nat) (dev_list private_devs : List btrfs_device),
      select_devices num_stripes info.devices = .ok (calc_size, dev_list, private_devs) →
      chunk_tree_sorted info.chunk_root →
      (∀ d ∈ info.devices, dev_item_key K d ∈ info.chunk_root.map (fun it => it.key)) →
      ∃ info1 stripes,
        alloc_stripes K owner calc_size num_stripes.toNat private_devs
          { info with devices := dev_list } = .ok (info1, [], stripes) ∧
        stripes.map (fun s => s.2) = private_devs.map (fun d => d.bytes_used)) := by
  have h0 : dev_tiled K info0.devices info0.dev_root := by
    refine ⟨?_, ?_, hnd, ?_⟩
    · rw [hroot]; exact List.Pairwise.nil
    · rw [hroot]; intro it hit; exact absurd hit (List.not_mem_nil _)
    · intro d hd
      obtain ⟨h1, h2⟩ := hdev d hd
      refine ⟨h2, by rw [h1]; exact Nat.zero_le _, ?_⟩
      rw [hroot, h1]; rfl
  have hinv := alloc_chunks_tiled K calls info0 info hrun h0
  refine ⟨fun d hd => (hinv.2.2.2 d hd).2, ?_, ?_⟩
  · intro d hd cs owner hcs hav
    have hp : info.devices.Perm (d :: info.devices.erase d) := List.perm_cons_erase hd
    obtain ⟨g1, dr1, g2, _⟩ := dev_tiled_step K d (info.devices.erase d) info.dev_root owner cs
      (dev_tiled_perm K _ _ _ hp hinv) hcs hav
    exact ⟨g1, dr1, g2⟩
  · intro ns owner cs dl pv hs hsorted hk
    obtain ⟨hp, hav, hlen, hcs, _⟩ := select_devices_ok_inv _ _ _ _ _ hs
    obtain ⟨info1, stripes, k1, k2, _⟩ := alloc_stripes_total K owner cs hcs pv
      { info with devices := dl } (dev_tiled_perm K _ _ _ hp.symm hinv) hav hsorted
      (fun d hd => hk d (hp.subset (List.mem_append_left _ hd)))
    rw [hlen] at k1
    exact ⟨info1, stripes, k1, k2⟩

/-- Witness of C24: two calls for `DATA | RAID0` on two empty devices of
1 GiB; each device then holds the extents `[0, 8 MiB)` and `[8 MiB, 16 MiB)`,
and `bytes_used` is 16 MiB. -/
theorem alloc_chunks_assertion_unreachable_witness :
    alloc_chunks K0 ex_info_two [(ex_root, 9), (ex_root, 9)] = .ok ex_info_two_after2 ∧
    dev_extents K0 ex_info_two_after2.dev_root 1 = [(0, 8388608), (8388608, 8388608)] ∧
    ex_info_two_after2.devices.map (fun d => d.bytes_used) = [16777216, 16777216] ∧
    (∀ d ∈ ex_info_two_after2.devices, d.bytes_used ≤ d.total_bytes ∧
      tiles_from 0 (dev_extents K0 ex_info_two_after2.dev_root d.devid) = some d.bytes_used) ∧
    (∀ d ∈ ex_info_two_after2.devices, ∀ (calc_size owner : Nat), 0 < calc_size →
      calc_size ≤ avail d →
      find_free_dev_extent K0 ex_info_two_after2.dev_root d calc_size = .ok (.ok d.bytes_used) ∧
      ∃ dev_root1, btrfs_alloc_dev_extent K0 ex_info_two_after2.dev_root d owner calc_size =
        .ok (.ok (d.bytes_used, dev_root1))) ∧
    (∀ (num_stripes : Int) (owner calc_size : Nat) (dev_list private_devs : List btrfs_device),
      select_devices num_stripes ex_info_two_after2.devices =
        .ok (calc_size, dev_list, private_devs) →
      chunk_tree_sorted ex_info_two_after2.chunk_root →
      (∀ d ∈ ex_info_two_after2.devices,
        dev_item_key K0 d ∈ ex_info_two_after2.chunk_root.map (fun it => it.key)) →
      ∃ info1 stripes,
        alloc_stripes K0 owner calc_size num_stripes.toNat private_devs
          { ex_info_two_after2 with devices := dev_list } = .ok (info1, [], stripes) ∧
        stripes.map (fun s => s.2) = private_devs.map (fun d => d.bytes_used)) :=
  ⟨rfl, rfl, rfl,
    alloc_chunks_assertion_unreachable K0 ex_info_two ex_info_two_after2
      [(ex_root, 9), (ex_root, 9)] rfl (by decide) (by decide) rfl⟩

/-! ## The array of system chunks: what is appended is what is read -/

theorem le_bytes_length : ∀ (n x : Nat), (le_bytes n x).length = n
  | 0, _ => rfl
  | n + 1, x => by
    show (le_bytes n (x / 256)).length + 1 = n + 1
    rw [le_bytes_length n]

theorem le_value_le_bytes : ∀ (n x : Nat), x < 256 ^ n → le_value (le_bytes n x) = x
  | 0, x, h => by
    have : x = 0 := by simpa using h
    subst this; rfl
  | n + 1, x, h => by
    show x % 256 + 256 * le_value (le_bytes n (x / 256)) = x
    have h1 : x / 256 < 256 ^ n := by
      apply Nat.div_lt_of_lt_mul
      rw [← Nat.pow_succ']; exact h
    rw [le_value_le_bytes n _ h1]
    exact Nat.mod_add_div x 256

theorem read_bytes_append (a b c : List Nat) :
    read_bytes (a ++ (b ++ c)) a.length b.length = some b := by
  unfold read_bytes
  rw [if_pos (by simp)]
  simp

theorem btrfs_cpu_key_to_disk_length (key : btrfs_key) :
    (btrfs_cpu_key_to_disk key).length = 17 := by
  unfold btrfs_cpu_key_to_disk
  simp [le_bytes_length]

/-- A disk key written by `btrfs_cpu_key_to_disk` reads back as the key. -/
theorem btrfs_disk_key_to_cpu_of (key : btrfs_key) (hk : key.typed) (a c : List Nat) :
    btrfs_disk_key_to_cpu (a ++ (btrfs_cpu_key_to_disk key ++ c)) a.length = some key := by
  obtain ⟨h1, h2, h3⟩ := hk
  unfold btrfs_disk_key_to_cpu
  have hr := read_bytes_append a (btrfs_cpu_key_to_disk key) c
  rw [btrfs_cpu_key_to_disk_length] at hr
  simp only [sizeof_disk_key, hr]
  have e1 : (btrfs_cpu_key_to_disk key).take 8 = le_bytes 8 key.objectid := rfl
  have e2 : ((btrfs_cpu_key_to_disk key).drop 8).take 1 = le_bytes 1 key.type := rfl
  have e3 : (btrfs_cpu_key_to_disk key).drop 9 = le_bytes 8 key.offset := rfl
  rw [e1, e2, e3, le_value_le_bytes 8 _ h1, le_value_le_bytes 1 _ h2, le_value_le_bytes 8 _ h3]

/-- The bytes of the stripes of a chunk item. -/
theorem stripes_at_of : ∀ (stripes : List btrfs_stripe) (a c : List Nat),
    (∀ s ∈ stripes, s.devid < 18446744073709551616 ∧ s.offset < 18446744073709551616) →
    stripes_at (a ++ ((stripes.map (fun s => le_bytes 8 s.devid ++ le_bytes 8 s.offset)).flatten ++ c))
      a.length stripes.length = stripes
  | [], _, _, _ => rfl
  | s :: rest, a, c, h => by
    have hs := h s (List.mem_cons_self _ _)
    have hb : a ++ (((s :: rest).map (fun s => le_bytes 8 s.devid ++ le_bytes 8 s.offset)).flatten ++ c) =
        a ++ ((le_bytes 8 s.devid ++ le_bytes 8 s.offset) ++
          ((rest.map (fun s => le_bytes 8 s.devid ++ le_bytes 8 s.offset)).flatten ++ c)) := by
      simp
    have hr := read_bytes_append a (le_bytes 8 s.devid ++ le_bytes 8 s.offset)
      ((rest.map (fun s => le_bytes 8 s.devid ++ le_bytes 8 s.offset)).flatten ++ c)
    have hl : (le_bytes 8 s.devid ++ le_bytes 8 s.offset).length = 16 := by
      simp [le_bytes_length]
    rw [hl] at hr
    have hb2 : a ++ ((le_bytes 8 s.devid ++ le_bytes 8 s.offset) ++
          ((rest.map (fun s => le_bytes 8 s.devid ++ le_bytes 8 s.offset)).flatten ++ c)) =
        (a ++ (le_bytes 8 s.devid ++ le_bytes 8 s.offset)) ++
          ((rest.map (fun s => le_bytes 8 s.devid ++ le_bytes 8 s.offset)).flatten ++ c) := by
      simp
    have hl2 : (a ++ (le_bytes 8 s.devid ++ le_bytes 8 s.offset)).length = a.length + 16 := by
      rw [List.length_append, hl]
    have ih := stripes_at_of rest (a ++ (le_bytes 8 s.devid ++ le_bytes 8 s.offset)) c
      (fun t ht => h t (List.mem_cons_of_mem _ ht))
    rw [hl2, ← hb2] at ih
    rw [hb]
    show (match read_bytes _ a.length 16 with
      | none => []
      | some b => { devid := le_value (b.take 8), offset := le_value (b.drop 8) } ::
          stripes_at _ (a.length + 16) rest.length) = s :: rest
    rw [hr, ih]
    have e1 : (le_bytes 8 s.devid ++ le_bytes 8 s.offset).take 8 = le_bytes 8 s.devid := rfl
    have e2 : (le_bytes 8 s.devid ++ le_bytes 8 s.offset).drop 8 = le_bytes 8 s.offset := rfl
    simp only [e1, e2, le_value_le_bytes 8 _ hs.1, le_value_le_bytes 8 _ hs.2]
theorem stripes_bytes_length : ∀ (stripes : List btrfs_stripe),
    ((stripes.map (fun s => le_bytes 8 s.devid ++ le_bytes 8 s.offset)).flatten).length =
      16 * stripes.length
  | [] => rfl
  | s :: rest => by
    simp only [List.map_cons, List.flatten_cons, List.length_append, List.length_cons,
      le_bytes_length, stripes_bytes_length rest]
    omega

theorem chunk_item_bytes_length (c : btrfs_chunk) :
    (chunk_item_bytes c).length = 48 + 16 * c.stripes.length := by
  unfold chunk_item_bytes
  simp only [List.length_append, le_bytes_length, stripes_bytes_length]

/-- A chunk item written as bytes reads back, through the accessors, as the
chunk item. -/
theorem btrfs_chunk_at_of (c : btrfs_chunk) (hc : c.typed) (a post : List Nat) :
    btrfs_chunk_at (a ++ (chunk_item_bytes c ++ post)) a.length = some c := by
  obtain ⟨h1, h2, h3, h4, h5, h6, h7, h8, h9⟩ := hc
  have hF : (le_bytes 8 0 ++ le_bytes 8 c.owner ++ le_bytes 8 c.stripe_len ++ le_bytes 8 c.type ++
      le_bytes 4 c.io_align ++ le_bytes 4 c.io_width ++ le_bytes 4 c.sector_size ++
      le_bytes 2 c.num_stripes ++ le_bytes 2 0).length = 48 := by
    simp only [List.length_append, le_bytes_length]
  generalize hFd : le_bytes 8 0 ++ le_bytes 8 c.owner ++ le_bytes 8 c.stripe_len ++
      le_bytes 8 c.type ++ le_bytes 4 c.io_align ++ le_bytes 4 c.io_width ++
      le_bytes 4 c.sector_size ++ le_bytes 2 c.num_stripes ++ le_bytes 2 0 = F at hF
  have hb : a ++ (chunk_item_bytes c ++ post) =
      a ++ (F ++ ((c.stripes.map (fun s => le_bytes 8 s.devid ++ le_bytes 8 s.offset)).flatten ++
        post)) := by
    unfold chunk_item_bytes
    rw [hFd, List.append_assoc]
  have hb2 : a ++ (chunk_item_bytes c ++ post) =
      (a ++ F) ++ ((c.stripes.map (fun s => le_bytes 8 s.devid ++ le_bytes 8 s.offset)).flatten ++
        post) := by
    rw [hb, List.append_assoc]
  have hr := read_bytes_append a F
    ((c.stripes.map (fun s => le_bytes 8 s.devid ++ le_bytes 8 s.offset)).flatten ++ post)
  rw [hF, ← hb] at hr
  have hst := stripes_at_of c.stripes (a ++ F) post h9
  rw [List.length_append, hF, ← hb2, h8] at hst
  have e1 : le_value ((F.drop 8).take 8) = c.owner := by
    rw [← hFd]; exact le_value_le_bytes 8 _ h1
  have e2 : le_value ((F.drop 16).take 8) = c.stripe_len := by
    rw [← hFd]; exact le_value_le_bytes 8 _ h2
  have e3 : le_value ((F.drop 24).take 8) = c.type := by
    rw [← hFd]; exact le_value_le_bytes 8 _ h3
  have e4 : le_value ((F.drop 32).take 4) = c.io_align := by
    rw [← hFd]; exact le_value_le_bytes 4 _ h4
  have e5 : le_value ((F.drop 36).take 4) = c.io_width := by
    rw [← hFd]; exact le_value_le_bytes 4 _ h5
  have e6 : le_value ((F.drop 40).take 4) = c.sector_size := by
    rw [← hFd]; exact le_value_le_bytes 4 _ h6
  have e7 : le_value ((F.drop 44).take 2) = c.num_stripes := by
    rw [← hFd]; exact le_value_le_bytes 2 _ h7
  unfold btrfs_chunk_at
  simp only [hr, e1, e2, e3, e4, e5, e6, e7, hst]
/-- The bytes read from the copy of a memory in a larger buffer are the bytes
read from the memory. -/
theorem read_bytes_copy (mem a post : List Nat) (sz off len : Nat)
    (h1 : off + len ≤ sz) (h2 : sz ≤ mem.length) :
    read_bytes (a ++ (mem.take sz ++ post)) (a.length + off) len = read_bytes mem off len := by
  unfold read_bytes
  have hl : (mem.take sz).length = sz := by
    rw [List.length_take]; exact Nat.min_eq_left h2
  rw [if_pos (by simp only [List.length_append, hl]; omega), if_pos (by omega)]
  congr 1
  rw [List.drop_append, List.drop_append_of_le_length (by rw [hl]; omega),
    List.take_append_of_le_length (by rw [List.length_drop, hl]; omega),
    List.drop_take, List.take_take]
  congr 1
  omega

theorem stripes_at_copy (mem a post : List Nat) (sz : Nat) (h2 : sz ≤ mem.length) :
    ∀ (n off : Nat), off + 16 * n ≤ sz →
      stripes_at (a ++ (mem.take sz ++ post)) (a.length + off) n = stripes_at mem off n
  | 0, _, _ => rfl
  | n + 1, off, h => by
    simp only [stripes_at]
    rw [read_bytes_copy mem a post sz off 16 (by omega) h2, Nat.add_assoc,
      stripes_at_copy mem a post sz h2 n (off + 16) (by omega)]

/-- The accessors read from the copy of the memory of a chunk item in a larger
buffer the chunk item they read from the memory. -/
theorem btrfs_chunk_at_copy (mem a post : List Nat) (c : btrfs_chunk)
    (hdec : btrfs_chunk_at mem 0 = some c)
    (hsz : btrfs_chunk_item_size c.num_stripes ≤ mem.length) :
    btrfs_chunk_at (a ++ (mem.take (btrfs_chunk_item_size c.num_stripes) ++ post)) a.length =
      some c := by
  unfold btrfs_chunk_at at hdec ⊢
  have hr := read_bytes_copy mem a post (btrfs_chunk_item_size c.num_stripes) 0 48
    (by unfold btrfs_chunk_item_size; omega) hsz
  rw [Nat.add_zero] at hr
  rw [hr]
  cases hb : read_bytes mem 0 48 with
  | none => rw [hb] at hdec; exact absurd hdec (by simp)
  | some b =>
    rw [hb] at hdec
    simp only at hdec ⊢
    have hc := Option.some.inj hdec
    have hn : le_value ((b.drop 44).take 2) = c.num_stripes := by
      rw [← hc]
    have hs := stripes_at_copy mem a post (btrfs_chunk_item_size c.num_stripes) hsz
      c.num_stripes 48 (by unfold btrfs_chunk_item_size; omega)
    rw [hn, hs]
    rw [hn, Nat.zero_add] at hdec
    exact hdec
theorem memcpy_append (pre post src : List Nat) (r : List Nat)
    (h : memcpy (pre ++ post) pre.length src = some r) :
    src.length ≤ post.length ∧ r = pre ++ (src ++ post.drop src.length) := by
  unfold memcpy at h
  split at h
  · rename_i hle
    rw [List.length_append] at hle
    refine ⟨by omega, ?_⟩
    have h1 := (Option.some.inj h).symm
    rw [h1, List.take_left, List.drop_append, List.append_assoc]
  · exact absurd h (by simp)

/-- A call of `btrfs_add_system_chunk` that returns 0 has written the disk key
and the `item_size` bytes of the chunk item behind the bytes in use and has
added their length to the stored size. -/
theorem btrfs_add_system_chunk_ok (K : ctree_consts) (sb sb1 : btrfs_super_block)
    (key : btrfs_key) (mem : List Nat) (sz : Nat) (pre post : List Nat)
    (hsz : sz ≤ mem.length)
    (harr : sb.sys_chunk_array = pre ++ post) (hpre : pre.length = sb.sys_array_size)
    (hlen : (pre ++ post).length < 4294967296)
    (h : btrfs_add_system_chunk K sb key mem sz = .ok (.ok sb1)) :
    (btrfs_cpu_key_to_disk key ++ mem.take sz).length ≤ post.length ∧
    sb1.sys_chunk_array = pre ++ ((btrfs_cpu_key_to_disk key ++ mem.take sz) ++
      post.drop (btrfs_cpu_key_to_disk key ++ mem.take sz).length) ∧
    sb1.sys_array_size = pre.length + (btrfs_cpu_key_to_disk key ++ mem.take sz).length := by
  have hcl : (mem.take sz).length = sz := by
    rw [List.length_take]; exact Nat.min_eq_left hsz
  have hkl := btrfs_cpu_key_to_disk_length key
  have htn : ((sz : Nat) : Int).toNat = sz := Int.toNat_ofNat sz
  have hnn : ¬ (((sz : Nat) : Int) < 0 ∨ sz > mem.length) := by
    intro h0
    rcases h0 with h0 | h0
    · exact absurd h0 (not_lt.mpr (Int.ofNat_nonneg _))
    · omega
  unfold btrfs_add_system_chunk at h
  simp only [htn, hnn, if_false, harr, ← hpre] at h
  split at h
  · exact absurd h (by simp)
  · split at h
    · exact absurd h (by simp)
    · rename_i array1 hm1
      obtain ⟨hle1, ha1⟩ := memcpy_append pre post _ _ hm1
      rw [hkl] at hle1 ha1
      have ha1b : array1 = (pre ++ btrfs_cpu_key_to_disk key) ++ post.drop 17 := by
        rw [ha1, List.append_assoc]
      have hl1 : (pre ++ btrfs_cpu_key_to_disk key).length = pre.length + sizeof_disk_key := by
        rw [List.length_append, hkl]; rfl
      rw [ha1b, ← hl1] at h
      split at h
      · exact absurd h (by simp)
      · rename_i array2 hm2
        obtain ⟨hle2, ha2⟩ := memcpy_append _ _ _ _ hm2
        rw [List.length_drop] at hle2
        have hsb := (Except.ok.inj (Except.ok.inj h)).symm
        have htot : (btrfs_cpu_key_to_disk key ++ mem.take sz).length =
            17 + (mem.take sz).length := by
          rw [List.length_append, hkl]
        refine ⟨by omega, ?_, ?_⟩
        · rw [hsb]
          show array2 = _
          rw [ha2, List.drop_drop, htot]
          simp only [List.append_assoc]
        · rw [hsb]
          show u32 (pre.length + u32_of_int (((sz : Nat) : Int) + (sizeof_disk_key : Nat))) = _
          rw [htot, hcl]
          rw [List.length_append] at hlen
          rw [hcl] at hle2
          unfold u32 u32_of_int sizeof_disk_key
          omega
theorem sys_array_bytes_cons (memory : btrfs_key × btrfs_chunk → List Nat)
    (e : btrfs_key × btrfs_chunk) (rest : List (btrfs_key × btrfs_chunk)) :
    sys_array_bytes memory (e :: rest) =
      (btrfs_cpu_key_to_disk e.1 ++ (memory e).take (btrfs_chunk_item_size e.2.num_stripes)) ++
        sys_array_bytes memory rest := rfl

/-- A sequence of calls of `btrfs_add_system_chunk` that all return 0 has
written the packed stream of the entries behind the bytes in use. -/
theorem add_system_chunks_ok (K : ctree_consts) (memory : btrfs_key × btrfs_chunk → List Nat) :
    ∀ (entries : List (btrfs_key × btrfs_chunk)) (sb sb1 : btrfs_super_block)
      (pre post : List Nat),
      (∀ e ∈ entries, btrfs_chunk_item_size e.2.num_stripes ≤ (memory e).length) →
      sb.sys_chunk_array = pre ++ post → pre.length = sb.sys_array_size →
      (pre ++ post).length < 4294967296 →
      add_system_chunks K memory sb entries = .ok (.ok sb1) →
      (sys_array_bytes memory entries).length ≤ post.length ∧
      sb1.sys_chunk_array = pre ++ (sys_array_bytes memory entries ++
        post.drop (sys_array_bytes memory entries).length) ∧
      sb1.sys_array_size = pre.length + (sys_array_bytes memory entries).length
  | [], sb, sb1, pre, post, _, harr, hpre, _, h => by
    have hsb : sb = sb1 := Except.ok.inj (Except.ok.inj h)
    rw [← hsb]
    refine ⟨Nat.zero_le _, ?_, ?_⟩
    · rw [harr]; rfl
    · rw [← hpre]; rfl
  | e :: rest, sb, sb1, pre, post, hty, harr, hpre, hlen, h => by
    unfold add_system_chunks at h
    cases hadd : btrfs_add_system_chunk K sb e.1 (memory e)
        (btrfs_chunk_item_size e.2.num_stripes) with
    | error f => rw [hadd] at h; exact absurd h (by simp)
    | ok r =>
      cases r with
      | error x => rw [hadd] at h; exact absurd h (by simp)
      | ok sb2 =>
        rw [hadd] at h
        simp only at h
        obtain ⟨g1, g2, g3⟩ := btrfs_add_system_chunk_ok K sb sb2 e.1 (memory e) _ pre post
          (hty e (List.mem_cons_self _ _)) harr hpre hlen hadd
        generalize hE : btrfs_cpu_key_to_disk e.1 ++
          (memory e).take (btrfs_chunk_item_size e.2.num_stripes) = E at g1 g2 g3
        have harr2 : sb2.sys_chunk_array = (pre ++ E) ++ post.drop E.length := by
          rw [g2, List.append_assoc]
        have hpre2 : (pre ++ E).length = sb2.sys_array_size := by
          rw [g3, List.length_append]
        have hlen2 : ((pre ++ E) ++ post.drop E.length).length < 4294967296 := by
          simp only [List.length_append, List.length_drop] at hlen ⊢
          omega
        obtain ⟨k1, k2, k3⟩ := add_system_chunks_ok K memory rest sb2 sb1 (pre ++ E)
          (post.drop E.length) (fun t ht => hty t (List.mem_cons_of_mem _ ht)) harr2 hpre2 hlen2 h
        rw [List.length_drop] at k1
        rw [sys_array_bytes_cons, hE]
        refine ⟨?_, ?_, ?_⟩
        · rw [List.length_append]; omega
        · rw [k2, List.drop_drop, List.length_append]
          simp only [List.append_assoc]
        · rw [k3, List.length_append, List.length_append]; omega

/-- The loop of `btrfs_read_sys_array` over the packed stream of a list of
entries: it visits the entries in order, calls `read_one_chunk` on each, and
is left with `ptr` and `cur` at the stored size. -/
theorem sys_array_walk_of (K : ctree_consts) (memory : btrfs_key × btrfs_chunk → List Nat)
    (sb : btrfs_super_block) :
    ∀ (entries : List (btrfs_key × btrfs_chunk)) (pre post : List Nat) (fuel : Nat),
      sb.sys_chunk_array = pre ++ (sys_array_bytes memory entries ++ post) →
      sb.sys_array_size = pre.length + (sys_array_bytes memory entries).length →
      sb.sys_array_size < 4294967296 →
      (∀ e ∈ entries, e.1.typed ∧ e.1.type = K.BTRFS_CHUNK_ITEM_KEY ∧
        btrfs_chunk_at (memory e) 0 = some e.2 ∧
        btrfs_chunk_item_size e.2.num_stripes ≤ (memory e).length) →
      entries.length ≤ fuel →
      sys_array_entries_loop K sb fuel pre.length pre.length = some entries ∧
      sys_array_end_loop K sb fuel pre.length pre.length =
        some (sb.sys_array_size, sb.sys_array_size) ∧
      ∀ info, read_sys_array_loop K sb fuel pre.length pre.length info =
        some (read_entries info entries)
  | [], pre, post, fuel, _, hsize, _, _, _ => by
    have hs : sb.sys_array_size = pre.length := by
      rw [hsize]; rfl
    have hcur : ¬ pre.length < sb.sys_array_size := by
      rw [hs]; exact Nat.lt_irrefl _
    have hcur2 : ¬ pre.length < pre.length := Nat.lt_irrefl _
    cases fuel with
    | zero =>
      refine ⟨?_, ?_, fun info => ?_⟩
      · simp only [sys_array_entries_loop, hcur, if_false]
      · simp only [sys_array_end_loop, hs, hcur2, if_false]
      · simp only [read_sys_array_loop, hcur, if_false, read_entries]
    | succ f =>
      refine ⟨?_, ?_, fun info => ?_⟩
      · simp only [sys_array_entries_loop, hcur, if_false]
      · simp only [sys_array_end_loop, hs, hcur2, if_false]
      · simp only [read_sys_array_loop, hcur, if_false, read_entries]
  | e :: rest, pre, post, fuel, harr, hsize, hlt, hty, hfuel => by
    obtain ⟨hk, hkt, hdec, hsz⟩ := hty e (List.mem_cons_self _ _)
    have hkl := btrfs_cpu_key_to_disk_length e.1
    have hcl : ((memory e).take (btrfs_chunk_item_size e.2.num_stripes)).length =
        48 + 16 * e.2.num_stripes := by
      rw [List.length_take]; exact Nat.min_eq_left hsz
    rw [sys_array_bytes_cons] at harr hsize
    rw [List.length_append, List.length_append, hkl, hcl] at hsize
    generalize hM : (memory e).take (btrfs_chunk_item_size e.2.num_stripes) = M at harr hcl
    cases fuel with
    | zero => exact absurd hfuel (by simp)
    | succ f =>
      have hcur : pre.length < sb.sys_array_size := by omega
      have hb1 : sb.sys_chunk_array = pre ++ (btrfs_cpu_key_to_disk e.1 ++
          (M ++ (sys_array_bytes memory rest ++ post))) := by
        rw [harr]; simp only [List.append_assoc]
      have hb2 : sb.sys_chunk_array = (pre ++ btrfs_cpu_key_to_disk e.1) ++
          (M ++ (sys_array_bytes memory rest ++ post)) := by
        rw [hb1]; simp only [List.append_assoc]
      have hb3 : sb.sys_chunk_array =
          (pre ++ (btrfs_cpu_key_to_disk e.1 ++ M)) ++
          (sys_array_bytes memory rest ++ post) := by
        rw [hb1]; simp only [List.append_assoc]
      have hkey : btrfs_disk_key_to_cpu sb.sys_chunk_array pre.length = some e.1 := by
        rw [hb1]; exact btrfs_disk_key_to_cpu_of e.1 hk _ _
      have hchunk : btrfs_chunk_at sb.sys_chunk_array (pre.length + sizeof_disk_key) =
          some e.2 := by
        have := btrfs_chunk_at_copy (memory e) (pre ++ btrfs_cpu_key_to_disk e.1)
          (sys_array_bytes memory rest ++ post) e.2 hdec hsz
        rw [hM, ← hb2, List.length_append, hkl] at this
        exact this
      have hl3 : (pre ++ (btrfs_cpu_key_to_disk e.1 ++ M)).length =
          pre.length + 17 + (48 + 16 * e.2.num_stripes) := by
        rw [List.length_append, List.length_append, hkl, hcl]; omega
      have hpos : pre.length + sizeof_disk_key + u32 (btrfs_chunk_item_size e.2.num_stripes) =
          (pre ++ (btrfs_cpu_key_to_disk e.1 ++ M)).length := by
        rw [hl3]
        unfold u32 btrfs_chunk_item_size sizeof_disk_key
        omega
      have hcur2 : u32 (u32 (pre.length + sizeof_disk_key) +
          u32 (btrfs_chunk_item_size e.2.num_stripes)) =
          (pre ++ (btrfs_cpu_key_to_disk e.1 ++ M)).length := by
        rw [hl3]
        unfold u32 btrfs_chunk_item_size sizeof_disk_key
        omega
      obtain ⟨i1, i2, i3⟩ := sys_array_walk_of K memory sb rest
        (pre ++ (btrfs_cpu_key_to_disk e.1 ++ M)) post f hb3
        (by rw [hl3]; omega) hlt (fun t ht => hty t (List.mem_cons_of_mem _ ht))
        (Nat.le_of_succ_le_succ hfuel)
      refine ⟨?_, ?_, fun info => ?_⟩
      · simp only [sys_array_entries_loop, hcur, if_true, hkey, hkt, hchunk, hpos, hcur2, i1]
      · simp only [sys_array_end_loop, hcur, if_true, hkey, hkt, hchunk, hpos, hcur2, i2]
      · simp only [read_sys_array_loop, hcur, if_true, hkey, hkt, hchunk, read_entries]
        cases read_one_chunk info e.1 e.2 with
        | error x => rfl
        | ok r =>
          cases r with
          | error x => rfl
          | ok info1 =>
            simp only [hpos, hcur2, i3]
theorem sys_array_bytes_length_ge (memory : btrfs_key × btrfs_chunk → List Nat) :
    ∀ (entries : List (btrfs_key × btrfs_chunk)),
      entries.length ≤ (sys_array_bytes memory entries).length
  | [] => Nat.le_refl _
  | e :: rest => by
    rw [sys_array_bytes_cons, List.length_append, List.length_append,
      btrfs_cpu_key_to_disk_length, List.length_cons]
    have := sys_array_bytes_length_ge memory rest
    omega

theorem add_system_chunks_gives_ok (r : Except fault (Except errno btrfs_super_block))
    (s : btrfs_super_block) (h : add_system_chunks_gives r s = true) : r = .ok (.ok s) := by
  unfold add_system_chunks_gives at h
  split at h
  · rw [of_decide_eq_true h]
  · exact absurd h (by simp)

/-- C21: what is appended to the array of system chunks is what is read.
Starting from an empty array (stored size 0), let `btrfs_add_system_chunk` have
returned 0 for the entries `(key_1, chunk_1) .. (key_k, chunk_k)` in turn, each
key of type `CHUNK_ITEM_KEY`, each call with a memory from which the accessors
read `chunk_i` and with `item_size = btrfs_chunk_item_size(num_stripes)` bytes
of it. Then the first `sys_array_size` bytes of the array are the packed stream
of the entries, the loop of `btrfs_read_sys_array` on these bytes ends, visits
exactly the `k` entries in the order of the calls with every key and chunk item
decoded as it was passed, calls `read_one_chunk` on them in that order, and is
left with `ptr` and `cur` at `sys_array_size`. -/
theorem btrfs_read_sys_array_round_trip (K : ctree_consts)
    (memory : btrfs_key × btrfs_chunk → List Nat) (sb0 sb : btrfs_super_block)
    (entries : List (btrfs_key × btrfs_chunk))
    (h0 : sb0.sys_array_size = 0)
    (hlen : sb0.sys_chunk_array.length < 4294967296)
    (hty : ∀ e ∈ entries, e.1.typed ∧ e.1.type = K.BTRFS_CHUNK_ITEM_KEY ∧
      btrfs_chunk_at (memory e) 0 = some e.2 ∧
      btrfs_chunk_item_size e.2.num_stripes ≤ (memory e).length)
    (hadd : add_system_chunks K memory sb0 entries = .ok (.ok sb)) :
    sb.sys_chunk_array.take sb.sys_array_size = sys_array_bytes memory entries ∧
    sys_array_entries K sb = some entries ∧
    sys_array_end K sb = some (sb.sys_array_size, sb.sys_array_size) ∧
    ∀ info, btrfs_read_sys_array K sb info = some (read_entries info entries) := by
  obtain ⟨g1, g2, g3⟩ := add_system_chunks_ok K memory entries sb0 sb [] sb0.sys_chunk_array
    (fun e he => (hty e he).2.2.2) rfl h0.symm hlen hadd
  rw [List.nil_append] at g2
  have hsize : sb.sys_array_size = (sys_array_bytes memory entries).length := by
    rw [g3]; exact Nat.zero_add _
  have hlt : sb.sys_array_size < 4294967296 := by
    rw [hsize]; omega
  have hfuel : entries.length ≤ sb.sys_array_size := by
    rw [hsize]; exact sys_array_bytes_length_ge memory entries
  obtain ⟨i1, i2, i3⟩ := sys_array_walk_of K memory sb entries []
    (sb0.sys_chunk_array.drop (sys_array_bytes memory entries).length) sb.sys_array_size
    (by rw [g2, List.nil_append]) g3 hlt hty hfuel
  refine ⟨?_, i1, i2, i3⟩
  rw [g2, hsize, List.take_left]

/-- Witness of C21: the system chunks `[0, 8 MiB)` with one stripe and
`[8 MiB, 24 MiB)` with two stripes are appended to an empty array of 2048
bytes; the 178 bytes in use read back as the two entries. -/
theorem btrfs_read_sys_array_round_trip_witness :
    add_system_chunks K0 (fun e => chunk_item_bytes e.2) ex_super_empty ex_sys_entries =
      .ok (.ok ex_super_two) ∧
    ex_super_two.sys_array_size = 178 ∧
    ex_super_two.sys_chunk_array.take ex_super_two.sys_array_size =
      sys_array_bytes (fun e => chunk_item_bytes e.2) ex_sys_entries ∧
    sys_array_entries K0 ex_super_two = some ex_sys_entries ∧
    sys_array_end K0 ex_super_two =
      some (ex_super_two.sys_array_size, ex_super_two.sys_array_size) ∧
    ∀ info, btrfs_read_sys_array K0 ex_super_two info =
      some (read_entries info ex_sys_entries) :=
  ⟨add_system_chunks_gives_ok _ _ (by decide!), rfl,
    btrfs_read_sys_array_round_trip K0 (fun e => chunk_item_bytes e.2) ex_super_empty
      ex_super_two ex_sys_entries rfl (by decide!) (by decide)
      (add_system_chunks_gives_ok _ _ (by decide!))⟩

end Volumes
